import Mathlib

/-!
Minimap overlay (`minimap.c`): embedding and verified properties

The C translation unit keeps its state in file-scope statics and computes with `float`
(IEEE-754 binary32) values.  The embedding below

* represents a `float` by the integer number of units of `2 ^ (-149)` (the least subnormal)
  it denotes, a `double` by the number of units of `2 ^ (-1074)`, and rounds the exact result
  of every arithmetic operation to nearest, ties to even (`roundFrac`); it thus assumes
  `FLT_EVAL_METHOD = 0` and no fused multiply-add contraction.  Overflow to infinity, NaN and
  the sign of zero are outside the model (no value of the program on the inputs considered
  comes near `FLT_MAX`), and a division by zero, which the C code never performs on those
  inputs, evaluates to `0`.  The arithmetic is written with the functions `Nat.add`,
  `Nat.mul`, … rather than with `+`, `*`, … because these reduce much faster;
* represents the `unsigned char` trail buffer as a map from byte offsets to `Fin 256`, the
  pointer `trailPixelData` as an `Option` of it;
* threads the statics through every function as a record (`Minimap`) together with two ghost
  components: the trace of external calls (GL, libc, shader utility) and the list of buffer
  offsets that were read or written.
-/

namespace PlaneSim

/-! ## Binary floating point -/

/-- The stride `w` when `2 ^ w ≤ n`, and `0` otherwise. -/
def stride (w n : ℕ) : ℕ := Nat.mul w (Nat.sub 1 (Nat.sub 1 (Nat.shiftRight n w)))

/-- Bit length of a number below `2 ^ 2`, added to `acc`. -/
def bitlen2 (n acc : ℕ) : ℕ :=
  Nat.add (Nat.add acc (stride 1 n)) (Nat.shiftRight n (stride 1 n))
/-- Bit length of a number below `2 ^ 4`, added to `acc`. -/
def bitlen4 (n acc : ℕ) : ℕ :=
  bitlen2 (Nat.shiftRight n (stride 2 n)) (Nat.add acc (stride 2 n))
/-- Bit length of a number below `2 ^ 8`, added to `acc`. -/
def bitlen8 (n acc : ℕ) : ℕ :=
  bitlen4 (Nat.shiftRight n (stride 4 n)) (Nat.add acc (stride 4 n))
/-- Bit length of a number below `2 ^ 16`, added to `acc`. -/
def bitlen16 (n acc : ℕ) : ℕ :=
  bitlen8 (Nat.shiftRight n (stride 8 n)) (Nat.add acc (stride 8 n))
/-- Bit length of a number below `2 ^ 32`, added to `acc`. -/
def bitlen32 (n acc : ℕ) : ℕ :=
  bitlen16 (Nat.shiftRight n (stride 16 n)) (Nat.add acc (stride 16 n))
/-- Bit length of a number below `2 ^ 64`, added to `acc`. -/
def bitlen64 (n acc : ℕ) : ℕ :=
  bitlen32 (Nat.shiftRight n (stride 32 n)) (Nat.add acc (stride 32 n))
/-- Bit length of a number below `2 ^ 128`, added to `acc`. -/
def bitlen128 (n acc : ℕ) : ℕ :=
  bitlen64 (Nat.shiftRight n (stride 64 n)) (Nat.add acc (stride 64 n))
/-- Bit length of a number below `2 ^ 256`, added to `acc`. -/
def bitlen256 (n acc : ℕ) : ℕ :=
  bitlen128 (Nat.shiftRight n (stride 128 n)) (Nat.add acc (stride 128 n))

/-- Bit length by strides of 256 bits; the first argument bounds the number of strides. -/
def bitlenFuel : ℕ → ℕ → ℕ → ℕ
  | 0, _, acc => acc
  | fuel + 1, n, acc =>
    cond (Nat.ble (Nat.pow 2 256) n) (bitlenFuel fuel (Nat.shiftRight n 256) (Nat.add acc 256))
      (bitlen256 n acc)

/-- Number of binary digits of `n`: the least `L` with `n < 2 ^ L`. -/
def bitlen (n : ℕ) : ℕ := bitlenFuel (Nat.succ n) n 0

/-- Round the fraction `N / D` to the nearest natural number that has at most `p`
significant binary digits, ties to the even significand (`0` when `D = 0`). -/
def roundFrac (p N D : ℕ) : ℕ :=
  let k := Nat.sub (bitlen (Nat.div N D)) p
  let D1 := Nat.shiftLeft D k
  let q := Nat.div N D1
  let r2 := Nat.mul 2 (Nat.mod N D1)
  let up := cond (Nat.ble r2 D1) (cond (Nat.beq r2 D1) (Nat.mod q 2) 0) 1
  cond (Nat.beq D 0) 0 (Nat.shiftLeft (Nat.add q up) k)

/-- Newton iteration for the integer square root, from a start value above the root. -/
def isqrtFuel : ℕ → ℕ → ℕ → ℕ
  | 0, _, x => x
  | fuel + 1, n, x =>
    cond (Nat.ble x (Nat.div (Nat.add x (Nat.div n x)) 2)) x
      (isqrtFuel fuel n (Nat.div (Nat.add x (Nat.div n x)) 2))

/-- Integer square root `⌊√n⌋`. -/
def isqrt (n : ℕ) : ℕ :=
  cond (Nat.beq n 0) 0
    (isqrtFuel (Nat.succ (bitlen n)) n (Nat.pow 2 (Nat.div (Nat.succ (bitlen n)) 2)))

/-- Round `√N` to the nearest natural number with at most `p` significant binary digits,
for `N ≥ 4 ^ p`: with `k` the number of digits to drop and `q = ⌊√N / 2 ^ k⌋`, the result is
`q * 2 ^ k` or `(q + 1) * 2 ^ k` according to the comparison of `N` with
`((q + 1/2) * 2 ^ k) ^ 2`. -/
def roundSqrt (p N : ℕ) : ℕ :=
  let k := Nat.sub (Nat.div (Nat.succ (bitlen N)) 2) p
  let q := isqrt (Nat.shiftRight N (Nat.mul 2 k))
  let lhs := Nat.mul 4 N
  let t := Nat.shiftLeft (Nat.succ (Nat.mul 2 q)) k
  let rhs := Nat.mul t t
  let up := cond (Nat.ble lhs rhs) (cond (Nat.beq lhs rhs) (Nat.mod q 2) 0) 1
  Nat.shiftLeft (Nat.add q up) k

/-- Attach the sign of `s` to the magnitude `n`. -/
def withSign (s : ℤ) (n : ℕ) : ℤ :=
  match s with
  | Int.ofNat _ => Int.ofNat n
  | Int.negSucc _ => Int.negOfNat n

/-- A `float`: the integer `units` stands for the value `units * 2 ^ (-149)`. -/
structure F32 where
  units : ℤ
  deriving DecidableEq, Repr

/-- A `double`: the integer `units` stands for the value `units * 2 ^ (-1074)`. -/
structure F64 where
  units : ℤ
  deriving DecidableEq, Repr

/-- The rational number denoted by a `float`. -/
def F32.toRat (x : F32) : ℚ := x.units / 2 ^ 149

/-- The rational number denoted by a `double`. -/
def F64.toRat (x : F64) : ℚ := x.units / 2 ^ 1074

/-- The `float` nearest to the fraction `n / d`; used for the decimal constants of the
source, e.g. `0.7f` is `F32.ofFrac 7 10`. -/
def F32.ofFrac (n : ℤ) (d : ℕ) : F32 :=
  ⟨withSign n (roundFrac 24 (Nat.mul n.natAbs (Nat.pow 2 149)) d)⟩

/-- Conversion `(float) n` of an integer. -/
def F32.ofInt (n : ℤ) : F32 := F32.ofFrac n 1

/-- The `double` nearest to the fraction `n / d`. -/
def F64.ofFrac (n : ℤ) (d : ℕ) : F64 :=
  ⟨withSign n (roundFrac 53 (Nat.mul n.natAbs (Nat.pow 2 1074)) d)⟩

/-- The (exact) promotion of a `float` to `double`. -/
def F32.toF64 (x : F32) : F64 := ⟨Int.mul x.units (Int.ofNat (Nat.pow 2 925))⟩

/-- The (rounding) conversion of a `double` to `float`. -/
def F64.toF32 (x : F64) : F32 :=
  ⟨withSign x.units (roundFrac 24 x.units.natAbs (Nat.pow 2 925))⟩

/-- The `float` values proper: the ones that rounding leaves unchanged, i.e. whose magnitude
has at most 24 significant binary digits. -/
def IsFloat (x : F32) : Prop := roundFrac 24 x.units.natAbs 1 = x.units.natAbs

instance (x : F32) : Decidable (IsFloat x) := by unfold IsFloat; infer_instance

instance : LT F32 := ⟨fun a b => a.units < b.units⟩
instance : LE F32 := ⟨fun a b => a.units ≤ b.units⟩
instance (a b : F32) : Decidable (a < b) := inferInstanceAs (Decidable (a.units < b.units))
instance (a b : F32) : Decidable (a ≤ b) := inferInstanceAs (Decidable (a.units ≤ b.units))
instance : LT F64 := ⟨fun a b => a.units < b.units⟩
instance (a b : F64) : Decidable (a < b) := inferInstanceAs (Decidable (a.units < b.units))

/-- Single-precision addition `a + b`. -/
def fadd (a b : F32) : F32 :=
  ⟨withSign (Int.add a.units b.units) (roundFrac 24 (Int.natAbs (Int.add a.units b.units)) 1)⟩
/-- Single-precision subtraction `a - b`. -/
def fsub (a b : F32) : F32 :=
  ⟨withSign (Int.sub a.units b.units) (roundFrac 24 (Int.natAbs (Int.sub a.units b.units)) 1)⟩
/-- Single-precision multiplication `a * b`. -/
def fmul (a b : F32) : F32 :=
  ⟨withSign (Int.mul a.units b.units)
    (roundFrac 24 (Nat.mul a.units.natAbs b.units.natAbs) (Nat.pow 2 149))⟩
/-- Single-precision division `a / b`. -/
def fdiv (a b : F32) : F32 :=
  ⟨withSign (Int.mul a.units b.units)
    (roundFrac 24 (Nat.mul a.units.natAbs (Nat.pow 2 149)) b.units.natAbs)⟩
/-- Single-precision negation `-a`. -/
def fneg (a : F32) : F32 := ⟨Int.neg a.units⟩
/-- The correctly rounded square root `sqrtf` (`0` for a negative argument). -/
def fsqrt (a : F32) : F32 :=
  match a.units with
  | Int.ofNat n => ⟨Int.ofNat (roundSqrt 24 (Nat.mul n (Nat.pow 2 149)))⟩
  | Int.negSucc _ => ⟨0⟩

/-- Double-precision addition `a + b`. -/
def dadd (a b : F64) : F64 :=
  ⟨withSign (Int.add a.units b.units) (roundFrac 53 (Int.natAbs (Int.add a.units b.units)) 1)⟩
/-- Double-precision subtraction `a - b`. -/
def dsub (a b : F64) : F64 :=
  ⟨withSign (Int.sub a.units b.units) (roundFrac 53 (Int.natAbs (Int.sub a.units b.units)) 1)⟩

/-- The C function `fmin`, on `float` arguments (promotion and result are exact). -/
def fmin (a b : F32) : F32 := if b < a then b else a
/-- The C function `fmax`, on `float` arguments (promotion and result are exact). -/
def fmax (a b : F32) : F32 := if a < b then b else a

/-- The C function `floorf`, with the conversion of its result to `int`. -/
def floorf (x : F32) : ℤ := x.units / 2 ^ 149
/-- The C function `ceilf`, with the conversion of its result to `int`. -/
def ceilf (x : F32) : ℤ := -((-x.units) / 2 ^ 149)

/-- A byte (`unsigned char`). -/
abbrev Byte := Fin 256

/-- Conversion `(unsigned char) x` of a `float`: the fractional part is discarded
(truncation toward zero).  C leaves the conversion undefined when the truncated value is not
in `0 .. 255`; the model then reduces modulo `256`. -/
def toUChar (x : F32) : Byte :=
  match x.units with
  | Int.ofNat n => Fin.ofNat (Nat.mod (Nat.shiftRight n 149) 256)
  | Int.negSucc n =>
    Fin.ofNat (Nat.mod (Nat.sub 256 (Nat.mod (Nat.shiftRight (Nat.succ n) 149) 256)) 256)

/-- Conversion `(float) b` of a byte. -/
def ofUChar (b : Byte) : F32 := ⟨Int.ofNat (Nat.mul b.val (Nat.pow 2 149))⟩

/-! ## The cglm helpers used by the file -/

abbrev Vec2 := F32 × F32
abbrev Vec3 := F32 × F32 × F32

/-- The cglm function `glm_vec2_dot`. -/
def glm_vec2_dot (a b : Vec2) : F32 := fadd (fmul a.1 b.1) (fmul a.2 b.2)

/-- The cglm function `glm_vec2_distance`: `sqrtf` of the squared distance
`(b[0] - a[0])² + (b[1] - a[1])²`. -/
def glm_vec2_distance (a b : Vec2) : F32 :=
  fsqrt (fadd (fmul (fsub b.1 a.1) (fsub b.1 a.1)) (fmul (fsub b.2 a.2) (fsub b.2 a.2)))

/-- The cglm function `glm_clamp`: `glm_min (glm_max val minVal) maxVal`. -/
def glm_clamp (val minVal maxVal : F32) : F32 :=
  let m := if minVal < val then val else minVal
  if m < maxVal then m else maxVal

/-- The cglm function `glm_smoothstep`: with `t` the clamped ratio
`(x - edge0) / (edge1 - edge0)`, the value `t * t * (3 - 2 * t)`. -/
def glm_smoothstep (edge0 edge1 x : F32) : F32 :=
  let t := glm_clamp (fdiv (fsub x edge0) (fsub edge1 edge0)) (F32.ofInt 0) (F32.ofInt 1)
  fmul (fmul t t) (fsub (F32.ofInt 3) (fmul (F32.ofInt 2) t))

/-- The cglm function `glm_vec3_lerp`: `from + t * (to - from)` per component. -/
def glm_vec3_lerp (src dst : Vec3) (t : F32) : Vec3 :=
  (fadd src.1 (fmul t (fsub dst.1 src.1)),
   fadd src.2.1 (fmul t (fsub dst.2.1 src.2.1)),
   fadd src.2.2 (fmul t (fsub dst.2.2 src.2.2)))

/-! ## Procedural drawing helpers -/

/-- A triangle `vec2 tri[3]`. -/
abbrev Tri := Vec2 × Vec2 × Vec2

/-- The first edge function `d1` of `is_inside_triangle`. -/
def edge_d1 (p : Vec2) (tri : Tri) : F32 :=
  fsub (fmul (fsub p.1 tri.2.1.1) (fsub tri.1.2 tri.2.1.2))
       (fmul (fsub tri.1.1 tri.2.1.1) (fsub p.2 tri.2.1.2))

/-- The second edge function `d2` of `is_inside_triangle`. -/
def edge_d2 (p : Vec2) (tri : Tri) : F32 :=
  fsub (fmul (fsub p.1 tri.2.2.1) (fsub tri.2.1.2 tri.2.2.2))
       (fmul (fsub tri.2.1.1 tri.2.2.1) (fsub p.2 tri.2.2.2))

/-- The third edge function `d3` of `is_inside_triangle`. -/
def edge_d3 (p : Vec2) (tri : Tri) : F32 :=
  fsub (fmul (fsub p.1 tri.1.1) (fsub tri.2.2.2 tri.1.2))
       (fmul (fsub tri.2.2.1 tri.1.1) (fsub p.2 tri.1.2))

/-- The function `is_inside_triangle`. -/
def is_inside_triangle (p : Vec2) (tri : Tri) : Bool :=
  let d1 := edge_d1 p tri
  let d2 := edge_d2 p tri
  let d3 := edge_d3 p tri
  let has_neg :=
    decide (d1 < F32.ofInt 0) || decide (d2 < F32.ofInt 0) || decide (d3 < F32.ofInt 0)
  let has_pos :=
    decide (F32.ofInt 0 < d1) || decide (F32.ofInt 0 < d2) || decide (F32.ofInt 0 < d3)
  !(has_neg && has_pos)

/-- The function `signed_dist_to_edge`. -/
def signed_dist_to_edge (p v0 v1 : Vec2) : F32 :=
  let pv : Vec2 := (fsub p.1 v0.1, fsub p.2 v0.2)
  let vv : Vec2 := (fsub v1.1 v0.1, fsub v1.2 v0.2)
  let h :=
    glm_clamp (fdiv (glm_vec2_dot pv vv) (glm_vec2_dot vv vv)) (F32.ofInt 0) (F32.ofInt 1)
  let proj_point : Vec2 := (fmul vv.1 h, fmul vv.2 h)
  glm_vec2_distance pv proj_point

/-- The function `signed_dist_to_triangle`; `tri2 = none` stands for the `NULL` argument. -/
def signed_dist_to_triangle (p : Vec2) (tri1 : Tri) (tri2 : Option Tri) : F32 :=
  let d := signed_dist_to_edge p tri1.1 tri1.2.1
  let d := fmin d (signed_dist_to_edge p tri1.2.1 tri1.2.2)
  let d := fmin d (signed_dist_to_edge p tri1.2.2 tri1.1)
  match tri2 with
  | none => d
  | some t2 =>
    let d := fmin d (signed_dist_to_edge p t2.1 t2.2.1)
    let d := fmin d (signed_dist_to_edge p t2.2.1 t2.2.2)
    fmin d (signed_dist_to_edge p t2.2.2 t2.1)

/-! ## State of the translation unit and its environment -/

/-- External calls made by the translation unit, in the order of the ghost trace. -/
inductive Event where
  | createShaderProgram (program : ℕ)
  | glGenBuffers (name : ℕ)
  | glBindBuffer (name : ℕ)
  | glBufferData
  | calloc (succeeded : Bool)
  | glGenTextures (name : ℕ)
  | glBindTexture (name : ℕ)
  | glTexImage2D (hasData : Bool)
  | glTexParameteri
  | glDeleteProgram (program : ℕ)
  | glDeleteBuffers (name : ℕ)
  | glDeleteTextures (name : ℕ)
  | free
  deriving DecidableEq, Repr

/-- Behaviour of the external collaborators.  Results may depend on everything that was
called before (the trace).  The three `libm` functions return `double` values. -/
structure Host where
  /-- program handle returned by the shader utility -/
  createShaderProgram : List Event → ℕ
  /-- object name written by `glGenBuffers` / `glGenTextures` -/
  glGen : List Event → ℕ
  /-- whether `calloc` succeeds -/
  callocOk : List Event → Bool
  cos : F64 → F64
  sin : F64 → F64
  atan2 : F64 → F64 → F64

/-- The simulation globals of `globals.h` read by the overlay.  The header is not part of
the sources; the terrain extents are taken to be `int` objects, as the casts
`(float)terrain_width` suggest. -/
structure Globals where
  isCrashed : Bool
  planePos : Vec3
  planeFront : Vec3
  terrain_width : ℤ
  terrain_height : ℤ

/-- The file-scope statics of `minimap.c`, with the two ghost components `trace`
(external calls so far) and `accessed` (offsets of `trailPixelData` read or written so far). -/
structure Minimap where
  minimapShaderProgram : ℕ
  minimapVBO : ℕ
  minimapEBO : ℕ
  trailTextureID : ℕ
  trailPixelData : Option (ℕ → Byte)
  translationVector : Vec2
  playerIconAngle : F32
  trace : List Event
  accessed : List ℕ

/-- The state at program start: zero-initialised statics, `trailPixelData = NULL`. -/
def Minimap.initial : Minimap :=
  { minimapShaderProgram := 0, minimapVBO := 0, minimapEBO := 0, trailTextureID := 0,
    trailPixelData := none, translationVector := (F32.ofInt 0, F32.ofInt 0),
    playerIconAngle := F32.ofInt 0,
    trace := [], accessed := [] }

/-- The constant `MINIMAP_TEXTURE_SIZE`. -/
def MINIMAP_TEXTURE_SIZE : ℤ := 256

/-- An RGBA pixel of the trail buffer. -/
abbrev Pixel := Byte × Byte × Byte × Byte

/-- The arithmetic of `set_pixel_alpha` between its four loads and its four stores: the
pixel to store, or `none` when the function returns early (`final_alpha < 1e-5`). -/
def blend (bg : Pixel) (color : Vec3) (alpha : Byte) : Option Pixel :=
  let background_color : Vec3 :=
    (fdiv (ofUChar bg.1) (F32.ofInt 255), fdiv (ofUChar bg.2.1) (F32.ofInt 255),
     fdiv (ofUChar bg.2.2.1) (F32.ofInt 255))
  let bg_alpha := fdiv (ofUChar bg.2.2.2) (F32.ofInt 255)
  let new_alpha_f := fdiv (ofUChar alpha) (F32.ofInt 255)
  let final_alpha := fadd new_alpha_f (fmul bg_alpha (fsub (F32.ofInt 1) new_alpha_f))
  if final_alpha.toF64 < F64.ofFrac 1 100000 then none else
  let blended_color : Vec3 :=
    (fdiv (fadd (fmul color.1 new_alpha_f)
        (fmul (fmul background_color.1 bg_alpha) (fsub (F32.ofInt 1) new_alpha_f))) final_alpha,
     fdiv (fadd (fmul color.2.1 new_alpha_f)
        (fmul (fmul background_color.2.1 bg_alpha) (fsub (F32.ofInt 1) new_alpha_f))) final_alpha,
     fdiv (fadd (fmul color.2.2 new_alpha_f)
        (fmul (fmul background_color.2.2 bg_alpha) (fsub (F32.ofInt 1) new_alpha_f))) final_alpha)
  some (toUChar (fmul blended_color.1 (F32.ofInt 255)),
        toUChar (fmul blended_color.2.1 (F32.ofInt 255)),
        toUChar (fmul blended_color.2.2 (F32.ofInt 255)),
        toUChar (fmul final_alpha (F32.ofInt 255)))

/-- The four bytes stored at offsets `index .. index + 3`. -/
def loadPixel (buf : ℕ → Byte) (index : ℕ) : Pixel :=
  (buf index, buf (index + 1), buf (index + 2), buf (index + 3))

/-- Store four bytes at offsets `index .. index + 3`, in this order. -/
def storePixel (buf : ℕ → Byte) (index : ℕ) (px : Pixel) : ℕ → Byte :=
  Function.update (Function.update (Function.update (Function.update buf
    index px.1) (index + 1) px.2.1) (index + 2) px.2.2.1) (index + 3) px.2.2.2

/-- The function `set_pixel_alpha`. -/
def set_pixel_alpha (x y : ℤ) (color : Vec3) (alpha : Byte) (s : Minimap) : Minimap :=
  if x < 0 ∨ x ≥ MINIMAP_TEXTURE_SIZE ∨ y < 0 ∨ y ≥ MINIMAP_TEXTURE_SIZE then s else
  match s.trailPixelData with
  | none => s
  | some buf =>
    let index := ((y * MINIMAP_TEXTURE_SIZE + x) * 4).toNat
    let loads := [index, index + 1, index + 2, index + 3]
    match blend (loadPixel buf index) color alpha with
    | none => { s with accessed := s.accessed ++ loads }
    | some px =>
      { s with trailPixelData := some (storePixel buf index px)
               accessed := s.accessed ++ loads ++ [index, index + 1, index + 2, index + 3] }

/-- The function `get_continuous_normalized_position`. -/
def get_continuous_normalized_position (g : Globals) (world_pos : Vec3) : Vec2 :=
  let total_width := F32.ofInt g.terrain_width
  let total_height := F32.ofInt g.terrain_height
  (fdiv (fadd world_pos.1 (fdiv total_width (F32.ofInt 2))) total_width,
   fdiv (fadd world_pos.2.2 (fdiv total_height (F32.ofInt 2))) total_height)

/-- A counted loop `for (i = start; …; i++)` running `n` times. -/
def loopFrom {σ : Type} (body : ℤ → σ → σ) : ℕ → ℤ → σ → σ
  | 0, _, s => s
  | n + 1, i, s => loopFrom body n (i + 1) (body i s)

/-- The loop `for (int i = lo; i <= hi; i++) body`. -/
def forIncl {σ : Type} (lo hi : ℤ) (body : ℤ → σ → σ) (s : σ) : σ :=
  loopFrom body (hi + 1 - lo).toNat lo s

/-! ## The icon rasterizer -/

/-- The local `NOSE_POINT_SIZE` of `draw_player_icon`. -/
def NOSE_POINT_SIZE : F32 := F32.ofFrac 7 2
/-- The local `TAIL_POINT_SIZE` of `draw_player_icon`. -/
def TAIL_POINT_SIZE : F32 := F32.ofInt 4
/-- The local `size` of `draw_player_icon`. -/
def size : F32 := F32.ofInt 15
/-- The local `feather_width` of `draw_player_icon`. -/
def feather_width : F32 := F32.ofInt 1
/-- The local `fuselage_width`, `size * 0.2f`. -/
def fuselage_width : F32 := fmul size (F32.ofFrac 2 10)

def fuselageColor : Vec3 := (F32.ofFrac 7 10, F32.ofFrac 75 100, F32.ofFrac 8 10)
def wingColor : Vec3 := (F32.ofInt 0, F32.ofFrac 8 10, F32.ofFrac 3 10)
def cockpitColor : Vec3 := (F32.ofFrac 2 10, F32.ofFrac 9 10, F32.ofInt 1)
def thrusterColor : Vec3 := (F32.ofInt 1, F32.ofFrac 5 10, F32.ofFrac 1 10)
def outlineColor : Vec3 := (F32.ofFrac 1 10, F32.ofFrac 1 10, F32.ofFrac 15 100)

def p_nose : Vec2 := (F32.ofInt 0, fmul (F32.ofInt 1) size)
def p_tail : Vec2 := (F32.ofInt 0, fmul (F32.ofInt (-1)) size)
def p_cockpit_left : Vec2 := (fneg fuselage_width, fmul (F32.ofFrac 4 10) size)
def p_cockpit_right : Vec2 := (fuselage_width, fmul (F32.ofFrac 4 10) size)
def p_tail_left : Vec2 := (fneg fuselage_width, fmul (F32.ofFrac (-8) 10) size)
def p_tail_right : Vec2 := (fuselage_width, fmul (F32.ofFrac (-8) 10) size)
def p_left_wingtip : Vec2 := (fmul (F32.ofFrac (-15) 10) size, fmul (F32.ofFrac (-75) 100) size)
def p_right_wingtip : Vec2 := (fmul (F32.ofFrac 15 10) size, fmul (F32.ofFrac (-75) 100) size)

def t_fuselage_front : Tri := (p_nose, p_cockpit_left, p_cockpit_right)
def t_fuselage_back1 : Tri := (p_cockpit_left, p_tail_left, p_tail_right)
def t_fuselage_back2 : Tri := (p_cockpit_left, p_tail_right, p_cockpit_right)
def t_left_wing : Tri := (p_cockpit_left, p_left_wingtip, p_tail_left)
def t_right_wing : Tri := (p_cockpit_right, p_right_wingtip, p_tail_right)

/-- The rotated extremities `(rx, ry)` of the four `points` of the bounding-box loop. -/
def rotated_points (cos_a sin_a : F32) : List Vec2 :=
  [p_nose, p_left_wingtip, p_right_wingtip, p_tail].map fun pt =>
    (fsub (fmul pt.1 cos_a) (fmul pt.2 sin_a), fadd (fmul pt.1 sin_a) (fmul pt.2 cos_a))

/-- The bounding-box loop of `draw_player_icon`: `(min_x, max_x, min_y, max_y)`. -/
def icon_extent (cos_a sin_a : F32) : F32 × F32 × F32 × F32 :=
  match rotated_points cos_a sin_a with
  | [] => (F32.ofInt 0, F32.ofInt 0, F32.ofInt 0, F32.ofInt 0)
  | r0 :: rest =>
    rest.foldl (fun b r => (fmin b.1 r.1, fmax b.2.1 r.1, fmin b.2.2.1 r.2, fmax b.2.2.2 r.2))
      (r0.1, r0.1, r0.2, r0.2)

/-- The margin `fmax(NOSE_POINT_SIZE, TAIL_POINT_SIZE)`, a `double`. -/
def icon_margin : F64 := (fmax NOSE_POINT_SIZE TAIL_POINT_SIZE).toF64

/-- The integer bounds `(minX, maxX, minY, maxY)` of the raster loops; the inflation is
computed in `double` and converted to `float` for `floorf` / `ceilf`. -/
def icon_bounds (cos_a sin_a : F32) : ℤ × ℤ × ℤ × ℤ :=
  let b := icon_extent cos_a sin_a
  (floorf (dsub (dsub b.1.toF64 icon_margin) feather_width.toF64).toF32,
   ceilf (dadd (dadd b.2.1.toF64 icon_margin) feather_width.toF64).toF32,
   floorf (dsub (dsub b.2.2.1.toF64 icon_margin) feather_width.toF64).toF32,
   ceilf (dadd (dadd b.2.2.2.toF64 icon_margin) feather_width.toF64).toF32)

/-- What the body of the raster loops hands to `set_pixel_alpha` for the offset `(x, y)`:
`none` when the pixel is outside the composite shape or is skipped by `continue`
(`alpha <= 0`), otherwise the colour and the alpha byte. -/
def icon_sample (cos_a sin_a : F32) (x y : ℤ) : Option (Vec3 × Byte) :=
  let local_x := fadd (fmul (F32.ofInt x) cos_a) (fmul (F32.ofInt y) sin_a)
  let local_y := fsub (fmul (F32.ofInt y) cos_a) (fmul (F32.ofInt x) sin_a)
  let p : Vec2 := (local_x, local_y)
  let is_in_fuselage := is_inside_triangle p t_fuselage_front ||
    is_inside_triangle p t_fuselage_back1 || is_inside_triangle p t_fuselage_back2
  let is_in_left_wing := is_inside_triangle p t_left_wing
  let is_in_right_wing := is_inside_triangle p t_right_wing
  let dist_to_nose := glm_vec2_distance p p_nose
  let dist_to_tail := glm_vec2_distance p p_tail
  let is_in_nose_circle := decide (dist_to_nose < NOSE_POINT_SIZE)
  let is_in_tail_circle := decide (dist_to_tail < TAIL_POINT_SIZE)
  if is_in_fuselage || is_in_left_wing || is_in_right_wing || is_in_nose_circle ||
      is_in_tail_circle then
    let dist : F32 := F32.ofInt 999
    let dist := if is_in_fuselage then
      fmin dist (signed_dist_to_triangle p t_fuselage_front (some t_fuselage_back1)) else dist
    let dist := if is_in_left_wing then
      fmin dist (signed_dist_to_triangle p t_left_wing none) else dist
    let dist := if is_in_right_wing then
      fmin dist (signed_dist_to_triangle p t_right_wing none) else dist
    let dist := if is_in_nose_circle then
      fmin dist (fsub NOSE_POINT_SIZE dist_to_nose) else dist
    let dist := if is_in_tail_circle then
      fmin dist (fsub TAIL_POINT_SIZE dist_to_tail) else dist
    let alpha := glm_smoothstep (F32.ofInt 0) feather_width dist
    if alpha ≤ F32.ofInt 0 then none else
    let final_color : Vec3 :=
      if is_in_nose_circle then
        let cockpit_glow := fsub (F32.ofInt 1) (glm_smoothstep (F32.ofInt 0) NOSE_POINT_SIZE dist_to_nose)
        glm_vec3_lerp fuselageColor cockpitColor (fmul cockpit_glow cockpit_glow)
      else if is_in_tail_circle then
        let thruster_glow := fsub (F32.ofInt 1) (glm_smoothstep (F32.ofInt 0) TAIL_POINT_SIZE dist_to_tail)
        glm_vec3_lerp fuselageColor thrusterColor thruster_glow
      else if is_in_left_wing || is_in_right_wing then
        wingColor
      else
        let gradient_t := fdiv (fadd local_y size) (fmul (F32.ofInt 2) size)
        glm_vec3_lerp fuselageColor (F32.ofFrac 4 10, F32.ofFrac 45 100, F32.ofFrac 5 10)
          (fsub (F32.ofInt 1) gradient_t)
    let final_color := glm_vec3_lerp outlineColor final_color
      (glm_smoothstep (fmul feather_width (F32.ofFrac 5 10)) feather_width dist)
    some (final_color, toUChar (fmul alpha (F32.ofInt 255)))
  else none

/-- The body of the raster loops of `draw_player_icon` for the offset `(x, y)`. -/
def draw_pixel (cos_a sin_a : F32) (y x : ℤ) (s : Minimap) : Minimap :=
  let centerX := MINIMAP_TEXTURE_SIZE / 2
  let centerY := MINIMAP_TEXTURE_SIZE / 2
  match icon_sample cos_a sin_a x y with
  | none => s
  | some (final_color, alpha) => set_pixel_alpha (centerX + x) (centerY - y) final_color alpha s

/-- The raster loops of `draw_player_icon`, for given values of `cos_a` and `sin_a`. -/
def rasterize (cos_a sin_a : F32) (s : Minimap) : Minimap :=
  let b := icon_bounds cos_a sin_a
  forIncl b.2.2.1 b.2.2.2 (fun y => forIncl b.1 b.2.1 (draw_pixel cos_a sin_a y)) s

/-- The function `draw_player_icon`. -/
def draw_player_icon (h : Host) (angle_rad : F32) (s : Minimap) : Minimap :=
  rasterize (h.cos angle_rad.toF64).toF32 (h.sin angle_rad.toF64).toF32 s

/-! ## Interface functions -/

/-- First part of the body of `init_minimap`: the shader program and the static quad. -/
def init_quad (h : Host) (s : Minimap) : Minimap :=
  let program := h.createShaderProgram s.trace
  let s1 : Minimap :=
    { s with minimapShaderProgram := program, trace := s.trace ++ [.createShaderProgram program] }
  let vbo := h.glGen s1.trace
  let s2 : Minimap := { s1 with minimapVBO := vbo, trace := s1.trace ++ [.glGenBuffers vbo] }
  let ebo := h.glGen s2.trace
  let s3 : Minimap := { s2 with minimapEBO := ebo, trace := s2.trace ++ [.glGenBuffers ebo] }
  { s3 with trace := s3.trace ++
      [.glBindBuffer vbo, .glBufferData, .glBindBuffer ebo, .glBufferData] }

/-- Second part of the body of `init_minimap`: `calloc` of the trail buffer and the
pre-rendering of the icon. -/
def init_trail (h : Host) (s : Minimap) : Minimap :=
  let ok := h.callocOk s.trace
  let s1 : Minimap :=
    { s with trailPixelData := if ok then some (fun _ => 0) else none
             trace := s.trace ++ [.calloc ok] }
  draw_player_icon h (F32.ofInt 0) s1

/-- Third part of the body of `init_minimap`: creation and upload of the trail texture. -/
def init_texture (h : Host) (s : Minimap) : Minimap :=
  let tex := h.glGen s.trace
  { s with trailTextureID := tex
           trace := s.trace ++ [.glGenTextures tex, .glBindTexture tex,
             .glTexImage2D s.trailPixelData.isSome, .glTexParameteri, .glTexParameteri,
             .glTexParameteri, .glTexParameteri] }

/-- The function `init_minimap`. -/
def init_minimap (h : Host) (s : Minimap) : Minimap :=
  if s.minimapShaderProgram = 0 then init_texture h (init_trail h (init_quad h s)) else s

/-- The function `update_minimap_dot`. -/
def update_minimap_dot (h : Host) (g : Globals) (s : Minimap) : Minimap :=
  if g.isCrashed then s else
  let continuousPos := get_continuous_normalized_position g g.planePos
  { s with
    translationVector :=
      (fsub continuousPos.1 (F32.ofFrac 1 2), fsub continuousPos.2 (F32.ofFrac 1 2))
    playerIconAngle :=
      (h.atan2 (fneg g.planeFront.1).toF64 (fneg g.planeFront.2.2).toF64).toF32 }

/-- The function `cleanup_minimap`. -/
def cleanup_minimap (s : Minimap) : Minimap :=
  let s1 : Minimap :=
    { s with trace := s.trace ++
        [.glDeleteProgram s.minimapShaderProgram, .glDeleteBuffers s.minimapVBO,
         .glDeleteBuffers s.minimapEBO, .glDeleteTextures s.trailTextureID] }
  match s1.trailPixelData with
  | some _ => { s1 with trailPixelData := none, trace := s1.trace ++ [.free] }
  | none => s1

/-- The function `reset_minimap_for_restart`. -/
def reset_minimap_for_restart (s : Minimap) : Minimap := s

/-! ## Auxiliary definitions: observations, exact geometry, sample states -/

/-- The pixel of the trail buffer at column `x`, row `y` (`none` when `trailPixelData` is
`NULL`). -/
def pixelAt (s : Minimap) (x y : ℤ) : Option Pixel :=
  s.trailPixelData.map fun buf => loadPixel buf ((y * MINIMAP_TEXTURE_SIZE + x) * 4).toNat

/-- A colour component between `0.0f` and `1.0f`. -/
def InUnit (c : F32) : Prop := IsFloat c ∧ F32.ofInt 0 ≤ c ∧ c ≤ F32.ofInt 1

instance (c : F32) : Decidable (InUnit c) := by unfold InUnit; infer_instance

/-- A state whose trail buffer is allocated and zero-initialised, as `calloc` leaves it. -/
def blankTrail : Minimap := { Minimap.initial with trailPixelData := some fun _ => 0 }

/-- Two sample colours. -/
def sampleA : Vec3 := (F32.ofFrac 1 2, F32.ofFrac 1 4, F32.ofInt 1)

def sampleB : Vec3 := (F32.ofFrac 1 4, F32.ofFrac 3 4, F32.ofInt 0)

/-- A state whose trail buffer holds the partially transparent pixel `(3, 3, 3, 11)` at
column `0`, row `0`. -/
def greyTrail : Minimap :=
  { Minimap.initial with trailPixelData := some fun i => if i = 3 then 11 else 3 }

/-- The statics that the rasterizer never assigns, with the trace of external calls. -/
def Minimap.frame (s : Minimap) : ℕ × ℕ × ℕ × ℕ × Vec2 × F32 × List Event :=
  (s.minimapShaderProgram, s.minimapVBO, s.minimapEBO, s.trailTextureID, s.translationVector,
    s.playerIconAngle, s.trace)

/-- Number of `free` calls in the trace. -/
def Minimap.frees (s : Minimap) : ℕ := s.trace.count Event.free

/-- A host whose shader utility fails (returns `0`) and whose GL name generator returns
fresh names; its `libm` is exact at the only argument used here, `0`. -/
def failingHost : Host :=
  { createShaderProgram := fun _ => 0
    glGen := fun t => t.length + 1
    callocOk := fun _ => true
    cos := fun _ => (F32.ofInt 1).toF64
    sin := fun _ => (F32.ofInt 0).toF64
    atan2 := fun _ _ => (F32.ofInt 0).toF64 }

/-- The same host with a working shader utility. -/
def workingHost : Host := { failingHost with createShaderProgram := fun _ => 7 }

/-- Sample globals: terrain of `1000 x 1000`, the player above the origin, not crashed. -/
def sampleGlobals : Globals :=
  { isCrashed := false, planePos := (F32.ofInt 0, F32.ofInt 37, F32.ofInt 0),
    planeFront := (F32.ofInt 0, F32.ofInt 0, F32.ofInt (-1)),
    terrain_width := 1000, terrain_height := 1000 }

/-- The same globals after a crash. -/
def crashedGlobals : Globals := { sampleGlobals with isCrashed := true }

/-- The value of a `float` coordinate pair. -/
def vecRat (v : Vec2) : ℚ × ℚ := (v.1.toRat, v.2.toRat)

/-- Twice the signed area of the triangle `a b p` (exact arithmetic). -/
def cross (a b p : ℚ × ℚ) : ℚ := (b.1 - a.1) * (p.2 - a.2) - (b.2 - a.2) * (p.1 - a.1)

/-- Membership in the closed triangle with vertices `a b c`: `p` is a convex combination of the
vertices. -/
def InClosedTriangle (p a b c : ℚ × ℚ) : Prop :=
  ∃ u v w : ℚ, 0 ≤ u ∧ 0 ≤ v ∧ 0 ≤ w ∧ u + v + w = 1 ∧
    p.1 = u * a.1 + v * b.1 + w * c.1 ∧ p.2 = u * a.2 + v * b.2 + w * c.2

/-- The coordinate `c` is `z * 2 ^ e` units for an integer `z` of magnitude at most `1024`,
i.e. a multiple `z * 2 ^ (e - 149)` of the power of two `2 ^ (e - 149)`. -/
def OnGrid (e : ℕ) (c : F32) : Prop := ∃ z : ℤ, |z| ≤ 1024 ∧ c.units = z * 2 ^ e

/-- All coordinates of the point and of the triangle are on the grid. -/
def AllOnGrid (e : ℕ) (p : Vec2) (tri : Tri) : Prop :=
  OnGrid e p.1 ∧ OnGrid e p.2 ∧ OnGrid e tri.1.1 ∧ OnGrid e tri.1.2 ∧
  OnGrid e tri.2.1.1 ∧ OnGrid e tri.2.1.2 ∧ OnGrid e tri.2.2.1 ∧ OnGrid e tri.2.2.2

/-- The rounding increment of `roundFrac`: `1` when the remainder `r` of the division by
`B` is above one half, or equal to one half with `q` odd. -/
def roundUp (q r B : ℕ) : ℕ := if 2 * r ≤ B then (if 2 * r = B then q % 2 else 0) else 1

/-- The conversion `(float)b / 255.0f` of a byte to the unit interval. -/
def unitFloat (b : Byte) : F32 := fdiv (ofUChar b) (F32.ofInt 255)

/-- The local `final_alpha` of `set_pixel_alpha`, from the alpha byte of the background and
the new alpha byte. -/
def final_alpha (bg_alpha alpha : Byte) : F32 :=
  fadd (unitFloat alpha) (fmul (unitFloat bg_alpha) (fsub (F32.ofInt 1) (unitFloat alpha)))

/-- One component of the local `blended_color` of `set_pixel_alpha`. -/
def blended_color (bg_c bg_alpha alpha : Byte) (c : F32) : F32 :=
  fdiv (fadd (fmul c (unitFloat alpha))
    (fmul (fmul (unitFloat bg_c) (unitFloat bg_alpha)) (fsub (F32.ofInt 1) (unitFloat alpha))))
    (final_alpha bg_alpha alpha)

/-- The four `float` values that `set_pixel_alpha` converts to `unsigned char`:
`blended_color[i] * 255.0f` and `final_alpha * 255.0f` (`none` on the early return). -/
def blend_values (bg : Pixel) (color : Vec3) (alpha : Byte) : Option (F32 × F32 × F32 × F32) :=
  if (final_alpha bg.2.2.2 alpha).toF64 < F64.ofFrac 1 100000 then none else
  some (fmul (blended_color bg.1 bg.2.2.2 alpha color.1) (F32.ofInt 255),
        fmul (blended_color bg.2.1 bg.2.2.2 alpha color.2.1) (F32.ofInt 255),
        fmul (blended_color bg.2.2.1 bg.2.2.2 alpha color.2.2) (F32.ofInt 255),
        fmul (final_alpha bg.2.2.2 alpha) (F32.ofInt 255))

/-- A `float` in the range of `unsigned char`, so that its conversion is defined. -/
def InByteRange (v : F32) : Prop := F32.ofInt 0 ≤ v ∧ v ≤ F32.ofInt 255

/-- Magnitude of `(float)b / 255.0f` in units of `2 ^ (-149)`. -/
def unitN (b : ℕ) : ℕ := roundFrac 24 (b * 2 ^ 149 * 2 ^ 149) (255 * 2 ^ 149)

/-- Magnitude of `1.0f - (float)a / 255.0f`. -/
def complN (a : ℕ) : ℕ := roundFrac 24 (2 ^ 149 - unitN a) 1

/-- Magnitude of `final_alpha`. -/
def alphaN (b a : ℕ) : ℕ := roundFrac 24 (unitN a + roundFrac 24 (unitN b * complN a) (2 ^ 149)) 1

/-- The alpha byte stored for background alpha `b` and new alpha `a`. -/
def alphaOut (b a : ℕ) : ℕ :=
  roundFrac 24 (alphaN b a * (255 * 2 ^ 149)) (2 ^ 149) / 2 ^ 149

/-- Check `b1 ≤ alphaOut b1 a` for all `b ≤ b1 < 256`, evaluating `alphaOut` only at the points
where the previous evaluation gives no bound. -/
def coversFrom (a : ℕ) : ℕ → ℕ → Bool
  | 0, _ => false
  | fuel + 1, b =>
    if 256 ≤ b then true
    else
      match alphaOut b a with
      | 0 => if 0 < b then false else coversFrom a fuel 1
      | v + 1 => if v + 1 < b then false else coversFrom a fuel (v + 2)

/-- Check `coversFrom a` for the `n` values of `a` from `a0` on. -/
def coversRange : ℕ → ℕ → Bool
  | 0, _ => true
  | n + 1, a0 => coversFrom a0 300 0 && coversRange n (a0 + 1)

/-- The largest `float` below `500`: `500 - 2 ^ (-15)`. -/
def nearEdge : F32 := ⟨16383999 * 2 ^ 134⟩

/-- Globals with the player just inside the far corner of a `1000 x 1000` terrain. -/
def edgeGlobals : Globals :=
  { isCrashed := false, planePos := (nearEdge, F32.ofInt 0, nearEdge),
    planeFront := (F32.ofInt 0, F32.ofInt 0, F32.ofInt (-1)),
    terrain_width := 1000, terrain_height := 1000 }

/-- A host whose `atan2` returns the `double` nearest to `-π/2` for a negative first argument
and `0` otherwise. -/
def accurateHost : Host :=
  { workingHost with
    atan2 := fun y _ => if y.units < 0 then ⟨-(7074237752028440 * 2 ^ 1022)⟩ else ⟨0⟩ }

/-- Globals with the player facing `+X`. -/
def eastGlobals : Globals :=
  { sampleGlobals with planeFront := (F32.ofInt 1, F32.ofInt 5, F32.ofInt 0) }

/-- What the body of the raster loops does, for the offset `(x, y)`, to the content `bg` of
the pixel it addresses. -/
def stampOn (cos_a sin_a : F32) (x y : ℤ) (bg : Pixel) : Pixel :=
  match icon_sample cos_a sin_a x y with
  | none => bg
  | some (c, a) => (blend bg c a).getD bg

/-- A fully transparent black pixel. -/
def zeroPixel : Pixel := (0, 0, 0, 0)

/-- The pixel that `draw_player_icon(0)` leaves at the offset `(x, y)` of a blank buffer. -/
def stamp (x y : ℤ) : Pixel := stampOn (F32.ofInt 1) (F32.ofInt 0) x y zeroPixel

/-- Apply `f` to `z`, after evaluating `z`. -/
def forceInt {α : Type} (z : ℤ) (f : ℤ → α) : α :=
  match z with
  | Int.ofNat n =>
    (match n with
     | 0 => f 0
     | k + 1 => f (Int.ofNat (k + 1)))
  | Int.negSucc n =>
    (match n with
     | 0 => f (Int.negSucc 0)
     | k + 1 => f (Int.negSucc (k + 1)))

/-- A predicate holds for the `n` integers from `i` on. -/
def allRange (f : ℤ → Bool) : ℕ → ℤ → Bool
  | 0, _ => true
  | n + 1, i => forceInt i fun j => f j && allRange f n (j + 1)

/-- Twice the signed area of the triangle `a b p`, on integer coordinates. -/
def crossZ (a b p : ℤ × ℤ) : ℤ :=
  (b.1 - a.1) * (p.2 - a.2) - (b.2 - a.2) * (p.1 - a.1)

/-- Coefficients `(α, β, γ)` of the edge function of `a b` in quarter pixels:
`crossZ a b (4 * x, 4 * y) = α * x + β * y + γ`. -/
def edgeForm (a b : ℤ × ℤ) : ℤ × ℤ × ℤ :=
  (-(4 * (b.2 - a.2)), 4 * (b.1 - a.1), (b.2 - a.2) * a.1 - (b.1 - a.1) * a.2)

/-- Value of a linear form at `(x, y)`. -/
def formVal (f : ℤ × ℤ × ℤ) (x y : ℤ) : ℤ := f.1 * x + f.2.1 * y + f.2.2

/-- The offset `(x, y)` is strictly inside the triangle `t` given in quarter pixels: the three
edge functions have the strict sign of the orientation of `t`. -/
def insideTri (t : (ℤ × ℤ) × (ℤ × ℤ) × (ℤ × ℤ)) (x y : ℤ) : Bool :=
  if 0 < crossZ t.1 t.2.1 t.2.2 then
    decide (0 < formVal (edgeForm t.1 t.2.1) x y) &&
    decide (0 < formVal (edgeForm t.2.1 t.2.2) x y) &&
    decide (0 < formVal (edgeForm t.2.2 t.1) x y)
  else
    decide (formVal (edgeForm t.1 t.2.1) x y < 0) &&
    decide (formVal (edgeForm t.2.1 t.2.2) x y < 0) &&
    decide (formVal (edgeForm t.2.2 t.1) x y < 0)

/-- The five icon triangles in quarter pixels, in the order of `iconTriangles`. -/
def quarterTriangles : List ((ℤ × ℤ) × (ℤ × ℤ) × (ℤ × ℤ)) :=
  [((0, 60), (-12, 24), (12, 24)), ((-12, 24), (-12, -48), (12, -48)),
   ((-12, 24), (12, -48), (12, 24)), ((-12, 24), (-90, -45), (-12, -48)),
   ((12, 24), (90, -45), (12, -48))]

/-- The offset `(x, y)` is strictly inside one of the five triangles, or at distance less than
`3.5` from the nose point `(0, 15)`, or at distance less than `4` from the tail point
`(0, -15)`. -/
def interiorB (x y : ℤ) : Bool :=
  quarterTriangles.any (fun t => insideTri t x y) ||
  decide (4 * (x * x + (y - 15) * (y - 15)) < 49) ||
  decide (x * x + (y + 15) * (y + 15) < 16)

/-- The five triangles of the icon. -/
def iconTriangles : List Tri :=
  [t_fuselage_front, t_fuselage_back1, t_fuselage_back2, t_left_wing, t_right_wing]

/-- Membership in the open triangle with vertices `a b c`: `p` is a convex combination of the
vertices with positive weights. -/
def InOpenTriangle (p a b c : ℚ × ℚ) : Prop :=
  ∃ u v w : ℚ, 0 < u ∧ 0 < v ∧ 0 < w ∧ u + v + w = 1 ∧
    p.1 = u * a.1 + v * b.1 + w * c.1 ∧ p.2 = u * a.2 + v * b.2 + w * c.2

/-- Squared distance of two points. -/
def distSq (p q : ℚ × ℚ) : ℚ := (p.1 - q.1) ^ 2 + (p.2 - q.2) ^ 2

/-- The integer offset `(x, y)` lies strictly inside one of the five icon triangles, or at
distance less than `NOSE_POINT_SIZE` from the nose point, or at distance less than
`TAIL_POINT_SIZE` from the tail point. -/
def IconCovered (x y : ℤ) : Prop :=
  (∃ t ∈ iconTriangles,
    InOpenTriangle ((x : ℚ), (y : ℚ)) (vecRat t.1) (vecRat t.2.1) (vecRat t.2.2)) ∨
  distSq ((x : ℚ), (y : ℚ)) (vecRat p_nose) < NOSE_POINT_SIZE.toRat ^ 2 ∨
  distSq ((x : ℚ), (y : ℚ)) (vecRat p_tail) < TAIL_POINT_SIZE.toRat ^ 2

/-- The integer offset `(x, y)` belongs to none of the five closed icon triangles and to
neither of the two open discs. -/
def IconClear (x y : ℤ) : Prop :=
  (∀ t ∈ iconTriangles,
    ¬ InClosedTriangle ((x : ℚ), (y : ℚ)) (vecRat t.1) (vecRat t.2.1) (vecRat t.2.2)) ∧
  NOSE_POINT_SIZE.toRat ^ 2 ≤ distSq ((x : ℚ), (y : ℚ)) (vecRat p_nose) ∧
  TAIL_POINT_SIZE.toRat ^ 2 ≤ distSq ((x : ℚ), (y : ℚ)) (vecRat p_tail)

/-- The integer offset `(x, y)` is farther than `r` from every point of the five closed icon
triangles and from both circle centres. -/
def FarFromIcon (r : ℚ) (x y : ℤ) : Prop :=
  (∀ t ∈ iconTriangles, ∀ q : ℚ × ℚ,
    InClosedTriangle q (vecRat t.1) (vecRat t.2.1) (vecRat t.2.2) →
      r ^ 2 < distSq ((x : ℚ), (y : ℚ)) q) ∧
  r ^ 2 < distSq ((x : ℚ), (y : ℚ)) (vecRat p_nose) ∧
  r ^ 2 < distSq ((x : ℚ), (y : ℚ)) (vecRat p_tail)

/-- The offsets that satisfy `interiorB` but lie on an edge of the shape that contains them, or
within `1/255` of one: the feather gives them alpha byte `0`. -/
def featherExceptions : List (ℤ × ℤ) :=
  [(-2, -12), (-1, -12), (0, -12), (1, -12), (2, -12), (-12, -2), (12, -2), (-1, 12), (1, 12), (0, 15)]

/-- The check made for every offset of the bounding box: an offset that satisfies `interiorB`
gets a positive alpha byte unless it is one of the `featherExceptions`, which get `0`. -/
def pixelOk (x y : ℤ) : Bool :=
  !interiorB x y ||
    (if (x, y) ∈ featherExceptions then (stamp x y).2.2.2 == 0 else (stamp x y).2.2.2 != 0)

/-- The check `pixelOk` on the `n` offsets of row `y` from column `x0` on, for a segment
`(y, x0, n)`. -/
def segOk (sg : ℤ × ℤ × ℕ) : Bool := allRange (fun x => pixelOk x sg.1) sg.2.2 sg.2.1

/-- The `float` with the integer value `n`. -/
def natFloat (n : ℕ) : F32 := ⟨Int.ofNat (Nat.mul n (Nat.pow 2 149))⟩

/-- For the squared distance `N`, the comparisons of the computed square root with the two
point sizes agree with the exact comparisons. -/
def sqrtOk (N : ℕ) : Bool :=
  (decide (fsqrt (natFloat N) < NOSE_POINT_SIZE) == decide (4 * N < 49)) &&
  (decide (fsqrt (natFloat N) < TAIL_POINT_SIZE) == decide (N < 16))

/-- The check `sqrtOk` on the `n` numbers from `N` on. -/
def sqrtRange : ℕ → ℕ → Bool
  | 0, _ => true
  | n + 1, N => sqrtOk N && sqrtRange n (N + 1)

set_option maxRecDepth 100000
set_option maxHeartbeats 4000000

/-! ## Lemmas on the floating-point model -/

theorem nat_div_fn (x y : ℕ) : Nat.div x y = x / y := rfl

theorem nat_mod_fn (x y : ℕ) : Nat.mod x y = x % y := rfl

theorem nat_shl_fn (x y : ℕ) : Nat.shiftLeft x y = x * 2 ^ y := Nat.shiftLeft_eq x y

theorem nat_shr_fn (x y : ℕ) : Nat.shiftRight x y = x / 2 ^ y := Nat.shiftRight_eq_div_pow x y

theorem stride_eq (w n : ℕ) : stride w n = if 2 ^ w ≤ n then w else 0 := by
  unfold stride
  simp only [Nat.mul_eq, Nat.sub_eq, nat_shr_fn]
  split_ifs with h
  · have : 1 ≤ n / 2 ^ w := (Nat.one_le_div_iff (by positivity)).2 h
    have h1 : 1 - n / 2 ^ w = 0 := by omega
    simp [h1]
  · have : n / 2 ^ w = 0 := Nat.div_eq_of_lt (by omega)
    simp [this]

theorem size_shift {w n : ℕ} (h : 2 ^ w ≤ n) : Nat.size n = Nat.size (n / 2 ^ w) + w := by
  apply le_antisymm
  · rw [Nat.size_le]
    have h1 : n / 2 ^ w < 2 ^ Nat.size (n / 2 ^ w) := Nat.lt_size_self _
    rw [pow_add]
    exact (Nat.div_lt_iff_lt_mul (by positivity)).1 h1
  · have hpos : 0 < n / 2 ^ w := Nat.div_pos h (by positivity)
    have h1 : 2 ^ (Nat.size (n / 2 ^ w) - 1) ≤ n / 2 ^ w := by
      have := (Nat.lt_size (m := Nat.size (n / 2 ^ w) - 1) (n := n / 2 ^ w)).1
        (by have := Nat.size_pos.2 hpos; omega)
      exact this
    have h2 : 2 ^ (Nat.size (n / 2 ^ w) - 1) * 2 ^ w ≤ n :=
      (Nat.le_div_iff_mul_le (by positivity)).1 h1
    rw [← pow_add] at h2
    have h3 := (Nat.lt_size (m := Nat.size (n / 2 ^ w) - 1 + w) (n := n)).2 h2
    have := Nat.size_pos.2 hpos
    omega

/-- One halving step of the bit-length search. -/
theorem bitlen_step {f : ℕ → ℕ → ℕ} {w : ℕ}
    (hf : ∀ n acc, n < 2 ^ w → f n acc = acc + Nat.size n) (n acc : ℕ) (hn : n < 2 ^ (2 * w)) :
    f (Nat.shiftRight n (stride w n)) (Nat.add acc (stride w n)) = acc + Nat.size n := by
  rw [stride_eq, nat_shr_fn, Nat.add_eq]
  split_ifs with h
  · rw [hf _ _ (by
      rw [Nat.div_lt_iff_lt_mul (by positivity), ← pow_add]
      simpa [two_mul] using hn), size_shift h]
    omega
  · simp only [pow_zero, Nat.div_one, add_zero]
    exact hf _ _ (by omega)

theorem bitlen2_eq (n acc : ℕ) (hn : n < 2 ^ 2) : bitlen2 n acc = acc + Nat.size n := by
  have h4 : n < 4 := by simpa using hn
  interval_cases n <;> simp [bitlen2, stride, Nat.size, Nat.binaryRec]

theorem bitlen4_eq (n acc : ℕ) (hn : n < 2 ^ 4) : bitlen4 n acc = acc + Nat.size n :=
  bitlen_step bitlen2_eq n acc hn

theorem bitlen8_eq (n acc : ℕ) (hn : n < 2 ^ 8) : bitlen8 n acc = acc + Nat.size n :=
  bitlen_step bitlen4_eq n acc hn

theorem bitlen16_eq (n acc : ℕ) (hn : n < 2 ^ 16) : bitlen16 n acc = acc + Nat.size n :=
  bitlen_step bitlen8_eq n acc hn

theorem bitlen32_eq (n acc : ℕ) (hn : n < 2 ^ 32) : bitlen32 n acc = acc + Nat.size n :=
  bitlen_step bitlen16_eq n acc hn

theorem bitlen64_eq (n acc : ℕ) (hn : n < 2 ^ 64) : bitlen64 n acc = acc + Nat.size n :=
  bitlen_step bitlen32_eq n acc hn

theorem bitlen128_eq (n acc : ℕ) (hn : n < 2 ^ 128) : bitlen128 n acc = acc + Nat.size n :=
  bitlen_step bitlen64_eq n acc hn

theorem bitlen256_eq (n acc : ℕ) (hn : n < 2 ^ 256) : bitlen256 n acc = acc + Nat.size n :=
  bitlen_step bitlen128_eq n acc hn

theorem bitlenFuel_eq : ∀ (fuel n acc : ℕ), n < 2 ^ (256 * fuel) →
    bitlenFuel fuel n acc = acc + Nat.size n
  | 0, n, acc, hn => by
    have : n = 0 := by simpa using hn
    subst this
    simp [bitlenFuel]
  | fuel + 1, n, acc, hn => by
    unfold bitlenFuel
    by_cases h : 2 ^ 256 ≤ n
    · have hb : Nat.ble (Nat.pow 2 256) n = true := by rw [Nat.ble_eq]; exact h
      rw [hb, cond_true, nat_shr_fn, Nat.add_eq,
        bitlenFuel_eq fuel _ _ (by
          rw [Nat.div_lt_iff_lt_mul (by positivity), ← pow_add]
          have : 256 * fuel + 256 = 256 * (fuel + 1) := by ring
          rw [this]; exact hn), size_shift h]
      omega
    · have hb : Nat.ble (Nat.pow 2 256) n = false := by
        rw [← Bool.not_eq_true, Nat.ble_eq]; exact h
      rw [hb, cond_false]
      exact bitlen256_eq n acc (by omega)

/-- The function `bitlen` computes the number of binary digits. -/
theorem bitlen_eq_size (n : ℕ) : bitlen n = Nat.size n := by
  unfold bitlen
  rw [bitlenFuel_eq _ _ _ (by
    calc n < 2 ^ n := Nat.lt_two_pow n
      _ ≤ 2 ^ (256 * Nat.succ n) := Nat.pow_le_pow_right (by norm_num) (by omega)), zero_add]

theorem bitlen_le {n L : ℕ} (h : n < 2 ^ L) : bitlen n ≤ L := by
  rw [bitlen_eq_size]; exact Nat.size_le.2 h

theorem cond_ble (a b : ℕ) {α : Type} (x y : α) :
    cond (Nat.ble a b) x y = if a ≤ b then x else y := by
  by_cases h : a ≤ b
  · rw [if_pos h, (Nat.ble_eq).mpr h, cond_true]
  · rw [if_neg h]
    have : Nat.ble a b = false := by rw [← Bool.not_eq_true, Nat.ble_eq]; exact h
    rw [this, cond_false]

theorem cond_beq (a b : ℕ) {α : Type} (x y : α) :
    cond (Nat.beq a b) x y = if a = b then x else y := by
  by_cases h : a = b
  · rw [if_pos h, (Nat.beq_eq).mpr h, cond_true]
  · rw [if_neg h]
    have : Nat.beq a b = false := by rw [← Bool.not_eq_true, Nat.beq_eq]; exact h
    rw [this, cond_false]

/-- The function `roundFrac` in ordinary notation. -/
theorem roundFrac_def (p N D : ℕ) :
    roundFrac p N D =
      if D = 0 then 0 else
        (N / (D * 2 ^ (bitlen (N / D) - p)) +
          (if 2 * (N % (D * 2 ^ (bitlen (N / D) - p))) ≤ D * 2 ^ (bitlen (N / D) - p) then
            (if 2 * (N % (D * 2 ^ (bitlen (N / D) - p))) = D * 2 ^ (bitlen (N / D) - p) then
              N / (D * 2 ^ (bitlen (N / D) - p)) % 2 else 0)
           else 1)) * 2 ^ (bitlen (N / D) - p) := by
  unfold roundFrac
  simp only [cond_ble, cond_beq, nat_div_fn, nat_mod_fn, nat_shl_fn, Nat.mul_eq, Nat.sub_eq,
    Nat.add_eq]

/-- Rounding does not depend on the representation of the fraction. -/
theorem roundFrac_scale (p c N D : ℕ) (hc : 0 < c) :
    roundFrac p (c * N) (c * D) = roundFrac p N D := by
  rw [roundFrac_def, roundFrac_def]
  by_cases hD : D = 0
  · simp [hD]
  · have hcD : c * D ≠ 0 := Nat.mul_ne_zero (by omega) hD
    rw [if_neg hcD, if_neg hD, Nat.mul_div_mul_left _ _ hc]
    generalize bitlen (N / D) - p = k
    rw [mul_assoc, Nat.mul_div_mul_left _ _ hc, Nat.mul_mod_mul_left]
    have e1 : (2 * (c * (N % (D * 2 ^ k))) ≤ c * (D * 2 ^ k)) ↔
        (2 * (N % (D * 2 ^ k)) ≤ D * 2 ^ k) := by
      rw [Nat.mul_left_comm]; exact ⟨fun h => Nat.le_of_mul_le_mul_left h hc, fun h => Nat.mul_le_mul_left c h⟩
    have e2 : (2 * (c * (N % (D * 2 ^ k))) = c * (D * 2 ^ k)) ↔
        (2 * (N % (D * 2 ^ k)) = D * 2 ^ k) := by
      rw [Nat.mul_left_comm]; exact Nat.mul_right_inj (by omega)
    simp only [e1, e2]

/-- A number whose low `bitlen n - p` digits vanish is its own rounding. -/
theorem roundFrac_exact {p n : ℕ} (h : 2 ^ (bitlen n - p) ∣ n) : roundFrac p n 1 = n := by
  rw [roundFrac_def, if_neg one_ne_zero, Nat.div_one, one_mul]
  have hr : n % 2 ^ (bitlen n - p) = 0 := Nat.mod_eq_zero_of_dvd h
  have hpos : 0 < 2 ^ (bitlen n - p) := by positivity
  rw [hr, mul_zero, if_pos (Nat.zero_le _), if_neg (by omega), add_zero]
  exact Nat.div_mul_cancel h

/-- A number with at most `p` significant binary digits is its own rounding. -/
theorem roundFrac_small {p m t : ℕ} (hm : m < 2 ^ p) : roundFrac p (m * 2 ^ t) 1 = m * 2 ^ t := by
  apply roundFrac_exact
  have hlt : m * 2 ^ t < 2 ^ (p + t) := by
    rw [pow_add]; exact Nat.mul_lt_mul_of_pos_right hm (by positivity)
  have hle : bitlen (m * 2 ^ t) - p ≤ t := by
    have := bitlen_le hlt
    omega
  exact Dvd.dvd.mul_left (pow_dvd_pow 2 hle) m

theorem withSign_def (s : ℤ) (n : ℕ) : withSign s n = if s < 0 then -(n : ℤ) else (n : ℤ) := by
  cases s with
  | ofNat a =>
    have : ¬ ((a : ℤ) < 0) := by omega
    simp [withSign, this]
  | negSucc a => simp [withSign, Int.negSucc_lt_zero, Int.negOfNat_eq]

theorem withSign_natAbs (x : ℤ) : withSign x x.natAbs = x := by
  rw [withSign_def]
  split_ifs with h
  · rw [Int.ofNat_natAbs_of_nonpos h.le, neg_neg]
  · exact Int.natAbs_of_nonneg (not_lt.1 h)

theorem withSign_mul_pos (x c : ℤ) (n : ℕ) (hc : 0 < c) : withSign (x * c) n = withSign x n := by
  rw [withSign_def, withSign_def]
  have : x * c < 0 ↔ x < 0 := by
    constructor
    · intro h; by_contra h1; exact absurd (mul_nonneg (not_lt.1 h1) hc.le) (not_le.2 h)
    · intro h; exact mul_neg_of_neg_of_pos h hc
  simp only [this]

/-- The unit of `float` arithmetic. -/
theorem ofInt_one_units : (F32.ofInt 1).units = 2 ^ 149 := by decide!

theorem ofInt_zero_units : (F32.ofInt 0).units = 0 := by decide!

theorem F32.ext_units {a b : F32} (h : a.units = b.units) : a = b := by
  cases a; cases b; simp_all

theorem fmul_one {c : F32} (hc : IsFloat c) : fmul c (F32.ofInt 1) = c := by
  apply F32.ext_units
  unfold fmul
  simp only [ofInt_one_units, Int.mul_def, Nat.mul_eq, Nat.pow_eq]
  rw [withSign_mul_pos _ _ _ (by positivity)]
  have h1 : ((2 : ℤ) ^ 149).natAbs = 2 ^ 149 := by decide!
  rw [h1, mul_comm c.units.natAbs, ← mul_one (2 ^ 149 : ℕ)]
  rw [mul_assoc, one_mul, roundFrac_scale _ _ _ _ (by positivity), hc, withSign_natAbs]

theorem fdiv_one {c : F32} (hc : IsFloat c) : fdiv c (F32.ofInt 1) = c := by
  apply F32.ext_units
  unfold fdiv
  simp only [ofInt_one_units, Int.mul_def, Nat.mul_eq, Nat.pow_eq]
  rw [withSign_mul_pos _ _ _ (by positivity)]
  have h1 : ((2 : ℤ) ^ 149).natAbs = 2 ^ 149 := by decide!
  rw [h1, mul_comm c.units.natAbs]
  nth_rewrite 2 [← mul_one (2 ^ 149 : ℕ)]
  rw [roundFrac_scale _ _ _ _ (by positivity), hc, withSign_natAbs]

theorem fadd_zero {c : F32} (hc : IsFloat c) : fadd c (F32.ofInt 0) = c := by
  apply F32.ext_units
  unfold fadd
  simp only [ofInt_zero_units, Int.add_def, add_zero]
  rw [hc, withSign_natAbs]

theorem roundFrac_zero (p D : ℕ) : roundFrac p 0 D = 0 := by
  rw [roundFrac_def]
  split_ifs <;> simp_all

theorem fmul_zero (c : F32) : fmul c (F32.ofInt 0) = F32.ofInt 0 := by
  apply F32.ext_units
  unfold fmul
  simp only [ofInt_zero_units, Int.mul_def, Nat.mul_eq, mul_zero, Int.natAbs_zero, roundFrac_zero]
  rfl

theorem loadPixel_storePixel (buf : ℕ → Byte) (i : ℕ) (px : Pixel) :
    loadPixel (storePixel buf i px) i = px := by
  simp [loadPixel, storePixel, Function.update]

theorem loadPixel_storePixel_ne (buf : ℕ → Byte) (i j : ℕ) (px : Pixel)
    (h : i + 4 ≤ j ∨ j + 4 ≤ i) : loadPixel (storePixel buf i px) j = loadPixel buf j := by
  have h0 : ∀ a b : ℕ, a < 4 → b < 4 → j + a ≠ i + b := by omega
  have e0 := h0 0 0 (by omega) (by omega)
  have e1 := h0 0 1 (by omega) (by omega)
  have e2 := h0 0 2 (by omega) (by omega)
  have e3 := h0 0 3 (by omega) (by omega)
  have f0 := h0 1 0 (by omega) (by omega)
  have f1 := h0 1 1 (by omega) (by omega)
  have f2 := h0 1 2 (by omega) (by omega)
  have f3 := h0 1 3 (by omega) (by omega)
  have g0 := h0 2 0 (by omega) (by omega)
  have g1 := h0 2 1 (by omega) (by omega)
  have g2 := h0 2 2 (by omega) (by omega)
  have g3 := h0 2 3 (by omega) (by omega)
  have k0 := h0 3 0 (by omega) (by omega)
  have k1 := h0 3 1 (by omega) (by omega)
  have k2 := h0 3 2 (by omega) (by omega)
  have k3 := h0 3 3 (by omega) (by omega)
  simp only [add_zero] at e0 e1 e2 e3 f0 g0 k0
  simp [loadPixel, storePixel, Function.update, e0, e1, e2, e3, f0, f1, f2, f3, g0, g1, g2, g3,
    k0, k1, k2, k3]

theorem inBounds_iff (x y : ℤ) :
    ¬ (x < 0 ∨ x ≥ MINIMAP_TEXTURE_SIZE ∨ y < 0 ∨ y ≥ MINIMAP_TEXTURE_SIZE) ↔
      (0 ≤ x ∧ x < 256) ∧ (0 ≤ y ∧ y < 256) := by
  unfold MINIMAP_TEXTURE_SIZE; omega

/-- Effect of `set_pixel_alpha` on the pixel it addresses. -/
theorem set_pixel_alpha_at (x y : ℤ) (c : Vec3) (a : Byte) (s : Minimap)
    (hx : 0 ≤ x ∧ x < 256) (hy : 0 ≤ y ∧ y < 256) :
    pixelAt (set_pixel_alpha x y c a s) x y =
      (pixelAt s x y).map fun bg => (blend bg c a).getD bg := by
  unfold set_pixel_alpha pixelAt
  rw [if_neg ((inBounds_iff x y).2 ⟨hx, hy⟩)]
  cases hb : s.trailPixelData with
  | none => simp [hb]
  | some buf =>
    simp only [Option.map_some']
    cases hbl : blend (loadPixel buf ((y * MINIMAP_TEXTURE_SIZE + x) * 4).toNat) c a with
    | none => simp [hb]
    | some px => simp [loadPixel_storePixel]

/-- The function `set_pixel_alpha` leaves every other pixel of the buffer alone. -/
theorem set_pixel_alpha_other (x y x1 y1 : ℤ) (c : Vec3) (a : Byte) (s : Minimap)
    (hx : 0 ≤ x1 ∧ x1 < 256) (hy : 0 ≤ y1 ∧ y1 < 256) (hne : x1 ≠ x ∨ y1 ≠ y) :
    pixelAt (set_pixel_alpha x y c a s) x1 y1 = pixelAt s x1 y1 := by
  unfold set_pixel_alpha pixelAt
  split_ifs with hb
  · rfl
  · rw [inBounds_iff] at hb
    cases hd : s.trailPixelData with
    | none => simp [hd]
    | some buf =>
      simp only [Option.map_some']
      cases hbl : blend (loadPixel buf ((y * MINIMAP_TEXTURE_SIZE + x) * 4).toNat) c a with
      | none => simp [hd]
      | some px =>
        simp only [Option.map_some', Option.some.injEq]
        apply loadPixel_storePixel_ne
        unfold MINIMAP_TEXTURE_SIZE
        omega

theorem alpha_255 : fdiv (ofUChar 255) (F32.ofInt 255) = F32.ofInt 1 := by decide!

theorem one_sub_one : fsub (F32.ofInt 1) (F32.ofInt 1) = F32.ofInt 0 := by decide!

theorem one_not_tiny : ¬ ((F32.ofInt 1).toF64 < F64.ofFrac 1 100000) := by decide!

theorem one_times_255 : toUChar (fmul (F32.ofInt 1) (F32.ofInt 255)) = 255 := by decide!

theorem isFloat_one : IsFloat (F32.ofInt 1) := by decide!

/-- Compositing with `alpha = 255`: the stored pixel is the byte conversion of the source
colour, whatever the background. -/
theorem blend_opaque (bg : Pixel) (c : Vec3) (h1 : IsFloat c.1) (h2 : IsFloat c.2.1)
    (h3 : IsFloat c.2.2) :
    blend bg c 255 = some (toUChar (fmul c.1 (F32.ofInt 255)),
      toUChar (fmul c.2.1 (F32.ofInt 255)), toUChar (fmul c.2.2 (F32.ofInt 255)), 255) := by
  unfold blend
  simp only [alpha_255, one_sub_one, fmul_zero, fadd_zero isFloat_one, one_not_tiny, if_false,
    fmul_one h1, fmul_one h2, fmul_one h3, fadd_zero h1, fadd_zero h2, fadd_zero h3,
    fdiv_one h1, fdiv_one h2, fdiv_one h3, one_times_255]

/-- C2: two opaque writes (`alpha = 255`) of colours `A` then `B` to an in-bounds pixel of an
allocated buffer leave exactly the byte conversion of `B` with alpha byte `255`, whatever `A`
and the previous content were. -/
theorem set_pixel_alpha_opaque_overpaint (s : Minimap) (buf : ℕ → Byte)
    (hbuf : s.trailPixelData = some buf) (x y : ℤ) (hx : 0 ≤ x ∧ x < 256)
    (hy : 0 ≤ y ∧ y < 256) (A B : Vec3)
    (hA : InUnit A.1 ∧ InUnit A.2.1 ∧ InUnit A.2.2)
    (hB : InUnit B.1 ∧ InUnit B.2.1 ∧ InUnit B.2.2) :
    pixelAt (set_pixel_alpha x y B 255 (set_pixel_alpha x y A 255 s)) x y =
      some (toUChar (fmul B.1 (F32.ofInt 255)), toUChar (fmul B.2.1 (F32.ofInt 255)),
        toUChar (fmul B.2.2 (F32.ofInt 255)), 255) := by
  rw [set_pixel_alpha_at _ _ _ _ _ hx hy, set_pixel_alpha_at _ _ _ _ _ hx hy]
  have hp : pixelAt s x y = some (loadPixel buf ((y * MINIMAP_TEXTURE_SIZE + x) * 4).toNat) := by
    simp [pixelAt, hbuf]
  rw [hp]
  simp only [Option.map_some', blend_opaque _ A hA.1.1 hA.2.1.1 hA.2.2.1,
    blend_opaque _ B hB.1.1 hB.2.1.1 hB.2.2.1, Option.getD_some]

theorem sampleA_inUnit : InUnit sampleA.1 ∧ InUnit sampleA.2.1 ∧ InUnit sampleA.2.2 := by
  decide!

theorem sampleB_inUnit : InUnit sampleB.1 ∧ InUnit sampleB.2.1 ∧ InUnit sampleB.2.2 := by
  decide!

theorem set_pixel_alpha_opaque_overpaint_witness :
    pixelAt (set_pixel_alpha 3 5 sampleB 255 (set_pixel_alpha 3 5 sampleA 255 blankTrail)) 3 5 =
      some (toUChar (fmul sampleB.1 (F32.ofInt 255)), toUChar (fmul sampleB.2.1 (F32.ofInt 255)),
        toUChar (fmul sampleB.2.2 (F32.ofInt 255)), 255) :=
  set_pixel_alpha_opaque_overpaint blankTrail (fun _ => 0) rfl 3 5 (by decide) (by decide)
    sampleA sampleB sampleA_inUnit sampleB_inUnit

/-! ### Compositing with `alpha = 0` -/

theorem alpha_0 : fdiv (ofUChar 0) (F32.ofInt 255) = F32.ofInt 0 := by decide!

theorem one_sub_zero : fsub (F32.ofInt 1) (F32.ofInt 0) = F32.ofInt 1 := by decide!

theorem zero_fadd (c : F32) (hc : IsFloat c) : fadd (F32.ofInt 0) c = c := by
  apply F32.ext_units
  unfold fadd
  simp only [ofInt_zero_units, Int.add_def, zero_add]
  rw [hc, withSign_natAbs]

/-- C10: out-of-range coordinates and a `NULL` buffer make `set_pixel_alpha` return without
any effect: the whole state, including the record of buffer accesses, is unchanged. -/
theorem set_pixel_alpha_guard (s : Minimap) (x y : ℤ) (c : Vec3) (a : Byte)
    (h : x < 0 ∨ x ≥ 256 ∨ y < 0 ∨ y ≥ 256 ∨ s.trailPixelData = none) :
    set_pixel_alpha x y c a s = s := by
  unfold set_pixel_alpha
  by_cases hb : x < 0 ∨ x ≥ MINIMAP_TEXTURE_SIZE ∨ y < 0 ∨ y ≥ MINIMAP_TEXTURE_SIZE
  · rw [if_pos hb]
  · rw [if_neg hb]
    have hn : s.trailPixelData = none := by
      unfold MINIMAP_TEXTURE_SIZE at hb
      rcases h with h | h | h | h | h
      · exact absurd (Or.inl h) hb
      · exact absurd (Or.inr (Or.inl h)) hb
      · exact absurd (Or.inr (Or.inr (Or.inl h))) hb
      · exact absurd (Or.inr (Or.inr (Or.inr h))) hb
      · exact h
    rw [hn]

theorem set_pixel_alpha_guard_witness :
    set_pixel_alpha 256 0 sampleA 200 blankTrail = blankTrail ∧
    set_pixel_alpha 0 (-1) sampleA 200 blankTrail = blankTrail ∧
    set_pixel_alpha 7 9 sampleA 200 Minimap.initial = Minimap.initial :=
  ⟨set_pixel_alpha_guard blankTrail 256 0 sampleA 200 (Or.inr (Or.inl (by decide))),
   set_pixel_alpha_guard blankTrail 0 (-1) sampleA 200 (Or.inr (Or.inr (Or.inl (by decide)))),
   set_pixel_alpha_guard Minimap.initial 7 9 sampleA 200
     (Or.inr (Or.inr (Or.inr (Or.inr rfl))))⟩

theorem loopFrom_invariant {σ : Type} (P : σ → Prop) (body : ℤ → σ → σ)
    (hb : ∀ i s, P s → P (body i s)) : ∀ (n : ℕ) (i : ℤ) (s : σ), P s → P (loopFrom body n i s)
  | 0, _, _, hs => hs
  | n + 1, i, s, hs => loopFrom_invariant P body hb n (i + 1) (body i s) (hb i s hs)

theorem set_pixel_alpha_frame (x y : ℤ) (c : Vec3) (a : Byte) (s : Minimap) :
    (set_pixel_alpha x y c a s).frame = s.frame := by
  unfold set_pixel_alpha
  split_ifs
  · rfl
  · split
    · rfl
    · dsimp only
      split <;> rfl

theorem draw_pixel_frame (cos_a sin_a : F32) (y x : ℤ) (s : Minimap) :
    (draw_pixel cos_a sin_a y x s).frame = s.frame := by
  unfold draw_pixel
  dsimp only
  split
  · rfl
  · exact set_pixel_alpha_frame _ _ _ _ _

theorem rasterize_frame (cos_a sin_a : F32) (s : Minimap) :
    (rasterize cos_a sin_a s).frame = s.frame := by
  unfold rasterize forIncl
  exact loopFrom_invariant (fun t => t.frame = s.frame) _
    (fun y t ht => loopFrom_invariant (fun u => u.frame = s.frame) _
      (fun x u hu => (draw_pixel_frame cos_a sin_a y x u).trans hu) _ _ t ht) _ _ s rfl

theorem draw_player_icon_frame (h : Host) (a : F32) (s : Minimap) :
    (draw_player_icon h a s).frame = s.frame := rasterize_frame _ _ s

/-! ### Frame state update -/

theorem sample_width : F32.ofInt 1000 = ⟨1000 * 2 ^ 149⟩ := by decide!

theorem sample_centre :
    fsub (fdiv (fadd (F32.ofInt 0) (fdiv (F32.ofInt 1000) (F32.ofInt 2))) (F32.ofInt 1000))
      (F32.ofFrac 1 2) = F32.ofInt 0 := by decide!

/-- C6: when the player has not crashed, `update_minimap_dot` stores the single-precision
value of `((planePos.x + W/2)/W - 1/2, (planePos.z + H/2)/H - 1/2)`; the result does not
depend on `planePos.y`, and for `W = H = 1000` and `planePos = (0, y, 0)` it is `(0, 0)`. -/
theorem update_minimap_dot_translation (h : Host) (g : Globals) (s : Minimap)
    (hc : g.isCrashed = false) (_hW : g.terrain_width ≠ 0) (_hH : g.terrain_height ≠ 0) :
    (update_minimap_dot h g s).translationVector =
      (fsub (fdiv (fadd g.planePos.1 (fdiv (F32.ofInt g.terrain_width) (F32.ofInt 2)))
          (F32.ofInt g.terrain_width)) (F32.ofFrac 1 2),
       fsub (fdiv (fadd g.planePos.2.2 (fdiv (F32.ofInt g.terrain_height) (F32.ofInt 2)))
          (F32.ofInt g.terrain_height)) (F32.ofFrac 1 2)) ∧
    (∀ y1 : F32,
      (update_minimap_dot h { g with planePos := (g.planePos.1, y1, g.planePos.2.2) }
        s).translationVector = (update_minimap_dot h g s).translationVector) ∧
    (g.terrain_width = 1000 → g.terrain_height = 1000 → g.planePos.1 = F32.ofInt 0 →
      g.planePos.2.2 = F32.ofInt 0 →
      (update_minimap_dot h g s).translationVector = (F32.ofInt 0, F32.ofInt 0)) := by
  have h1 : ∀ g1 : Globals, g1.isCrashed = false →
      (update_minimap_dot h g1 s).translationVector =
      (fsub (fdiv (fadd g1.planePos.1 (fdiv (F32.ofInt g1.terrain_width) (F32.ofInt 2)))
          (F32.ofInt g1.terrain_width)) (F32.ofFrac 1 2),
       fsub (fdiv (fadd g1.planePos.2.2 (fdiv (F32.ofInt g1.terrain_height) (F32.ofInt 2)))
          (F32.ofInt g1.terrain_height)) (F32.ofFrac 1 2)) := by
    intro g1 hg1
    unfold update_minimap_dot get_continuous_normalized_position
    rw [hg1]
    simp only [Bool.false_eq_true, if_false]
  refine ⟨h1 g hc, fun y1 => ?_, fun hw hh hx hz => ?_⟩
  · rw [h1 g hc, h1 { g with planePos := (g.planePos.1, y1, g.planePos.2.2) } hc]
  · rw [h1 g hc, hw, hh, hx, hz, sample_centre]

theorem update_minimap_dot_translation_witness :
    (update_minimap_dot workingHost sampleGlobals Minimap.initial).translationVector =
      (F32.ofInt 0, F32.ofInt 0) :=
  (update_minimap_dot_translation workingHost sampleGlobals Minimap.initial rfl (by decide)
    (by decide)).2.2 rfl rfl rfl rfl

/-- C7: while `isCrashed` is set, any number of consecutive calls of `update_minimap_dot`
(whatever the other globals are at each call) leaves the whole overlay state unchanged. -/
theorem update_minimap_dot_crashed (h : Host) (gs : List Globals)
    (hcr : ∀ g ∈ gs, g.isCrashed = true) (s : Minimap) :
    gs.foldl (fun st g => update_minimap_dot h g st) s = s := by
  induction gs generalizing s with
  | nil => rfl
  | cons g rest ih =>
    have hg : update_minimap_dot h g s = s := by
      unfold update_minimap_dot
      rw [hcr g (List.mem_cons_self g rest)]
      rfl
    rw [List.foldl_cons, hg]
    exact ih (fun g1 hg1 => hcr g1 (List.mem_cons_of_mem g hg1)) s

theorem update_minimap_dot_crashed_witness :
    [crashedGlobals, crashedGlobals, crashedGlobals].foldl
      (fun st g => update_minimap_dot workingHost g st) blankTrail = blankTrail :=
  update_minimap_dot_crashed workingHost [crashedGlobals, crashedGlobals, crashedGlobals]
    (by
      intro g hg
      simp only [List.mem_cons, List.mem_singleton, List.not_mem_nil, or_false, or_self] at hg
      rw [hg]; rfl) blankTrail

/-! ### Lifecycle -/

theorem init_quad_frame (h : Host) (s : Minimap) :
    (init_quad h s).minimapShaderProgram = h.createShaderProgram s.trace ∧
    (init_quad h s).minimapVBO =
      h.glGen (s.trace ++ [.createShaderProgram (h.createShaderProgram s.trace)]) ∧
    (init_quad h s).trace.length = s.trace.length + 7 := by
  refine ⟨rfl, rfl, ?_⟩
  unfold init_quad
  simp

theorem init_trail_frame (h : Host) (s : Minimap) :
    (init_trail h s).frame =
      (s.minimapShaderProgram, s.minimapVBO, s.minimapEBO, s.trailTextureID,
        s.translationVector, s.playerIconAngle, s.trace ++ [.calloc (h.callocOk s.trace)]) := by
  unfold init_trail
  rw [draw_player_icon_frame]
  rfl

theorem init_trail_handles (h : Host) (s : Minimap) :
    (init_trail h s).minimapShaderProgram = s.minimapShaderProgram ∧
    (init_trail h s).minimapVBO = s.minimapVBO ∧
    (init_trail h s).trace.length = s.trace.length + 1 := by
  have hf := init_trail_frame h s
  generalize init_trail h s = t at hf
  unfold Minimap.frame at hf
  simp only [Prod.mk.injEq] at hf
  refine ⟨hf.1, hf.2.1, ?_⟩
  rw [hf.2.2.2.2.2.2]
  simp

theorem init_texture_handles (h : Host) (s : Minimap) :
    (init_texture h s).minimapShaderProgram = s.minimapShaderProgram ∧
    (init_texture h s).minimapVBO = s.minimapVBO ∧
    (init_texture h s).trace.length = s.trace.length + 7 := by
  refine ⟨rfl, rfl, ?_⟩
  unfold init_texture
  simp

/-- The handles and the trace after a run of the body of `init_minimap`. -/
theorem init_minimap_frame (h : Host) (s : Minimap) (h0 : s.minimapShaderProgram = 0) :
    (init_minimap h s).minimapShaderProgram = h.createShaderProgram s.trace ∧
    (init_minimap h s).minimapVBO =
      h.glGen (s.trace ++ [.createShaderProgram (h.createShaderProgram s.trace)]) ∧
    (init_minimap h s).trace.length = s.trace.length + 15 := by
  unfold init_minimap
  rw [if_pos h0]
  have h1 := init_quad_frame h s
  have h2 := init_trail_handles h (init_quad h s)
  have h3 := init_texture_handles h (init_trail h (init_quad h s))
  generalize init_quad h s = t1 at h1 h2 h3
  generalize init_trail h t1 = t2 at h2 h3
  generalize init_texture h t2 = t3 at h3
  refine ⟨by rw [h3.1, h2.1, h1.1], by rw [h3.2.1, h2.2.1, h1.2.1], ?_⟩
  rw [h3.2.2, h2.2.2, h1.2.2]

/-- C8 (counterexample): with a shader utility that returns `0`, the second of two
consecutive calls of `init_minimap` runs the whole body again and generates a new vertex
buffer name. -/
theorem init_minimap_twice_regenerates :
    (init_minimap failingHost (init_minimap failingHost Minimap.initial)).minimapVBO ≠
      (init_minimap failingHost Minimap.initial).minimapVBO := by
  have h1 := init_minimap_frame failingHost Minimap.initial rfl
  have h2 := init_minimap_frame failingHost (init_minimap failingHost Minimap.initial) h1.1
  generalize init_minimap failingHost (init_minimap failingHost Minimap.initial) = t2 at h2
  generalize init_minimap failingHost Minimap.initial = t1 at h1 h2
  rw [h2.2.1, h1.2.1]
  have e1 : ∀ l : List Event, failingHost.glGen l = l.length + 1 := fun _ => rfl
  have e0 : Minimap.initial.trace = [] := rfl
  rw [e1, e1, List.length_append, List.length_append, h1.2.2, e0]
  simp

/-- C8 (amended): when the first call leaves a non-zero program handle, a second call of
`init_minimap` returns the state unchanged: same handles, same buffer, no external call. -/
theorem init_minimap_idempotent (h : Host) (s : Minimap)
    (hp : (init_minimap h s).minimapShaderProgram ≠ 0) :
    init_minimap h (init_minimap h s) = init_minimap h s := by
  generalize init_minimap h s = s1 at hp
  unfold init_minimap
  rw [if_neg hp]

theorem workingHost_program :
    (init_minimap workingHost Minimap.initial).minimapShaderProgram ≠ 0 := by
  rw [(init_minimap_frame workingHost Minimap.initial rfl).1]
  show (7 : ℕ) ≠ 0
  decide

theorem init_minimap_idempotent_witness :
    init_minimap workingHost (init_minimap workingHost Minimap.initial) =
      init_minimap workingHost Minimap.initial :=
  init_minimap_idempotent workingHost Minimap.initial workingHost_program

/-- C9: `cleanup_minimap` leaves `trailPixelData` null; it calls `free` exactly once when the
buffer was allocated and not at all otherwise, so a second call never frees. -/
theorem cleanup_minimap_free_once (s : Minimap) :
    (cleanup_minimap s).trailPixelData = none ∧
    (cleanup_minimap s).frees = s.frees + (if s.trailPixelData.isSome then 1 else 0) ∧
    (cleanup_minimap (cleanup_minimap s)).frees = (cleanup_minimap s).frees := by
  have key : ∀ t : Minimap, (cleanup_minimap t).trailPixelData = none ∧
      (cleanup_minimap t).frees = t.frees + (if t.trailPixelData.isSome then 1 else 0) := by
    intro t
    unfold cleanup_minimap Minimap.frees
    cases hd : t.trailPixelData with
    | none => simp [hd, List.count_append, List.count_cons]
    | some buf => simp [hd, List.count_append, List.count_cons]
  refine ⟨(key s).1, (key s).2, ?_⟩
  rw [(key (cleanup_minimap s)).2, (key s).1]
  rfl

theorem int_sub_fn (a b : ℤ) : Int.sub a b = a - b := rfl

theorem natAbs_lt_of_abs_lt {z : ℤ} {n : ℕ} (h : |z| < (n : ℤ)) : z.natAbs < n := by
  have := Int.natAbs_lt_natAbs_of_nonneg_of_lt (abs_nonneg z) h
  rwa [Int.natAbs_abs, Int.natAbs_ofNat] at this

theorem withSign_scaled (z : ℤ) (k1 k2 : ℕ) :
    withSign (z * 2 ^ k1) (z.natAbs * 2 ^ k2) = z * 2 ^ k2 := by
  rw [withSign_mul_pos _ _ _ (by positivity)]
  have h : z.natAbs * 2 ^ k2 = (z * 2 ^ k2).natAbs := by
    rw [Int.natAbs_mul, Int.natAbs_pow]; rfl
  rw [h, ← withSign_mul_pos z (2 ^ k2) _ (by positivity), withSign_natAbs]

/-- Subtraction of two grid values whose difference has at most 24 significant digits is
exact. -/
theorem fsub_exact {a b : F32} {x y : ℤ} {e : ℕ} (ha : a.units = x * 2 ^ e)
    (hb : b.units = y * 2 ^ e) (hxy : |x - y| < 2 ^ 24) :
    (fsub a b).units = (x - y) * 2 ^ e := by
  unfold fsub
  simp only [int_sub_fn, ha, hb]
  have h1 : x * 2 ^ e - y * 2 ^ e = (x - y) * 2 ^ e := by ring
  rw [h1]
  have h2 : ((x - y) * 2 ^ e).natAbs = (x - y).natAbs * 2 ^ e := by
    rw [Int.natAbs_mul, Int.natAbs_pow]; rfl
  have h3 : (x - y).natAbs < 2 ^ 24 := natAbs_lt_of_abs_lt (by exact_mod_cast hxy)
  rw [h2, roundFrac_small h3, withSign_scaled]

/-- Multiplication of two grid values whose product has at most 24 significant digits and
does not underflow is exact. -/
theorem fmul_exact {a b : F32} {x y : ℤ} {e1 e2 : ℕ} (ha : a.units = x * 2 ^ e1)
    (hb : b.units = y * 2 ^ e2) (he : 149 ≤ e1 + e2) (hxy : |x * y| < 2 ^ 24) :
    (fmul a b).units = x * y * 2 ^ (e1 + e2 - 149) := by
  unfold fmul
  simp only [Int.mul_def, Nat.mul_eq, Nat.pow_eq, ha, hb]
  have h1 : x * 2 ^ e1 * (y * 2 ^ e2) = x * y * 2 ^ (e1 + e2) := by ring
  have h2 : (x * 2 ^ e1).natAbs * (y * 2 ^ e2).natAbs =
      2 ^ 149 * ((x * y).natAbs * 2 ^ (e1 + e2 - 149)) := by
    rw [Int.natAbs_mul, Int.natAbs_mul, Int.natAbs_pow, Int.natAbs_pow, Int.natAbs_mul]
    have : e1 + e2 = 149 + (e1 + e2 - 149) := by omega
    have h2 : (2 : ℕ) ^ e1 * 2 ^ e2 = 2 ^ 149 * 2 ^ (e1 + e2 - 149) := by
      rw [← pow_add, ← pow_add, ← this]
    have h3 : Int.natAbs 2 = 2 := rfl
    rw [h3]
    calc x.natAbs * 2 ^ e1 * (y.natAbs * 2 ^ e2)
        = x.natAbs * y.natAbs * (2 ^ e1 * 2 ^ e2) := by ring
      _ = 2 ^ 149 * (x.natAbs * y.natAbs * 2 ^ (e1 + e2 - 149)) := by rw [h2]; ring
  have h3 : (x * y).natAbs < 2 ^ 24 := natAbs_lt_of_abs_lt (by exact_mod_cast hxy)
  rw [h1, h2]
  nth_rewrite 2 [← mul_one (2 ^ 149 : ℕ)]
  rw [roundFrac_scale _ _ _ _ (by positivity), roundFrac_small h3, withSign_scaled]

/-- The common shape of the three edge functions of `is_inside_triangle` is evaluated
exactly on grid values. -/
theorem edge_exact {e : ℕ} (he : 75 ≤ e) {a b c d a1 b1 c1 d1 : F32}
    {za zb zc zd za1 zb1 zc1 zd1 : ℤ}
    (ha : |za| ≤ 1024 ∧ a.units = za * 2 ^ e) (hb : |zb| ≤ 1024 ∧ b.units = zb * 2 ^ e)
    (hc : |zc| ≤ 1024 ∧ c.units = zc * 2 ^ e) (hd : |zd| ≤ 1024 ∧ d.units = zd * 2 ^ e)
    (ha1 : |za1| ≤ 1024 ∧ a1.units = za1 * 2 ^ e) (hb1 : |zb1| ≤ 1024 ∧ b1.units = zb1 * 2 ^ e)
    (hc1 : |zc1| ≤ 1024 ∧ c1.units = zc1 * 2 ^ e)
    (hd1 : |zd1| ≤ 1024 ∧ d1.units = zd1 * 2 ^ e) :
    (fsub (fmul (fsub a b) (fsub c d)) (fmul (fsub a1 b1) (fsub c1 d1))).units =
      ((za - zb) * (zc - zd) - (za1 - zb1) * (zc1 - zd1)) * 2 ^ (e + e - 149) := by
  have dif : ∀ x y : ℤ, |x| ≤ 1024 → |y| ≤ 1024 → |x - y| ≤ 2048 := by
    intro x y hx hy
    rw [abs_le] at hx hy ⊢
    constructor <;> linarith [hx.1, hx.2, hy.1, hy.2]
  have prod : ∀ x y : ℤ, |x| ≤ 2048 → |y| ≤ 2048 → |x * y| ≤ 4194304 := by
    intro x y hx hy
    rw [abs_mul]
    calc |x| * |y| ≤ 2048 * 2048 := mul_le_mul hx hy (abs_nonneg y) (by norm_num)
      _ = 4194304 := by norm_num
  have s1 := fsub_exact ha.2 hb.2 (lt_of_le_of_lt (dif _ _ ha.1 hb.1) (by norm_num))
  have s2 := fsub_exact hc.2 hd.2 (lt_of_le_of_lt (dif _ _ hc.1 hd.1) (by norm_num))
  have s3 := fsub_exact ha1.2 hb1.2 (lt_of_le_of_lt (dif _ _ ha1.1 hb1.1) (by norm_num))
  have s4 := fsub_exact hc1.2 hd1.2 (lt_of_le_of_lt (dif _ _ hc1.1 hd1.1) (by norm_num))
  have p1 := prod _ _ (dif _ _ ha.1 hb.1) (dif _ _ hc.1 hd.1)
  have p2 := prod _ _ (dif _ _ ha1.1 hb1.1) (dif _ _ hc1.1 hd1.1)
  have m1 := fmul_exact s1 s2 (by omega) (lt_of_le_of_lt p1 (by norm_num))
  have m2 := fmul_exact s3 s4 (by omega) (lt_of_le_of_lt p2 (by norm_num))
  refine fsub_exact m1 m2 ?_
  rw [abs_le] at p1 p2
  rw [abs_lt]
  constructor <;> linarith [p1.1, p1.2, p2.1, p2.2]

theorem ofInt_zero_eq : F32.ofInt 0 = ⟨0⟩ := by decide!

theorem lt_zero_iff (d : F32) : d < F32.ofInt 0 ↔ d.units < 0 := by
  rw [ofInt_zero_eq]; exact Iff.rfl

theorem zero_lt_iff (d : F32) : F32.ofInt 0 < d ↔ 0 < d.units := by
  rw [ofInt_zero_eq]; exact Iff.rfl

/-- The result of `is_inside_triangle` in terms of the signs of the three edge functions. -/
theorem is_inside_triangle_iff_signs (p : Vec2) (tri : Tri) :
    is_inside_triangle p tri = true ↔
      (0 ≤ (edge_d1 p tri).units ∧ 0 ≤ (edge_d2 p tri).units ∧ 0 ≤ (edge_d3 p tri).units) ∨
      ((edge_d1 p tri).units ≤ 0 ∧ (edge_d2 p tri).units ≤ 0 ∧ (edge_d3 p tri).units ≤ 0) := by
  unfold is_inside_triangle
  simp only [Bool.not_eq_true', Bool.and_eq_false_iff, Bool.or_eq_false_iff, Bool.or_eq_true,
    decide_eq_false_iff_not, decide_eq_true_eq, lt_zero_iff, zero_lt_iff, not_lt]
  generalize (edge_d1 p tri).units = x
  generalize (edge_d2 p tri).units = y
  generalize (edge_d3 p tri).units = z
  constructor
  · rintro (⟨⟨h1, h2⟩, h3⟩ | ⟨⟨h1, h2⟩, h3⟩)
    · exact Or.inl ⟨h1, h2, h3⟩
    · exact Or.inr ⟨h1, h2, h3⟩
  · rintro (⟨h1, h2, h3⟩ | ⟨h1, h2, h3⟩)
    · exact Or.inl ⟨⟨h1, h2⟩, h3⟩
    · exact Or.inr ⟨⟨h1, h2⟩, h3⟩

/-! ### Plane geometry of the sign test (exact arithmetic) -/

theorem cross_sum (p a b c : ℚ × ℚ) :
    cross a b p + cross b c p + cross c a p = cross a b c := by
  unfold cross; ring

/-- For a non-degenerate triangle the three edge functions have no two opposite strict signs
exactly on the closed triangle. -/
theorem closed_triangle_iff (p a b c : ℚ × ℚ) (hnd : cross a b c ≠ 0) :
    ((0 ≤ cross a b p ∧ 0 ≤ cross b c p ∧ 0 ≤ cross c a p) ∨
      (cross a b p ≤ 0 ∧ cross b c p ≤ 0 ∧ cross c a p ≤ 0)) ↔ InClosedTriangle p a b c := by
  have hsum := cross_sum p a b c
  constructor
  · intro h
    refine ⟨cross b c p / cross a b c, cross c a p / cross a b c, cross a b p / cross a b c,
      ?_, ?_, ?_, ?_, ?_, ?_⟩
    · rcases h with ⟨h1, h2, h3⟩ | ⟨h1, h2, h3⟩
      · exact div_nonneg h2 (by linarith)
      · exact div_nonneg_of_nonpos h2 (by linarith)
    · rcases h with ⟨h1, h2, h3⟩ | ⟨h1, h2, h3⟩
      · exact div_nonneg h3 (by linarith)
      · exact div_nonneg_of_nonpos h3 (by linarith)
    · rcases h with ⟨h1, h2, h3⟩ | ⟨h1, h2, h3⟩
      · exact div_nonneg h1 (by linarith)
      · exact div_nonneg_of_nonpos h1 (by linarith)
    · rw [← add_div, ← add_div, div_eq_one_iff_eq hnd]; linarith
    · field_simp
      unfold cross; ring
    · field_simp
      unfold cross; ring
  · rintro ⟨u, v, w, hu, hv, hw, h1, hx, hy⟩
    have e1 : cross a b p = w * cross a b c := by
      have hu1 : u = 1 - v - w := by linarith
      unfold cross; rw [hx, hy, hu1]; ring
    have e2 : cross b c p = u * cross a b c := by
      have hu1 : v = 1 - u - w := by linarith
      unfold cross; rw [hx, hy, hu1]; ring
    have e3 : cross c a p = v * cross a b c := by
      have hu1 : w = 1 - u - v := by linarith
      unfold cross; rw [hx, hy, hu1]; ring
    rw [e1, e2, e3]
    rcases lt_or_gt_of_ne hnd with hT | hT
    · exact Or.inr ⟨mul_nonpos_of_nonneg_of_nonpos hw hT.le,
        mul_nonpos_of_nonneg_of_nonpos hu hT.le, mul_nonpos_of_nonneg_of_nonpos hv hT.le⟩
    · exact Or.inl ⟨mul_nonneg hw hT.le, mul_nonneg hu hT.le, mul_nonneg hv hT.le⟩

theorem toRat_grid {c : F32} {z : ℤ} {e : ℕ} (h : c.units = z * 2 ^ e) :
    c.toRat = z * ((2 : ℚ) ^ e / 2 ^ 149) := by
  unfold F32.toRat
  rw [h]
  push_cast
  ring

theorem units_sign (I : ℤ) (k : ℕ) :
    (0 ≤ I * 2 ^ k ↔ 0 ≤ I) ∧ (I * 2 ^ k ≤ 0 ↔ I ≤ 0) := by
  have hk : (0 : ℤ) < 2 ^ k := by positivity
  constructor
  · constructor
    · intro h; by_contra h1; push_neg at h1
      exact absurd (mul_neg_of_neg_of_pos h1 hk) (not_lt.2 h)
    · intro h; exact mul_nonneg h hk.le
  · constructor
    · intro h; by_contra h1; push_neg at h1
      exact absurd (mul_pos h1 hk) (not_lt.2 h)
    · intro h; exact mul_nonpos_of_nonpos_of_nonneg h hk.le

theorem rat_sign (I : ℤ) (s : ℚ) (hs : 0 < s) :
    (0 ≤ (I : ℚ) * s ↔ 0 ≤ I) ∧ ((I : ℚ) * s ≤ 0 ↔ I ≤ 0) := by
  constructor
  · constructor
    · intro h; by_contra h1; push_neg at h1
      have : (I : ℚ) < 0 := by exact_mod_cast h1
      exact absurd (mul_neg_of_neg_of_pos this hs) (not_lt.2 h)
    · intro h
      have : (0 : ℚ) ≤ I := by exact_mod_cast h
      exact mul_nonneg this hs.le
  · constructor
    · intro h; by_contra h1; push_neg at h1
      have : (0 : ℚ) < I := by exact_mod_cast h1
      exact absurd (mul_pos this hs) (not_lt.2 h)
    · intro h
      have : (I : ℚ) ≤ 0 := by exact_mod_cast h
      exact mul_nonpos_of_nonpos_of_nonneg this hs.le

/-- On grid values the signs of the computed edge functions are the signs of the exact
cross products. -/
theorem edge_signs_exact (e : ℕ) (he : 75 ≤ e) (p : Vec2) (tri : Tri)
    (hg : AllOnGrid e p tri) :
    ((0 ≤ (edge_d1 p tri).units ↔ 0 ≤ cross (vecRat tri.1) (vecRat tri.2.1) (vecRat p)) ∧
     ((edge_d1 p tri).units ≤ 0 ↔ cross (vecRat tri.1) (vecRat tri.2.1) (vecRat p) ≤ 0)) ∧
    ((0 ≤ (edge_d2 p tri).units ↔ 0 ≤ cross (vecRat tri.2.1) (vecRat tri.2.2) (vecRat p)) ∧
     ((edge_d2 p tri).units ≤ 0 ↔ cross (vecRat tri.2.1) (vecRat tri.2.2) (vecRat p) ≤ 0)) ∧
    ((0 ≤ (edge_d3 p tri).units ↔ 0 ≤ cross (vecRat tri.2.2) (vecRat tri.1) (vecRat p)) ∧
     ((edge_d3 p tri).units ≤ 0 ↔ cross (vecRat tri.2.2) (vecRat tri.1) (vecRat p) ≤ 0)) := by
  obtain ⟨⟨p1, hp1⟩, ⟨p2, hp2⟩, ⟨a1, ha1⟩, ⟨a2, ha2⟩, ⟨b1, hb1⟩, ⟨b2, hb2⟩, ⟨c1, hc1⟩,
    ⟨c2, hc2⟩⟩ := hg
  have hs : (0 : ℚ) < ((2 : ℚ) ^ e / 2 ^ 149) * ((2 : ℚ) ^ e / 2 ^ 149) := by positivity
  have d1 := edge_exact he hp1 hb1 ha2 hb2 ha1 hb1 hp2 hb2
  have d2 := edge_exact he hp1 hc1 hb2 hc2 hb1 hc1 hp2 hc2
  have d3 := edge_exact he hp1 ha1 hc2 ha2 hc1 ha1 hp2 ha2
  have q1 : cross (vecRat tri.1) (vecRat tri.2.1) (vecRat p) =
      (((p1 - b1) * (a2 - b2) - (a1 - b1) * (p2 - b2) : ℤ) : ℚ) *
        (((2 : ℚ) ^ e / 2 ^ 149) * ((2 : ℚ) ^ e / 2 ^ 149)) := by
    unfold cross vecRat
    simp only [toRat_grid hp1.2, toRat_grid hp2.2, toRat_grid ha1.2, toRat_grid ha2.2,
      toRat_grid hb1.2, toRat_grid hb2.2]
    push_cast; ring
  have q2 : cross (vecRat tri.2.1) (vecRat tri.2.2) (vecRat p) =
      (((p1 - c1) * (b2 - c2) - (b1 - c1) * (p2 - c2) : ℤ) : ℚ) *
        (((2 : ℚ) ^ e / 2 ^ 149) * ((2 : ℚ) ^ e / 2 ^ 149)) := by
    unfold cross vecRat
    simp only [toRat_grid hp1.2, toRat_grid hp2.2, toRat_grid hc1.2, toRat_grid hc2.2,
      toRat_grid hb1.2, toRat_grid hb2.2]
    push_cast; ring
  have q3 : cross (vecRat tri.2.2) (vecRat tri.1) (vecRat p) =
      (((p1 - a1) * (c2 - a2) - (c1 - a1) * (p2 - a2) : ℤ) : ℚ) *
        (((2 : ℚ) ^ e / 2 ^ 149) * ((2 : ℚ) ^ e / 2 ^ 149)) := by
    unfold cross vecRat
    simp only [toRat_grid hp1.2, toRat_grid hp2.2, toRat_grid ha1.2, toRat_grid ha2.2,
      toRat_grid hc1.2, toRat_grid hc2.2]
    push_cast; ring
  unfold edge_d1 edge_d2 edge_d3
  rw [d1, d2, d3, q1, q2, q3]
  exact ⟨⟨(units_sign _ _).1.trans (rat_sign _ _ hs).1.symm,
      (units_sign _ _).2.trans (rat_sign _ _ hs).2.symm⟩,
    ⟨(units_sign _ _).1.trans (rat_sign _ _ hs).1.symm,
      (units_sign _ _).2.trans (rat_sign _ _ hs).2.symm⟩,
    ⟨(units_sign _ _).1.trans (rat_sign _ _ hs).1.symm,
      (units_sign _ _).2.trans (rat_sign _ _ hs).2.symm⟩⟩

/-- On grid values, for a non-degenerate triangle, `is_inside_triangle` decides membership in
the closed triangle. -/
theorem is_inside_triangle_grid (e : ℕ) (he : 75 ≤ e) (p : Vec2) (tri : Tri)
    (hg : AllOnGrid e p tri)
    (hnd : cross (vecRat tri.1) (vecRat tri.2.1) (vecRat tri.2.2) ≠ 0) :
    is_inside_triangle p tri = true ↔
      InClosedTriangle (vecRat p) (vecRat tri.1) (vecRat tri.2.1) (vecRat tri.2.2) := by
  obtain ⟨⟨h1, h1n⟩, ⟨h2, h2n⟩, ⟨h3, h3n⟩⟩ := edge_signs_exact e he p tri hg
  rw [is_inside_triangle_iff_signs, h1, h1n, h2, h2n, h3, h3n]
  exact closed_triangle_iff _ _ _ _ hnd

theorem toRat_units (c : F32) (z : ℤ) (h : c.units = z * 2 ^ 149) : c.toRat = z := by
  rw [toRat_grid h]
  have : (2 : ℚ) ^ 149 / 2 ^ 149 = 1 := div_self (by positivity)
  rw [this, mul_one]

theorem roundUp_le_one (q r B : ℕ) : roundUp q r B ≤ 1 := by
  unfold roundUp
  split_ifs
  · exact Nat.le_of_lt_succ (Nat.mod_lt _ (by norm_num))
  · exact Nat.zero_le _
  · exact le_refl _

theorem roundFrac_eq (p N D : ℕ) (hD : D ≠ 0) :
    roundFrac p N D =
      (N / (D * 2 ^ (bitlen (N / D) - p)) +
        roundUp (N / (D * 2 ^ (bitlen (N / D) - p))) (N % (D * 2 ^ (bitlen (N / D) - p)))
          (D * 2 ^ (bitlen (N / D) - p))) * 2 ^ (bitlen (N / D) - p) := by
  rw [roundFrac_def, if_neg hD]
  rfl

theorem div_le_div_of_cross {N1 D1 N2 D2 : ℕ} (h1 : 0 < D1) (h2 : 0 < D2)
    (h : N1 * D2 ≤ N2 * D1) : N1 / D1 ≤ N2 / D2 := by
  rw [Nat.le_div_iff_mul_le h2]
  have h3 : N1 / D1 * D1 ≤ N1 := Nat.div_mul_le_self N1 D1
  have h4 : N1 / D1 * D2 * D1 ≤ N2 * D1 := by
    calc N1 / D1 * D2 * D1 = N1 / D1 * D1 * D2 := by ring
      _ ≤ N1 * D2 := Nat.mul_le_mul_right D2 h3
      _ ≤ N2 * D1 := h
  exact Nat.le_of_mul_le_mul_right h4 h1

/-- Rounding to the nearest integer, ties to even, is monotone in the fraction. -/
theorem rne_mono {N1 B1 N2 B2 : ℕ} (h1 : 0 < B1) (h2 : 0 < B2) (h : N1 * B2 ≤ N2 * B1) :
    N1 / B1 + roundUp (N1 / B1) (N1 % B1) B1 ≤ N2 / B2 + roundUp (N2 / B2) (N2 % B2) B2 := by
  have hq := div_le_div_of_cross h1 h2 h
  rcases Nat.lt_or_ge (N1 / B1) (N2 / B2) with hlt | hge
  · have := roundUp_le_one (N1 / B1) (N1 % B1) B1
    omega
  · have heq : N1 / B1 = N2 / B2 := le_antisymm hq hge
    have e1 : B1 * (N1 / B1) + N1 % B1 = N1 := Nat.div_add_mod N1 B1
    have e2 : B2 * (N2 / B2) + N2 % B2 = N2 := Nat.div_add_mod N2 B2
    have hr : N1 % B1 * B2 ≤ N2 % B2 * B1 := by
      have : (B1 * (N1 / B1) + N1 % B1) * B2 ≤ (B2 * (N2 / B2) + N2 % B2) * B1 := by
        rw [e1, e2]; exact h
      rw [heq] at this
      nlinarith [this]
    rw [heq]
    apply Nat.add_le_add_left
    generalize N2 / B2 = q
    generalize N1 % B1 = r1 at hr
    generalize N2 % B2 = r2 at hr
    unfold roundUp
    by_cases c1 : 2 * r1 ≤ B1
    · rw [if_pos c1]
      by_cases c2 : 2 * r1 = B1
      · rw [if_pos c2]
        have hge2 : B2 ≤ 2 * r2 := by
          have : B1 * B2 ≤ 2 * r2 * B1 := by
            calc B1 * B2 = 2 * r1 * B2 := by rw [c2]
              _ = 2 * (r1 * B2) := by ring
              _ ≤ 2 * (r2 * B1) := Nat.mul_le_mul_left 2 hr
              _ = 2 * r2 * B1 := by ring
          have h3 : B2 * B1 ≤ 2 * r2 * B1 := by rw [mul_comm]; exact this
          exact Nat.le_of_mul_le_mul_right h3 h1
        by_cases c3 : 2 * r2 ≤ B2
        · have c4 : 2 * r2 = B2 := le_antisymm c3 hge2
          rw [if_pos c3, if_pos c4]
        · rw [if_neg c3]
          exact Nat.le_of_lt_succ (Nat.mod_lt _ (by norm_num))
      · rw [if_neg c2]; exact Nat.zero_le _
    · rw [if_neg c1]
      have c3 : ¬ 2 * r2 ≤ B2 := by
        intro c3
        apply c1
        have : 2 * r1 * B2 ≤ B1 * B2 := by
          calc 2 * r1 * B2 = 2 * (r1 * B2) := by ring
            _ ≤ 2 * (r2 * B1) := Nat.mul_le_mul_left 2 hr
            _ = 2 * r2 * B1 := by ring
            _ ≤ B2 * B1 := Nat.mul_le_mul_right B1 c3
            _ = B1 * B2 := by ring
        exact Nat.le_of_mul_le_mul_right this h2
      rw [if_neg c3]

/-- Rounding to `p ≥ 1` significant bits is monotone in the fraction it rounds. -/
theorem roundFrac_mono {p N1 D1 N2 D2 : ℕ} (hp : 1 ≤ p) (h1 : 0 < D1) (h2 : 0 < D2)
    (h : N1 * D2 ≤ N2 * D1) : roundFrac p N1 D1 ≤ roundFrac p N2 D2 := by
  rw [roundFrac_eq p N1 D1 (Nat.pos_iff_ne_zero.1 h1),
    roundFrac_eq p N2 D2 (Nat.pos_iff_ne_zero.1 h2)]
  have hQ := div_le_div_of_cross h1 h2 h
  have hs : bitlen (N1 / D1) ≤ bitlen (N2 / D2) := by
    rw [bitlen_eq_size, bitlen_eq_size]; exact Nat.size_le_size hQ
  have hsx : bitlen (N1 / D1) = Nat.size (N1 / D1) := bitlen_eq_size _
  have hsy : bitlen (N2 / D2) = Nat.size (N2 / D2) := bitlen_eq_size _
  have hxlt : N1 / D1 < 2 ^ Nat.size (N1 / D1) := Nat.lt_size_self _
  generalize hkx : bitlen (N1 / D1) - p = kx
  generalize hky : bitlen (N2 / D2) - p = ky
  have hk : kx ≤ ky := by omega
  rcases Nat.eq_or_lt_of_le hk with heq | hlt
  · subst heq
    have hB1 : 0 < D1 * 2 ^ kx := Nat.mul_pos h1 (Nat.two_pow_pos _)
    have hB2 : 0 < D2 * 2 ^ kx := Nat.mul_pos h2 (Nat.two_pow_pos _)
    have hc : N1 * (D2 * 2 ^ kx) ≤ N2 * (D1 * 2 ^ kx) := by
      calc N1 * (D2 * 2 ^ kx) = N1 * D2 * 2 ^ kx := by ring
        _ ≤ N2 * D1 * 2 ^ kx := Nat.mul_le_mul_right _ h
        _ = N2 * (D1 * 2 ^ kx) := by ring
    exact Nat.mul_le_mul_right _ (rne_mono hB1 hB2 hc)
  · have hup := roundUp_le_one (N1 / (D1 * 2 ^ kx)) (N1 % (D1 * 2 ^ kx)) (D1 * 2 ^ kx)
    have hqx : N1 / (D1 * 2 ^ kx) < 2 ^ p := by
      rw [← Nat.div_div_eq_div_mul, Nat.div_lt_iff_lt_mul (Nat.two_pow_pos _),
        ← pow_add]
      exact lt_of_lt_of_le hxlt (Nat.pow_le_pow_right (by norm_num) (by omega))
    have hqy : 2 ^ (p - 1) ≤ N2 / (D2 * 2 ^ ky) := by
      rw [← Nat.div_div_eq_div_mul, Nat.le_div_iff_mul_le (Nat.two_pow_pos _),
        ← pow_add]
      have : p - 1 + ky < Nat.size (N2 / D2) := by omega
      exact (Nat.lt_size.1 this)
    calc (N1 / (D1 * 2 ^ kx) + roundUp (N1 / (D1 * 2 ^ kx)) (N1 % (D1 * 2 ^ kx))
            (D1 * 2 ^ kx)) * 2 ^ kx
        ≤ 2 ^ p * 2 ^ kx := Nat.mul_le_mul_right _ (by omega)
      _ = 2 ^ (p + kx) := by rw [pow_add]
      _ ≤ 2 ^ (p - 1 + ky) := Nat.pow_le_pow_right (by norm_num) (by omega)
      _ = 2 ^ (p - 1) * 2 ^ ky := by rw [pow_add]
      _ ≤ N2 / (D2 * 2 ^ ky) * 2 ^ ky := Nat.mul_le_mul_right _ hqy
      _ ≤ (N2 / (D2 * 2 ^ ky) + roundUp (N2 / (D2 * 2 ^ ky)) (N2 % (D2 * 2 ^ ky))
            (D2 * 2 ^ ky)) * 2 ^ ky := Nat.mul_le_mul_right _ (Nat.le_add_right _ _)

/-! ### Order properties of the `float` operations -/

theorem roundFrac_le_of_le {p N M : ℕ} (hp : 1 ≤ p) (h : N ≤ M) :
    roundFrac p N 1 ≤ roundFrac p M 1 :=
  roundFrac_mono hp Nat.one_pos Nat.one_pos (by omega)

theorem quot_lt_pow (p N D : ℕ) : N / (D * 2 ^ (bitlen (N / D) - p)) < 2 ^ p := by
  rw [← Nat.div_div_eq_div_mul, Nat.div_lt_iff_lt_mul (Nat.two_pow_pos _), ← pow_add]
  have h1 : N / D < 2 ^ Nat.size (N / D) := Nat.lt_size_self _
  have h2 : bitlen (N / D) = Nat.size (N / D) := bitlen_eq_size _
  exact lt_of_lt_of_le h1 (Nat.pow_le_pow_right (by norm_num) (by omega))

/-- Rounding a rounded value changes nothing. -/
theorem roundFrac_idem {p : ℕ} (hp : 1 ≤ p) (N D : ℕ) :
    roundFrac p (roundFrac p N D) 1 = roundFrac p N D := by
  by_cases hD : D = 0
  · have h0 : roundFrac p N D = 0 := by rw [roundFrac_def, if_pos hD]
    rw [h0, roundFrac_zero]
  · rw [roundFrac_eq p N D hD]
    have hq := quot_lt_pow p N D
    have hup := roundUp_le_one (N / (D * 2 ^ (bitlen (N / D) - p)))
      (N % (D * 2 ^ (bitlen (N / D) - p))) (D * 2 ^ (bitlen (N / D) - p))
    generalize N / (D * 2 ^ (bitlen (N / D) - p)) = q at hq hup ⊢
    generalize roundUp q (N % (D * 2 ^ (bitlen (N / D) - p))) (D * 2 ^ (bitlen (N / D) - p)) = u
      at hup ⊢
    generalize bitlen (N / D) - p = k
    rcases Nat.lt_or_ge (q + u) (2 ^ p) with hlt | hge
    · exact roundFrac_small hlt
    · have he : q + u = 2 ^ p := by omega
      rw [he, ← pow_add]
      have h1 : (1 : ℕ) < 2 ^ p := Nat.one_lt_two_pow (by omega)
      have := roundFrac_small (p := p) (m := 1) (t := p + k) h1
      rw [one_mul] at this
      exact this

/-- Halving a value that has more than `p` digits before the binary point is exact after
rounding. -/
theorem roundFrac_half {p N D : ℕ} (hp : 1 ≤ p) (hD : D ≠ 0) (h : p < bitlen (N / D)) :
    roundFrac p N (2 * D) * 2 = roundFrac p N D := by
  have hD2 : 2 * D ≠ 0 := by omega
  rw [roundFrac_eq p N D hD, roundFrac_eq p N (2 * D) hD2]
  have hb : bitlen (N / D) = bitlen (N / (2 * D)) + 1 := by
    rw [bitlen_eq_size, bitlen_eq_size]
    have h2 : 2 ^ 1 ≤ N / D := by
      have : 1 < Nat.size (N / D) := by rw [← bitlen_eq_size]; omega
      exact Nat.lt_size.1 this
    rw [size_shift h2, pow_one, mul_comm 2 D, Nat.div_div_eq_div_mul]
  have hk : bitlen (N / D) - p = (bitlen (N / (2 * D)) - p) + 1 := by omega
  rw [hk]
  have hd : 2 * D * 2 ^ (bitlen (N / (2 * D)) - p) = D * 2 ^ (bitlen (N / (2 * D)) - p + 1) := by
    rw [pow_succ]; ring
  rw [hd, pow_succ, mul_assoc]

theorem withSign_nonneg {s : ℤ} (hs : 0 ≤ s) (n : ℕ) : withSign s n = (n : ℤ) := by
  rw [withSign_def, if_neg (not_lt.2 hs)]

theorem withSign_abs_le (s : ℤ) {n B : ℕ} (h : n ≤ B) :
    -(B : ℤ) ≤ withSign s n ∧ withSign s n ≤ (B : ℤ) := by
  rw [withSign_def]
  split_ifs <;> omega

theorem ofInt_two_units : (F32.ofInt 2).units = 2 ^ 150 := by decide!

theorem ofFrac_half_units : (F32.ofFrac 1 2).units = 2 ^ 148 := by decide!

theorem roundFrac_one_unit : roundFrac 24 (2 ^ 149) 1 = 2 ^ 149 := by
  have := roundFrac_small (p := 24) (m := 1) (t := 149) (by norm_num)
  rwa [one_mul] at this

theorem roundFrac_half_unit : roundFrac 24 (2 ^ 148) 1 = 2 ^ 148 := by
  have := roundFrac_small (p := 24) (m := 1) (t := 148) (by norm_num)
  rwa [one_mul] at this

/-- The `float` value of a positive integer: positive, at least one, and a fixed point of
rounding. -/
theorem ofInt_pos_units (W : ℤ) (hW : 0 < W) :
    ∃ T : ℕ, (F32.ofInt W).units = (T : ℤ) ∧ 2 ^ 149 ≤ T ∧ roundFrac 24 T 1 = T := by
  refine ⟨roundFrac 24 (W.natAbs * 2 ^ 149) 1, ?_, ?_, roundFrac_idem (by norm_num) _ _⟩
  · show withSign W (roundFrac 24 (Nat.mul W.natAbs (Nat.pow 2 149)) 1) = _
    rw [withSign_nonneg hW.le]
    rfl
  · have h1 : 1 ≤ W.natAbs := by omega
    calc 2 ^ 149 = roundFrac 24 (2 ^ 149) 1 := roundFrac_one_unit.symm
      _ ≤ roundFrac 24 (W.natAbs * 2 ^ 149) 1 :=
        roundFrac_le_of_le (by norm_num) (Nat.le_mul_of_pos_left _ (by omega))

/-- Half of the `float` value of a positive integer is computed exactly. -/
theorem half_width_units (tw : F32) (T : ℕ) (hT : tw.units = (T : ℤ)) (h1 : 2 ^ 149 ≤ T)
    (h2 : roundFrac 24 T 1 = T) :
    ∃ Hh : ℕ, (fdiv tw (F32.ofInt 2)).units = (Hh : ℤ) ∧ Hh * 2 = T := by
  refine ⟨roundFrac 24 T 2, ?_, ?_⟩
  · show withSign (Int.mul tw.units (F32.ofInt 2).units)
      (roundFrac 24 (Nat.mul tw.units.natAbs (Nat.pow 2 149)) (F32.ofInt 2).units.natAbs) = _
    rw [hT, ofInt_two_units, withSign_nonneg (show (0 : ℤ) ≤ Int.mul (T : ℤ) (2 ^ 150) from
      Int.mul_nonneg (Int.ofNat_nonneg _) (pow_nonneg (by norm_num) _))]
    have e1 : Nat.mul (T : ℤ).natAbs (Nat.pow 2 149) = 2 ^ 149 * T := by
      show (T : ℤ).natAbs * 2 ^ 149 = _
      rw [Int.natAbs_ofNat]; ring
    have e2 : ((2 : ℤ) ^ 150).natAbs = 2 ^ 149 * 2 := by
      rw [Int.natAbs_pow]
      exact pow_succ 2 149
    rw [e1, e2, roundFrac_scale 24 (2 ^ 149) T 2 (Nat.two_pow_pos _)]
  · have hb : 24 < bitlen (T / 1) := by
      rw [Nat.div_one, bitlen_eq_size]
      have : 149 < Nat.size T := Nat.lt_size.2 h1
      omega
    have := roundFrac_half (p := 24) (N := T) (D := 1) (by norm_num) (by norm_num) hb
    rw [mul_one] at this
    rw [this, h2]

/-- One coordinate of `get_continuous_normalized_position` and of the translation vector:
for a position within the half extent (as the program computes it), the normalized coordinate
is in `[0, 1]` and the translation component in `[-1/2, 1/2]`. -/
theorem normalized_coord_range (W : ℤ) (hW : 0 < W) (x : F32)
    (hlo : fneg (fdiv (F32.ofInt W) (F32.ofInt 2)) ≤ x)
    (hhi : x < fdiv (F32.ofInt W) (F32.ofInt 2)) :
    F32.ofInt 0 ≤ fdiv (fadd x (fdiv (F32.ofInt W) (F32.ofInt 2))) (F32.ofInt W) ∧
    fdiv (fadd x (fdiv (F32.ofInt W) (F32.ofInt 2))) (F32.ofInt W) ≤ F32.ofInt 1 ∧
    fneg (F32.ofFrac 1 2) ≤
      fsub (fdiv (fadd x (fdiv (F32.ofInt W) (F32.ofInt 2))) (F32.ofInt W)) (F32.ofFrac 1 2) ∧
    fsub (fdiv (fadd x (fdiv (F32.ofInt W) (F32.ofInt 2))) (F32.ofInt W)) (F32.ofFrac 1 2) ≤
      F32.ofFrac 1 2 := by
  obtain ⟨T, hT, hT1, hT2⟩ := ofInt_pos_units W hW
  obtain ⟨Hh, hH, hH2⟩ := half_width_units (F32.ofInt W) T hT hT1 hT2
  generalize F32.ofInt W = tw at hT hH hlo hhi ⊢
  generalize fdiv tw (F32.ofInt 2) = hw at hH hlo hhi ⊢
  have hlo1 : -(Hh : ℤ) ≤ x.units := by
    have : (fneg hw).units ≤ x.units := hlo
    have e : (fneg hw).units = -hw.units := rfl
    rw [e, hH] at this
    exact this
  have hhi1 : x.units < (Hh : ℤ) := by
    have : x.units < hw.units := hhi
    rw [hH] at this
    exact this
  -- the sum
  obtain ⟨v, hv⟩ : ∃ v : ℕ, x.units + hw.units = (v : ℤ) :=
    ⟨(x.units + hw.units).toNat, by rw [hH]; omega⟩
  have hvT : v ≤ T := by
    have : (v : ℤ) ≤ (T : ℤ) := by rw [← hv, hH, ← hH2]; push_cast; omega
    exact_mod_cast this
  have hs : (fadd x hw).units = (roundFrac 24 v 1 : ℕ) := by
    show withSign (Int.add x.units hw.units)
      (roundFrac 24 (Int.natAbs (Int.add x.units hw.units)) 1) = _
    have e : Int.add x.units hw.units = (v : ℤ) := hv
    rw [e, withSign_nonneg (by positivity), Int.natAbs_ofNat]
  have hsT : roundFrac 24 v 1 ≤ T := by
    calc roundFrac 24 v 1 ≤ roundFrac 24 T 1 := roundFrac_le_of_le (by norm_num) hvT
      _ = T := hT2
  generalize roundFrac 24 v 1 = sv at hs hsT
  generalize fadd x hw = sm at hs ⊢
  -- the quotient
  have hTpos : 0 < T := lt_of_lt_of_le (Nat.two_pow_pos 149) hT1
  have hn : (fdiv sm tw).units = (roundFrac 24 (sv * 2 ^ 149) T : ℕ) := by
    show withSign (Int.mul sm.units tw.units)
      (roundFrac 24 (Nat.mul sm.units.natAbs (Nat.pow 2 149)) tw.units.natAbs) = _
    rw [hs, hT, withSign_nonneg (show (0 : ℤ) ≤ Int.mul (sv : ℤ) (T : ℤ) from
      Int.mul_nonneg (Int.ofNat_nonneg _) (Int.ofNat_nonneg _)),
      Int.natAbs_ofNat, Int.natAbs_ofNat]
    rfl
  have hn1 : roundFrac 24 (sv * 2 ^ 149) T ≤ 2 ^ 149 := by
    calc roundFrac 24 (sv * 2 ^ 149) T ≤ roundFrac 24 (T * 2 ^ 149) (T * 1) :=
          roundFrac_mono (by norm_num) hTpos (by omega)
            (by
              calc sv * 2 ^ 149 * (T * 1) = sv * (2 ^ 149 * T) := by ring
                _ ≤ T * (2 ^ 149 * T) := Nat.mul_le_mul_right _ hsT
                _ = T * 2 ^ 149 * T := by ring)
      _ = roundFrac 24 (2 ^ 149) 1 := roundFrac_scale 24 T (2 ^ 149) 1 hTpos
      _ = 2 ^ 149 := roundFrac_one_unit
  generalize roundFrac 24 (sv * 2 ^ 149) T = nv at hn hn1
  generalize fdiv sm tw = nm at hn ⊢
  have hd : -((2 ^ 148 : ℕ) : ℤ) ≤ (fsub nm (F32.ofFrac 1 2)).units ∧
      (fsub nm (F32.ofFrac 1 2)).units ≤ ((2 ^ 148 : ℕ) : ℤ) := by
    show -((2 ^ 148 : ℕ) : ℤ) ≤ withSign (Int.sub nm.units (F32.ofFrac 1 2).units)
        (roundFrac 24 (Int.natAbs (Int.sub nm.units (F32.ofFrac 1 2).units)) 1) ∧
      withSign (Int.sub nm.units (F32.ofFrac 1 2).units)
        (roundFrac 24 (Int.natAbs (Int.sub nm.units (F32.ofFrac 1 2).units)) 1) ≤ _
    apply withSign_abs_le
    have hab : Int.natAbs (Int.sub nm.units (F32.ofFrac 1 2).units) ≤ 2 ^ 148 := by
      rw [int_sub_fn, hn, ofFrac_half_units]
      have : (nv : ℤ) ≤ 2 ^ 149 := by exact_mod_cast hn1
      omega
    calc roundFrac 24 _ 1 ≤ roundFrac 24 (2 ^ 148) 1 := roundFrac_le_of_le (by norm_num) hab
      _ = 2 ^ 148 := roundFrac_half_unit
  refine ⟨?_, ?_, ?_, ?_⟩
  · show (F32.ofInt 0).units ≤ nm.units
    rw [ofInt_zero_units, hn]; positivity
  · show nm.units ≤ (F32.ofInt 1).units
    rw [ofInt_one_units, hn]; exact_mod_cast hn1
  · show (fneg (F32.ofFrac 1 2)).units ≤ _
    have e : (fneg (F32.ofFrac 1 2)).units = -(F32.ofFrac 1 2).units := rfl
    rw [e, ofFrac_half_units]
    have := hd.1
    simp only [Nat.cast_pow, Nat.cast_ofNat] at this
    exact this
  · show _ ≤ (F32.ofFrac 1 2).units
    rw [ofFrac_half_units]
    have := hd.2
    simp only [Nat.cast_pow, Nat.cast_ofNat] at this
    exact this

/-! ### Compositing: the values handed to the byte conversions -/

theorem blend_eq_values (bg : Pixel) (c : Vec3) (a : Byte) :
    blend bg c a = (blend_values bg c a).map
      fun v => (toUChar v.1, toUChar v.2.1, toUChar v.2.2.1, toUChar v.2.2.2) := by
  unfold blend blend_values blended_color final_alpha unitFloat
  simp only
  split_ifs
  · simp only [Option.map_none']
  · simp only [Option.map_some']

/-! #### Operations on non-negative values -/

theorem fadd_units {x y : F32} {X Y : ℕ} (hx : x.units = (X : ℤ)) (hy : y.units = (Y : ℤ)) :
    (fadd x y).units = (roundFrac 24 (X + Y) 1 : ℕ) := by
  show withSign (Int.add x.units y.units) (roundFrac 24 (Int.natAbs (Int.add x.units y.units)) 1)
    = _
  have e : Int.add x.units y.units = ((X + Y : ℕ) : ℤ) := by
    rw [hx, hy]; exact (Nat.cast_add X Y).symm
  rw [e, withSign_nonneg (Int.ofNat_nonneg _), Int.natAbs_ofNat]

theorem fsub_units {x y : F32} {X Y : ℕ} (hx : x.units = (X : ℤ)) (hy : y.units = (Y : ℤ))
    (hle : Y ≤ X) : (fsub x y).units = (roundFrac 24 (X - Y) 1 : ℕ) := by
  show withSign (Int.sub x.units y.units) (roundFrac 24 (Int.natAbs (Int.sub x.units y.units)) 1)
    = _
  have e : Int.sub x.units y.units = ((X - Y : ℕ) : ℤ) := by
    rw [hx, hy]; exact (Nat.cast_sub hle).symm
  rw [e, withSign_nonneg (Int.ofNat_nonneg _), Int.natAbs_ofNat]

theorem fmul_units {x y : F32} {X Y : ℕ} (hx : x.units = (X : ℤ)) (hy : y.units = (Y : ℤ)) :
    (fmul x y).units = (roundFrac 24 (X * Y) (2 ^ 149) : ℕ) := by
  show withSign (Int.mul x.units y.units)
    (roundFrac 24 (Nat.mul x.units.natAbs y.units.natAbs) (Nat.pow 2 149)) = _
  rw [hx, hy, withSign_nonneg (show (0 : ℤ) ≤ Int.mul (X : ℤ) (Y : ℤ) from
    Int.mul_nonneg (Int.ofNat_nonneg _) (Int.ofNat_nonneg _)), Int.natAbs_ofNat, Int.natAbs_ofNat]
  rfl

theorem fdiv_units {x y : F32} {X Y : ℕ} (hx : x.units = (X : ℤ)) (hy : y.units = (Y : ℤ)) :
    (fdiv x y).units = (roundFrac 24 (X * 2 ^ 149) Y : ℕ) := by
  show withSign (Int.mul x.units y.units)
    (roundFrac 24 (Nat.mul x.units.natAbs (Nat.pow 2 149)) y.units.natAbs) = _
  rw [hx, hy, withSign_nonneg (show (0 : ℤ) ≤ Int.mul (X : ℤ) (Y : ℤ) from
    Int.mul_nonneg (Int.ofNat_nonneg _) (Int.ofNat_nonneg _)), Int.natAbs_ofNat, Int.natAbs_ofNat]
  rfl

theorem ofUChar_units (b : Byte) : (ofUChar b).units = ((b.val * 2 ^ 149 : ℕ) : ℤ) := rfl

theorem ofInt_255_units : (F32.ofInt 255).units = ((255 * 2 ^ 149 : ℕ) : ℤ) := by decide!

theorem ofInt_one_nat : (F32.ofInt 1).units = ((2 ^ 149 : ℕ) : ℤ) := by decide!

theorem ofInt_zero_nat : (F32.ofInt 0).units = ((0 : ℕ) : ℤ) := by decide!

theorem toUChar_units {x : F32} {X : ℕ} (hx : x.units = (X : ℤ)) (h : X / 2 ^ 149 < 256) :
    (toUChar x).val = X / 2 ^ 149 := by
  have e : toUChar x = Fin.ofNat (Nat.mod (Nat.shiftRight X 149) 256) := by
    unfold toUChar
    rw [hx]
  rw [e, nat_shr_fn, nat_mod_fn]
  show X / 2 ^ 149 % 256 % 256 = _
  rw [Nat.mod_mod, Nat.mod_eq_of_lt h]

/-! #### Bounds -/

theorem roundFrac_255 : roundFrac 24 (255 * 2 ^ 149) 1 = 255 * 2 ^ 149 :=
  roundFrac_small (by norm_num)

/-- A product with a factor at most one does not exceed the other factor. -/
theorem mul_unit_le {X Y : ℕ} (hX : X ≤ 2 ^ 149) (hY : roundFrac 24 Y 1 = Y) :
    roundFrac 24 (X * Y) (2 ^ 149) ≤ Y := by
  calc roundFrac 24 (X * Y) (2 ^ 149) ≤ roundFrac 24 (2 ^ 149 * Y) (2 ^ 149 * 1) :=
        roundFrac_mono (by norm_num) (Nat.two_pow_pos _) (by positivity)
          (Nat.mul_le_mul_right _ (Nat.mul_le_mul_right _ hX))
    _ = roundFrac 24 Y 1 := roundFrac_scale 24 (2 ^ 149) Y 1 (Nat.two_pow_pos _)
    _ = Y := hY

theorem mul_mono_left {X X1 Y : ℕ} (h : X ≤ X1) :
    roundFrac 24 (X * Y) (2 ^ 149) ≤ roundFrac 24 (X1 * Y) (2 ^ 149) :=
  roundFrac_mono (by norm_num) (Nat.two_pow_pos _) (Nat.two_pow_pos _)
    (Nat.mul_le_mul_right _ (Nat.mul_le_mul_right _ h))

theorem unitN_mono {b1 b2 : ℕ} (h : b1 ≤ b2) : unitN b1 ≤ unitN b2 :=
  roundFrac_mono (by norm_num) (by positivity) (by positivity)
    (Nat.mul_le_mul_right _ (Nat.mul_le_mul_right _ (Nat.mul_le_mul_right _ h)))

theorem unitN_255 : unitN 255 = 2 ^ 149 := by
  unfold unitN
  rw [show 255 * 2 ^ 149 * 2 ^ 149 = (255 * 2 ^ 149) * 2 ^ 149 from rfl,
    show (255 * 2 ^ 149 : ℕ) = (255 * 2 ^ 149) * 1 from (mul_one _).symm,
    mul_assoc (255 * 2 ^ 149) 1, one_mul,
    roundFrac_scale 24 (255 * 2 ^ 149) (2 ^ 149) 1 (by positivity)]
  exact roundFrac_one_unit

theorem unitN_le {b : ℕ} (h : b ≤ 255) : unitN b ≤ 2 ^ 149 := by
  rw [← unitN_255]; exact unitN_mono h

theorem unitN_idem (b : ℕ) : roundFrac 24 (unitN b) 1 = unitN b :=
  roundFrac_idem (by norm_num) _ _

theorem complN_idem (a : ℕ) : roundFrac 24 (complN a) 1 = complN a :=
  roundFrac_idem (by norm_num) _ _

theorem complN_le (a : ℕ) : complN a ≤ 2 ^ 149 := by
  calc complN a ≤ roundFrac 24 (2 ^ 149) 1 :=
        roundFrac_le_of_le (by norm_num) (Nat.sub_le _ _)
    _ = 2 ^ 149 := roundFrac_one_unit

theorem alphaN_idem (b a : ℕ) : roundFrac 24 (alphaN b a) 1 = alphaN b a :=
  roundFrac_idem (by norm_num) _ _

theorem alphaN_ge (b a : ℕ) : unitN a ≤ alphaN b a := by
  calc unitN a = roundFrac 24 (unitN a) 1 := (unitN_idem a).symm
    _ ≤ alphaN b a := roundFrac_le_of_le (by norm_num) (Nat.le_add_right _ _)

theorem alphaN_mono {b1 b2 : ℕ} (h : b1 ≤ b2) (a : ℕ) : alphaN b1 a ≤ alphaN b2 a :=
  roundFrac_le_of_le (by norm_num) (Nat.add_le_add_left (mul_mono_left (unitN_mono h)) _)

set_option maxRecDepth 100000 in
set_option maxHeartbeats 4000000 in
/-- The rounded sum `a/255 + (1 - a/255)` never exceeds one. -/
theorem unit_compl_sum : ∀ a : Byte, roundFrac 24 (unitN a.val + complN a.val) 1 ≤ 2 ^ 149 := by
  decide!

theorem alphaN_le {b a : ℕ} (hb : b ≤ 255) (ha : a < 256) : alphaN b a ≤ 2 ^ 149 := by
  calc alphaN b a ≤ roundFrac 24 (unitN a + complN a) 1 :=
        roundFrac_le_of_le (by norm_num)
          (Nat.add_le_add_left (mul_unit_le (unitN_le hb) (complN_idem a)) _)
    _ ≤ 2 ^ 149 := unit_compl_sum ⟨a, ha⟩

theorem times255_le {X : ℕ} (h : X ≤ 2 ^ 149) :
    roundFrac 24 (X * (255 * 2 ^ 149)) (2 ^ 149) ≤ 255 * 2 ^ 149 := by
  calc roundFrac 24 (X * (255 * 2 ^ 149)) (2 ^ 149)
      ≤ roundFrac 24 (2 ^ 149 * (255 * 2 ^ 149)) (2 ^ 149 * 1) :=
        roundFrac_mono (by norm_num) (Nat.two_pow_pos _) (by positivity)
          (Nat.mul_le_mul_right _ (Nat.mul_le_mul_right _ h))
    _ = roundFrac 24 (255 * 2 ^ 149) 1 := roundFrac_scale 24 (2 ^ 149) _ 1 (Nat.two_pow_pos _)
    _ = 255 * 2 ^ 149 := roundFrac_255

theorem times255_mono {X X1 : ℕ} (h : X ≤ X1) :
    roundFrac 24 (X * (255 * 2 ^ 149)) (2 ^ 149) ≤
      roundFrac 24 (X1 * (255 * 2 ^ 149)) (2 ^ 149) :=
  mul_mono_left h

theorem alphaOut_le {b a : ℕ} (hb : b ≤ 255) (ha : a < 256) : alphaOut b a ≤ 255 := by
  unfold alphaOut
  calc roundFrac 24 (alphaN b a * (255 * 2 ^ 149)) (2 ^ 149) / 2 ^ 149
      ≤ 255 * 2 ^ 149 / 2 ^ 149 := Nat.div_le_div_right (times255_le (alphaN_le hb ha))
    _ = 255 := Nat.mul_div_cancel _ (Nat.two_pow_pos _)

theorem alphaOut_mono {b1 b2 : ℕ} (h : b1 ≤ b2) (a : ℕ) : alphaOut b1 a ≤ alphaOut b2 a :=
  Nat.div_le_div_right (times255_mono (alphaN_mono h a))

set_option maxRecDepth 100000 in
set_option maxHeartbeats 4000000 in
/-- A byte survives the conversion to the unit interval and back. -/
theorem unit_round_trip : ∀ a : Byte,
    roundFrac 24 (unitN a.val * (255 * 2 ^ 149)) (2 ^ 149) / 2 ^ 149 = a.val := by
  decide!

theorem alphaOut_ge_new {b a : ℕ} (ha : a < 256) : a ≤ alphaOut b a := by
  calc a = roundFrac 24 (unitN a * (255 * 2 ^ 149)) (2 ^ 149) / 2 ^ 149 :=
        (unit_round_trip ⟨a, ha⟩).symm
    _ ≤ alphaOut b a := Nat.div_le_div_right (times255_mono (alphaN_ge b a))

theorem coversFrom_sound (a : ℕ) : ∀ (fuel b : ℕ), coversFrom a fuel b = true →
    ∀ b1, b ≤ b1 → b1 < 256 → b1 ≤ alphaOut b1 a
  | 0, _, h => by simp [coversFrom] at h
  | fuel + 1, b, h => by
    intro b1 hb1 hlt
    unfold coversFrom at h
    by_cases h1 : 256 ≤ b
    · omega
    · rw [if_neg h1] at h
      have key : ¬ alphaOut b a < b ∧ coversFrom a fuel (alphaOut b a + 1) = true := by
        cases hv : alphaOut b a with
        | zero =>
          rw [hv] at h
          simp only at h
          by_cases h2 : 0 < b
          · rw [if_pos h2] at h; exact absurd h (by decide)
          · rw [if_neg h2] at h; exact ⟨h2, h⟩
        | succ v =>
          rw [hv] at h
          simp only at h
          by_cases h2 : v + 1 < b
          · rw [if_pos h2] at h; exact absurd h (by decide)
          · rw [if_neg h2] at h; exact ⟨h2, h⟩
      rcases Nat.lt_or_ge (alphaOut b a) b1 with hc | hc
      · exact coversFrom_sound a fuel _ key.2 b1 hc hlt
      · exact le_trans hc (alphaOut_mono hb1 a)

theorem coversRange_sound : ∀ n a0 : ℕ, coversRange n a0 = true →
    ∀ a, a0 ≤ a → a < a0 + n → coversFrom a 300 0 = true
  | 0, _, _, a, h1, h2 => absurd h2 (by omega)
  | n + 1, a0, h, a, h1, h2 => by
    unfold coversRange at h
    rw [Bool.and_eq_true] at h
    rcases Nat.eq_or_lt_of_le h1 with he | hl
    · rw [← he]; exact h.1
    · exact coversRange_sound n (a0 + 1) h.2 a hl (by omega)

theorem covers_block_0 : coversRange 8 0 = true := by decide!

theorem covers_block_1 : coversRange 8 8 = true := by decide!

theorem covers_block_2 : coversRange 8 16 = true := by decide!

theorem covers_block_3 : coversRange 8 24 = true := by decide!

theorem covers_block_4 : coversRange 8 32 = true := by decide!

theorem covers_block_5 : coversRange 8 40 = true := by decide!

theorem covers_block_6 : coversRange 8 48 = true := by decide!

theorem covers_block_7 : coversRange 8 56 = true := by decide!

theorem covers_block_8 : coversRange 8 64 = true := by decide!

theorem covers_block_9 : coversRange 8 72 = true := by decide!

theorem covers_block_10 : coversRange 8 80 = true := by decide!

theorem covers_block_11 : coversRange 8 88 = true := by decide!

theorem covers_block_12 : coversRange 8 96 = true := by decide!

theorem covers_block_13 : coversRange 8 104 = true := by decide!

theorem covers_block_14 : coversRange 8 112 = true := by decide!

theorem covers_block_15 : coversRange 8 120 = true := by decide!

theorem covers_block_16 : coversRange 8 128 = true := by decide!

theorem covers_block_17 : coversRange 8 136 = true := by decide!

theorem covers_block_18 : coversRange 8 144 = true := by decide!

theorem covers_block_19 : coversRange 8 152 = true := by decide!

theorem covers_block_20 : coversRange 8 160 = true := by decide!

theorem covers_block_21 : coversRange 8 168 = true := by decide!

theorem covers_block_22 : coversRange 8 176 = true := by decide!

theorem covers_block_23 : coversRange 8 184 = true := by decide!

theorem covers_block_24 : coversRange 8 192 = true := by decide!

theorem covers_block_25 : coversRange 8 200 = true := by decide!

theorem covers_block_26 : coversRange 8 208 = true := by decide!

theorem covers_block_27 : coversRange 8 216 = true := by decide!

theorem covers_block_28 : coversRange 8 224 = true := by decide!

theorem covers_block_29 : coversRange 8 232 = true := by decide!

theorem covers_block_30 : coversRange 8 240 = true := by decide!

theorem covers_block_31 : coversRange 8 248 = true := by decide!

theorem coversFrom_all (a : ℕ) (ha : a < 256) : coversFrom a 300 0 = true := by
  rcases Nat.lt_or_ge a 8 with h | h0
  · exact coversRange_sound 8 0 covers_block_0 a (by omega) (by omega)
  rcases Nat.lt_or_ge a 16 with h | h1
  · exact coversRange_sound 8 8 covers_block_1 a (by omega) (by omega)
  rcases Nat.lt_or_ge a 24 with h | h2
  · exact coversRange_sound 8 16 covers_block_2 a (by omega) (by omega)
  rcases Nat.lt_or_ge a 32 with h | h3
  · exact coversRange_sound 8 24 covers_block_3 a (by omega) (by omega)
  rcases Nat.lt_or_ge a 40 with h | h4
  · exact coversRange_sound 8 32 covers_block_4 a (by omega) (by omega)
  rcases Nat.lt_or_ge a 48 with h | h5
  · exact coversRange_sound 8 40 covers_block_5 a (by omega) (by omega)
  rcases Nat.lt_or_ge a 56 with h | h6
  · exact coversRange_sound 8 48 covers_block_6 a (by omega) (by omega)
  rcases Nat.lt_or_ge a 64 with h | h7
  · exact coversRange_sound 8 56 covers_block_7 a (by omega) (by omega)
  rcases Nat.lt_or_ge a 72 with h | h8
  · exact coversRange_sound 8 64 covers_block_8 a (by omega) (by omega)
  rcases Nat.lt_or_ge a 80 with h | h9
  · exact coversRange_sound 8 72 covers_block_9 a (by omega) (by omega)
  rcases Nat.lt_or_ge a 88 with h | h10
  · exact coversRange_sound 8 80 covers_block_10 a (by omega) (by omega)
  rcases Nat.lt_or_ge a 96 with h | h11
  · exact coversRange_sound 8 88 covers_block_11 a (by omega) (by omega)
  rcases Nat.lt_or_ge a 104 with h | h12
  · exact coversRange_sound 8 96 covers_block_12 a (by omega) (by omega)
  rcases Nat.lt_or_ge a 112 with h | h13
  · exact coversRange_sound 8 104 covers_block_13 a (by omega) (by omega)
  rcases Nat.lt_or_ge a 120 with h | h14
  · exact coversRange_sound 8 112 covers_block_14 a (by omega) (by omega)
  rcases Nat.lt_or_ge a 128 with h | h15
  · exact coversRange_sound 8 120 covers_block_15 a (by omega) (by omega)
  rcases Nat.lt_or_ge a 136 with h | h16
  · exact coversRange_sound 8 128 covers_block_16 a (by omega) (by omega)
  rcases Nat.lt_or_ge a 144 with h | h17
  · exact coversRange_sound 8 136 covers_block_17 a (by omega) (by omega)
  rcases Nat.lt_or_ge a 152 with h | h18
  · exact coversRange_sound 8 144 covers_block_18 a (by omega) (by omega)
  rcases Nat.lt_or_ge a 160 with h | h19
  · exact coversRange_sound 8 152 covers_block_19 a (by omega) (by omega)
  rcases Nat.lt_or_ge a 168 with h | h20
  · exact coversRange_sound 8 160 covers_block_20 a (by omega) (by omega)
  rcases Nat.lt_or_ge a 176 with h | h21
  · exact coversRange_sound 8 168 covers_block_21 a (by omega) (by omega)
  rcases Nat.lt_or_ge a 184 with h | h22
  · exact coversRange_sound 8 176 covers_block_22 a (by omega) (by omega)
  rcases Nat.lt_or_ge a 192 with h | h23
  · exact coversRange_sound 8 184 covers_block_23 a (by omega) (by omega)
  rcases Nat.lt_or_ge a 200 with h | h24
  · exact coversRange_sound 8 192 covers_block_24 a (by omega) (by omega)
  rcases Nat.lt_or_ge a 208 with h | h25
  · exact coversRange_sound 8 200 covers_block_25 a (by omega) (by omega)
  rcases Nat.lt_or_ge a 216 with h | h26
  · exact coversRange_sound 8 208 covers_block_26 a (by omega) (by omega)
  rcases Nat.lt_or_ge a 224 with h | h27
  · exact coversRange_sound 8 216 covers_block_27 a (by omega) (by omega)
  rcases Nat.lt_or_ge a 232 with h | h28
  · exact coversRange_sound 8 224 covers_block_28 a (by omega) (by omega)
  rcases Nat.lt_or_ge a 240 with h | h29
  · exact coversRange_sound 8 232 covers_block_29 a (by omega) (by omega)
  rcases Nat.lt_or_ge a 248 with h | h30
  · exact coversRange_sound 8 240 covers_block_30 a (by omega) (by omega)
  exact coversRange_sound 8 248 covers_block_31 a (by omega) (by omega)

theorem alphaOut_ge_old {b a : ℕ} (hb : b < 256) (ha : a < 256) : b ≤ alphaOut b a :=
  coversFrom_sound a 300 0 (coversFrom_all a ha) b (Nat.zero_le _) hb

/-! #### The compositing arithmetic in units -/

theorem unitFloat_units (b : Byte) : (unitFloat b).units = (unitN b.val : ℕ) :=
  fdiv_units (ofUChar_units b) ofInt_255_units

theorem byte_le (b : Byte) : b.val ≤ 255 := Nat.le_of_lt_succ b.isLt

theorem compl_units (a : Byte) :
    (fsub (F32.ofInt 1) (unitFloat a)).units = (complN a.val : ℕ) :=
  fsub_units ofInt_one_nat (unitFloat_units a) (unitN_le (byte_le a))

theorem final_alpha_units (b a : Byte) :
    (final_alpha b a).units = (alphaN b.val a.val : ℕ) :=
  fadd_units (unitFloat_units a) (fmul_units (unitFloat_units b) (compl_units a))

theorem alpha_value_units (b a : Byte) :
    (fmul (final_alpha b a) (F32.ofInt 255)).units =
      (roundFrac 24 (alphaN b.val a.val * (255 * 2 ^ 149)) (2 ^ 149) : ℕ) :=
  fmul_units (final_alpha_units b a) ofInt_255_units

theorem alpha_byte_val (b a : Byte) :
    (toUChar (fmul (final_alpha b a) (F32.ofInt 255))).val = alphaOut b.val a.val :=
  toUChar_units (alpha_value_units b a)
    (Nat.lt_succ_of_le (alphaOut_le (byte_le b) a.isLt))

theorem inByteRange_of_units {v : F32} {V : ℕ} (hv : v.units = (V : ℤ))
    (h : V ≤ 255 * 2 ^ 149) : InByteRange v := by
  constructor
  · show (F32.ofInt 0).units ≤ v.units
    rw [ofInt_zero_units, hv]; exact Int.ofNat_nonneg _
  · show v.units ≤ (F32.ofInt 255).units
    rw [ofInt_255_units, hv]; exact Int.ofNat_le.2 h

theorem inUnit_units {c : F32} (hc : InUnit c) :
    ∃ C : ℕ, c.units = (C : ℤ) ∧ C ≤ 2 ^ 149 ∧ roundFrac 24 C 1 = C := by
  obtain ⟨h1, h2, h3⟩ := hc
  have h2a : (F32.ofInt 0).units ≤ c.units := h2
  have h3a : c.units ≤ (F32.ofInt 1).units := h3
  rw [ofInt_zero_units] at h2a
  rw [ofInt_one_nat] at h3a
  obtain ⟨C, hC⟩ := Int.eq_ofNat_of_zero_le h2a
  refine ⟨C, hC, ?_, ?_⟩
  · rw [hC] at h3a; exact Int.ofNat_le.1 h3a
  · have : roundFrac 24 c.units.natAbs 1 = c.units.natAbs := h1
    rw [hC, Int.natAbs_ofNat] at this
    exact this

/-- Every colour value handed to the byte conversion is in the range of a byte. -/
theorem colour_value_range (bg_c b a : Byte) {c : F32} (hc : InUnit c) :
    InByteRange (fmul (blended_color bg_c b a c) (F32.ofInt 255)) := by
  obtain ⟨C, hC, hC1, hC2⟩ := inUnit_units hc
  have hnum := fadd_units (fmul_units hC (unitFloat_units a))
    (fmul_units (fmul_units (unitFloat_units bg_c) (unitFloat_units b)) (compl_units a))
  have hbl := fdiv_units hnum (final_alpha_units b a)
  have hv := fmul_units hbl ofInt_255_units
  refine inByteRange_of_units hv (times255_le ?_)
  have hT1 : roundFrac 24 (C * unitN a.val) (2 ^ 149) ≤ unitN a.val :=
    mul_unit_le hC1 (unitN_idem _)
  have hT2 : roundFrac 24 (unitN bg_c.val * unitN b.val) (2 ^ 149) ≤ unitN b.val :=
    mul_unit_le (unitN_le (byte_le bg_c)) (unitN_idem _)
  have hT3 : roundFrac 24 (roundFrac 24 (unitN bg_c.val * unitN b.val) (2 ^ 149) *
      complN a.val) (2 ^ 149) ≤ roundFrac 24 (unitN b.val * complN a.val) (2 ^ 149) :=
    mul_mono_left hT2
  have hN : roundFrac 24 (roundFrac 24 (C * unitN a.val) (2 ^ 149) +
      roundFrac 24 (roundFrac 24 (unitN bg_c.val * unitN b.val) (2 ^ 149) * complN a.val)
        (2 ^ 149)) 1 ≤ alphaN b.val a.val :=
    roundFrac_le_of_le (by norm_num) (Nat.add_le_add hT1 hT3)
  generalize roundFrac 24 (roundFrac 24 (C * unitN a.val) (2 ^ 149) +
      roundFrac 24 (roundFrac 24 (unitN bg_c.val * unitN b.val) (2 ^ 149) * complN a.val)
        (2 ^ 149)) 1 = num at hN ⊢
  generalize alphaN b.val a.val = fa at hN ⊢
  rcases Nat.eq_zero_or_pos fa with h0 | hpos
  · rw [h0, roundFrac_def, if_pos rfl]; exact Nat.zero_le _
  · calc roundFrac 24 (num * 2 ^ 149) fa ≤ roundFrac 24 (fa * 2 ^ 149) (fa * 1) :=
          roundFrac_mono (by norm_num) hpos (by omega)
            (by
              calc num * 2 ^ 149 * (fa * 1) = num * (2 ^ 149 * fa) := by ring
                _ ≤ fa * (2 ^ 149 * fa) := Nat.mul_le_mul_right _ hN
                _ = fa * 2 ^ 149 * fa := by ring)
      _ = roundFrac 24 (2 ^ 149) 1 := roundFrac_scale 24 fa (2 ^ 149) 1 hpos
      _ = 2 ^ 149 := roundFrac_one_unit

theorem alpha_value_range (b a : Byte) :
    InByteRange (fmul (final_alpha b a) (F32.ofInt 255)) :=
  inByteRange_of_units (alpha_value_units b a) (times255_le (alphaN_le (byte_le b) a.isLt))

theorem tiny_threshold :
    (F64.ofFrac 1 100000).units ≤ ((unitN 1 : ℕ) : ℤ) * Int.ofNat (Nat.pow 2 925) := by decide!

/-- The early return of `set_pixel_alpha` is taken only for a new alpha byte `0`. -/
theorem tiny_alpha (b a : Byte) (h : (final_alpha b a).toF64 < F64.ofFrac 1 100000) :
    a = 0 := by
  by_contra hne
  have ha : 1 ≤ a.val := by
    rcases Nat.eq_zero_or_pos a.val with h0 | h1
    · exact absurd (Fin.ext h0) hne
    · exact h1
  have h1 : (final_alpha b a).toF64.units < (F64.ofFrac 1 100000).units := h
  have h2 : (final_alpha b a).toF64.units =
      ((alphaN b.val a.val : ℕ) : ℤ) * Int.ofNat (Nat.pow 2 925) := by
    show Int.mul (final_alpha b a).units (Int.ofNat (Nat.pow 2 925)) = _
    rw [final_alpha_units]
    rfl
  have h3 : unitN 1 ≤ alphaN b.val a.val := le_trans (unitN_mono ha) (alphaN_ge _ _)
  have h4 : ((unitN 1 : ℕ) : ℤ) * Int.ofNat (Nat.pow 2 925) ≤
      ((alphaN b.val a.val : ℕ) : ℤ) * Int.ofNat (Nat.pow 2 925) :=
    Int.mul_le_mul_of_nonneg_right (Int.ofNat_le.2 h3) (Int.ofNat_nonneg _)
  have h5 := tiny_threshold
  rw [h2] at h1
  exact absurd (lt_of_le_of_lt (le_trans h5 h4) h1) (lt_irrefl _)

/-- What `blend` does to the alpha byte, and the range of the values it converts. -/
theorem blend_alpha_bounds (bg : Pixel) (c : Vec3)
    (hc : InUnit c.1 ∧ InUnit c.2.1 ∧ InUnit c.2.2) (a : Byte) :
    (a ≤ ((blend bg c a).getD bg).2.2.2 ∧ bg.2.2.2 ≤ ((blend bg c a).getD bg).2.2.2) ∧
    ∀ v, blend_values bg c a = some v →
      InByteRange v.1 ∧ InByteRange v.2.1 ∧ InByteRange v.2.2.1 ∧ InByteRange v.2.2.2 := by
  rw [blend_eq_values]
  unfold blend_values
  by_cases ht : (final_alpha bg.2.2.2 a).toF64 < F64.ofFrac 1 100000
  · rw [if_pos ht]
    refine ⟨?_, fun v hv => absurd hv (by simp)⟩
    simp only [Option.map_none', Option.getD_none]
    rw [tiny_alpha _ _ ht]
    exact ⟨Fin.zero_le _, le_refl _⟩
  · rw [if_neg ht]
    refine ⟨?_, fun v hv => ?_⟩
    · simp only [Option.map_some', Option.getD_some]
      constructor
      · show a.val ≤ (toUChar (fmul (final_alpha bg.2.2.2 a) (F32.ofInt 255))).val
        rw [alpha_byte_val]; exact alphaOut_ge_new a.isLt
      · show bg.2.2.2.val ≤ (toUChar (fmul (final_alpha bg.2.2.2 a) (F32.ofInt 255))).val
        rw [alpha_byte_val]; exact alphaOut_ge_old bg.2.2.2.isLt a.isLt
    · have hv1 := (Option.some.inj hv).symm
      rw [hv1]
      exact ⟨colour_value_range _ _ _ hc.1, colour_value_range _ _ _ hc.2.1,
        colour_value_range _ _ _ hc.2.2, alpha_value_range _ _⟩

/-- C15: compositing never makes a pixel more transparent and never leaves the range of a
byte.  After `set_pixel_alpha` on an in-bounds pixel of an allocated buffer, with colour
components in `[0, 1]`, the alpha byte is at least the new alpha byte and at least the previous
one (and at most `255`), and the four `float` values that are converted to bytes, when the
function does not return early, lie in `[0, 255]`. -/
theorem set_pixel_alpha_opacity (s : Minimap) (buf : ℕ → Byte)
    (hbuf : s.trailPixelData = some buf) (x y : ℤ) (hx : 0 ≤ x ∧ x < 256)
    (hy : 0 ≤ y ∧ y < 256) (c : Vec3) (hc : InUnit c.1 ∧ InUnit c.2.1 ∧ InUnit c.2.2)
    (a : Byte) :
    ∃ bg px : Pixel, pixelAt s x y = some bg ∧
      pixelAt (set_pixel_alpha x y c a s) x y = some px ∧
      a ≤ px.2.2.2 ∧ bg.2.2.2 ≤ px.2.2.2 ∧ px.2.2.2.val ≤ 255 ∧
      (blend bg c a = (blend_values bg c a).map
        fun v => (toUChar v.1, toUChar v.2.1, toUChar v.2.2.1, toUChar v.2.2.2)) ∧
      ∀ v, blend_values bg c a = some v →
        InByteRange v.1 ∧ InByteRange v.2.1 ∧ InByteRange v.2.2.1 ∧ InByteRange v.2.2.2 := by
  have hp : pixelAt s x y = some (loadPixel buf ((y * MINIMAP_TEXTURE_SIZE + x) * 4).toNat) := by
    simp [pixelAt, hbuf]
  generalize loadPixel buf ((y * MINIMAP_TEXTURE_SIZE + x) * 4).toNat = bg at hp
  have h := blend_alpha_bounds bg c hc a
  refine ⟨bg, (blend bg c a).getD bg, hp, ?_, h.1.1, h.1.2, byte_le _, blend_eq_values bg c a,
    h.2⟩
  rw [set_pixel_alpha_at _ _ _ _ _ hx hy, hp]
  rfl

theorem set_pixel_alpha_opacity_witness :
    ∃ bg px : Pixel, pixelAt greyTrail 3 5 = some bg ∧
      pixelAt (set_pixel_alpha 3 5 sampleA 77 greyTrail) 3 5 = some px ∧
      (77 : Byte) ≤ px.2.2.2 ∧ bg.2.2.2 ≤ px.2.2.2 ∧ px.2.2.2.val ≤ 255 ∧
      (blend bg sampleA 77 = (blend_values bg sampleA 77).map
        fun v => (toUChar v.1, toUChar v.2.1, toUChar v.2.2.1, toUChar v.2.2.2)) ∧
      ∀ v, blend_values bg sampleA 77 = some v →
        InByteRange v.1 ∧ InByteRange v.2.1 ∧ InByteRange v.2.2.1 ∧ InByteRange v.2.2.2 :=
  set_pixel_alpha_opacity greyTrail _ rfl 3 5 (by decide) (by decide) sampleA sampleA_inUnit 77

/-! ### Range of the normalized position -/

/-- C13 (counterexample): on a `1000 x 1000` terrain the position `x = z = 500 - 2 ^ (-15)`
is a `float` strictly below `W / 2 = 500`, yet the sum `x + 500` rounds to `1000`: both
normalized coordinates are exactly `1` and both translation components exactly `1/2`. -/
theorem normalized_position_reaches_one :
    IsFloat nearEdge ∧
    fneg (fdiv (F32.ofInt 1000) (F32.ofInt 2)) ≤ nearEdge ∧
    nearEdge < fdiv (F32.ofInt 1000) (F32.ofInt 2) ∧
    fdiv (F32.ofInt 1000) (F32.ofInt 2) = F32.ofInt 500 ∧
    get_continuous_normalized_position edgeGlobals edgeGlobals.planePos =
      (F32.ofInt 1, F32.ofInt 1) ∧
    (update_minimap_dot workingHost edgeGlobals Minimap.initial).translationVector =
      (F32.ofFrac 1 2, F32.ofFrac 1 2) := by
  decide!

/-- C13 (amended): for positive terrain extents and a position within the half extents (as
the program computes them, `(float)W / 2.0f`; this is `W / 2` exactly for `W < 2 ^ 24`), both
normalized coordinates lie in the closed interval `[0, 1]` and, when the player has not
crashed, both components of the stored translation vector lie in `[-1/2, 1/2]`. -/
theorem normalized_position_bounds (h : Host) (g : Globals) (s : Minimap)
    (hW : 0 < g.terrain_width) (hH : 0 < g.terrain_height)
    (hx : fneg (fdiv (F32.ofInt g.terrain_width) (F32.ofInt 2)) ≤ g.planePos.1 ∧
      g.planePos.1 < fdiv (F32.ofInt g.terrain_width) (F32.ofInt 2))
    (hz : fneg (fdiv (F32.ofInt g.terrain_height) (F32.ofInt 2)) ≤ g.planePos.2.2 ∧
      g.planePos.2.2 < fdiv (F32.ofInt g.terrain_height) (F32.ofInt 2)) :
    (F32.ofInt 0 ≤ (get_continuous_normalized_position g g.planePos).1 ∧
      (get_continuous_normalized_position g g.planePos).1 ≤ F32.ofInt 1 ∧
      F32.ofInt 0 ≤ (get_continuous_normalized_position g g.planePos).2 ∧
      (get_continuous_normalized_position g g.planePos).2 ≤ F32.ofInt 1) ∧
    (g.isCrashed = false →
      fneg (F32.ofFrac 1 2) ≤ (update_minimap_dot h g s).translationVector.1 ∧
      (update_minimap_dot h g s).translationVector.1 ≤ F32.ofFrac 1 2 ∧
      fneg (F32.ofFrac 1 2) ≤ (update_minimap_dot h g s).translationVector.2 ∧
      (update_minimap_dot h g s).translationVector.2 ≤ F32.ofFrac 1 2) := by
  have h1 := normalized_coord_range g.terrain_width hW g.planePos.1 hx.1 hx.2
  have h2 := normalized_coord_range g.terrain_height hH g.planePos.2.2 hz.1 hz.2
  refine ⟨⟨h1.1, h1.2.1, h2.1, h2.2.1⟩, fun hc => ?_⟩
  have e : (update_minimap_dot h g s).translationVector =
      (fsub (get_continuous_normalized_position g g.planePos).1 (F32.ofFrac 1 2),
       fsub (get_continuous_normalized_position g g.planePos).2 (F32.ofFrac 1 2)) := by
    unfold update_minimap_dot
    rw [hc]
    simp only [Bool.false_eq_true, if_false]
  rw [e]
  exact ⟨h1.2.2.1, h1.2.2.2, h2.2.2.1, h2.2.2.2⟩

theorem sampleGlobals_inside :
    (fneg (fdiv (F32.ofInt sampleGlobals.terrain_width) (F32.ofInt 2)) ≤ sampleGlobals.planePos.1 ∧
      sampleGlobals.planePos.1 < fdiv (F32.ofInt sampleGlobals.terrain_width) (F32.ofInt 2)) ∧
    (fneg (fdiv (F32.ofInt sampleGlobals.terrain_height) (F32.ofInt 2)) ≤
        sampleGlobals.planePos.2.2 ∧
      sampleGlobals.planePos.2.2 <
        fdiv (F32.ofInt sampleGlobals.terrain_height) (F32.ofInt 2)) := by
  decide!

theorem normalized_position_bounds_witness :
    (F32.ofInt 0 ≤ (get_continuous_normalized_position sampleGlobals sampleGlobals.planePos).1 ∧
      (get_continuous_normalized_position sampleGlobals sampleGlobals.planePos).1 ≤ F32.ofInt 1 ∧
      F32.ofInt 0 ≤ (get_continuous_normalized_position sampleGlobals sampleGlobals.planePos).2 ∧
      (get_continuous_normalized_position sampleGlobals sampleGlobals.planePos).2 ≤
        F32.ofInt 1) ∧
    (sampleGlobals.isCrashed = false →
      fneg (F32.ofFrac 1 2) ≤
        (update_minimap_dot workingHost sampleGlobals Minimap.initial).translationVector.1 ∧
      (update_minimap_dot workingHost sampleGlobals Minimap.initial).translationVector.1 ≤
        F32.ofFrac 1 2 ∧
      fneg (F32.ofFrac 1 2) ≤
        (update_minimap_dot workingHost sampleGlobals Minimap.initial).translationVector.2 ∧
      (update_minimap_dot workingHost sampleGlobals Minimap.initial).translationVector.2 ≤
        F32.ofFrac 1 2) :=
  normalized_position_bounds workingHost sampleGlobals Minimap.initial (by decide) (by decide)
    sampleGlobals_inside.1 sampleGlobals_inside.2

/-! ### Buffer accesses of `set_pixel_alpha` -/

/-- C16: on an in-bounds pixel of an allocated buffer, `set_pixel_alpha` reads and writes only
the offsets `idx .. idx + 3` with `idx = (y * 256 + x) * 4`, which lie below
`256 * 256 * 4`, and every byte at another offset keeps its value. -/
theorem set_pixel_alpha_footprint (s : Minimap) (buf : ℕ → Byte)
    (hbuf : s.trailPixelData = some buf) (x y : ℤ) (hx : 0 ≤ x ∧ x < 256)
    (hy : 0 ≤ y ∧ y < 256) (c : Vec3) (a : Byte) :
    ((y * 256 + x) * 4).toNat + 3 < 256 * 256 * 4 ∧
    (∃ l : List ℕ, (set_pixel_alpha x y c a s).accessed = s.accessed ++ l ∧
      ∀ i ∈ l, ((y * 256 + x) * 4).toNat ≤ i ∧ i ≤ ((y * 256 + x) * 4).toNat + 3) ∧
    ∃ buf1 : ℕ → Byte, (set_pixel_alpha x y c a s).trailPixelData = some buf1 ∧
      ∀ i : ℕ, (i < ((y * 256 + x) * 4).toNat ∨ ((y * 256 + x) * 4).toNat + 3 < i) →
        buf1 i = buf i := by
  refine ⟨by omega, ?_⟩
  unfold set_pixel_alpha
  rw [if_neg ((inBounds_iff x y).2 ⟨hx, hy⟩), hbuf]
  simp only [MINIMAP_TEXTURE_SIZE]
  generalize ((y * 256 + x) * 4).toNat = idx
  generalize blend (loadPixel buf idx) c a = r
  cases r with
  | none =>
    refine ⟨⟨[idx, idx + 1, idx + 2, idx + 3], rfl, ?_⟩, buf, rfl, fun _ _ => rfl⟩
    intro i hi
    simp only [List.mem_cons, List.mem_singleton, List.not_mem_nil, or_false] at hi
    omega
  | some px =>
    refine ⟨⟨[idx, idx + 1, idx + 2, idx + 3] ++ [idx, idx + 1, idx + 2, idx + 3], ?_, ?_⟩,
      storePixel buf idx px, rfl, ?_⟩
    · simp only [List.append_assoc]
    · intro i hi
      simp only [List.mem_append, List.mem_cons, List.mem_singleton, List.not_mem_nil,
        or_false] at hi
      omega
    · intro i hi
      unfold storePixel
      have h0 : i ≠ idx := by omega
      have h1 : i ≠ idx + 1 := by omega
      have h2 : i ≠ idx + 2 := by omega
      have h3 : i ≠ idx + 3 := by omega
      simp only [Function.update, h0, h1, h2, h3, dite_false, eq_rec_constant]

theorem set_pixel_alpha_footprint_witness :
    ((5 * 256 + 3 : ℤ) * 4).toNat + 3 < 256 * 256 * 4 ∧
    (∃ l : List ℕ, (set_pixel_alpha 3 5 sampleA 77 greyTrail).accessed =
        greyTrail.accessed ++ l ∧
      ∀ i ∈ l, ((5 * 256 + 3 : ℤ) * 4).toNat ≤ i ∧ i ≤ ((5 * 256 + 3 : ℤ) * 4).toNat + 3) ∧
    ∃ buf1 : ℕ → Byte, (set_pixel_alpha 3 5 sampleA 77 greyTrail).trailPixelData = some buf1 ∧
      ∀ i : ℕ, (i < ((5 * 256 + 3 : ℤ) * 4).toNat ∨ ((5 * 256 + 3 : ℤ) * 4).toNat + 3 < i) →
        buf1 i = (fun i => if i = 3 then 11 else 3) i :=
  set_pixel_alpha_footprint greyTrail _ rfl 3 5 (by decide) (by decide) sampleA 77

/-! ### Lifecycle after cleanup -/

theorem cleanup_minimap_program (s : Minimap) :
    (cleanup_minimap s).minimapShaderProgram = s.minimapShaderProgram := by
  unfold cleanup_minimap
  cases hd : s.trailPixelData with
  | none => simp [hd]
  | some buf => simp [hd]

theorem cleanup_minimap_null (s : Minimap) : (cleanup_minimap s).trailPixelData = none := by
  unfold cleanup_minimap
  cases hd : s.trailPixelData with
  | none => simp [hd]
  | some buf => simp [hd]

/-- C17: `cleanup_minimap` keeps the program handle, so after a successful initialisation
(non-zero handle) a later `init_minimap` returns at its sentinel test: it changes no state,
makes no external call, and the trail buffer pointer stays null. -/
theorem init_after_cleanup_inert (h : Host) (s : Minimap) (hp : s.minimapShaderProgram ≠ 0) :
    (cleanup_minimap s).minimapShaderProgram = s.minimapShaderProgram ∧
    init_minimap h (cleanup_minimap s) = cleanup_minimap s ∧
    (init_minimap h (cleanup_minimap s)).trailPixelData = none := by
  have h1 := cleanup_minimap_program s
  have h2 := cleanup_minimap_null s
  have h3 : init_minimap h (cleanup_minimap s) = cleanup_minimap s := by
    generalize cleanup_minimap s = t at h1
    unfold init_minimap
    rw [if_neg (by rw [h1]; exact hp)]
  exact ⟨h1, h3, by rw [h3]; exact h2⟩

theorem init_after_cleanup_inert_witness :
    (cleanup_minimap (init_minimap workingHost Minimap.initial)).minimapShaderProgram =
      (init_minimap workingHost Minimap.initial).minimapShaderProgram ∧
    init_minimap workingHost (cleanup_minimap (init_minimap workingHost Minimap.initial)) =
      cleanup_minimap (init_minimap workingHost Minimap.initial) ∧
    (init_minimap workingHost
      (cleanup_minimap (init_minimap workingHost Minimap.initial))).trailPixelData = none :=
  init_after_cleanup_inert workingHost (init_minimap workingHost Minimap.initial)
    workingHost_program

/-! ### Heading -/

theorem round_lo : roundFrac 24 (15707963258 * 2 ^ 149) (10 ^ 10) = 13176795 * 2 ^ 126 := by
  decide!

theorem round_hi : roundFrac 24 (15707963278 * 2 ^ 149) (10 ^ 10) = 13176795 * 2 ^ 126 := by
  decide!

/-- A `double` within `2 ^ (-40)` of `-π/2` converts to the `float` `-13176795 * 2 ^ (-23)`. -/
theorem toF32_near_neg_half_pi (d : F64)
    (hd : |((d.toRat : ℚ) : ℝ) + Real.pi / 2| ≤ 1 / 2 ^ 40) :
    d.toF32 = ⟨-(13176795 * 2 ^ 126)⟩ := by
  have hP : (0 : ℝ) < 2 ^ 1074 := by positivity
  have e : ((d.toRat : ℚ) : ℝ) = (d.units : ℝ) / 2 ^ 1074 := by
    unfold F64.toRat; push_cast; rfl
  rw [e, abs_le] at hd
  have h1 := Real.pi_gt_d20
  have h2 := Real.pi_lt_d20
  have h40 : (1 : ℝ) / 2 ^ 40 < 1 / 10 ^ 10 := by norm_num
  have hlo : (d.units : ℝ) / 2 ^ 1074 < -(15707963258 / 10 ^ 10) := by
    have : (15707963258 : ℝ) / 10 ^ 10 + 1 / 10 ^ 10 < 3.14159265358979323846 / 2 := by norm_num
    linarith [hd.2]
  have hhi : -(15707963278 / 10 ^ 10) < (d.units : ℝ) / 2 ^ 1074 := by
    have : (3.14159265358979323847 : ℝ) / 2 + 1 / 10 ^ 10 < 15707963278 / 10 ^ 10 := by norm_num
    linarith [hd.1]
  have hlo1 : (d.units : ℝ) * 10 ^ 10 < -(15707963258 * 2 ^ 1074) := by
    have := (div_lt_iff₀ hP).1 hlo
    have h10 : (0 : ℝ) < 10 ^ 10 := by positivity
    have e1 : -(15707963258 / 10 ^ 10 : ℝ) * 2 ^ 1074 * 10 ^ 10 = -(15707963258 * 2 ^ 1074) := by
      field_simp
    nlinarith [mul_lt_mul_of_pos_right this h10]
  have hhi1 : -(15707963278 * 2 ^ 1074) < (d.units : ℝ) * 10 ^ 10 := by
    have := (lt_div_iff₀ hP).1 hhi
    have h10 : (0 : ℝ) < 10 ^ 10 := by positivity
    have e1 : -(15707963278 / 10 ^ 10 : ℝ) * 2 ^ 1074 * 10 ^ 10 = -(15707963278 * 2 ^ 1074) := by
      field_simp
    nlinarith [mul_lt_mul_of_pos_right this h10]
  have hloZ : d.units * 10 ^ 10 < -(15707963258 * 2 ^ 1074) := by exact_mod_cast hlo1
  have hhiZ : -(15707963278 * 2 ^ 1074) < d.units * 10 ^ 10 := by exact_mod_cast hhi1
  have hneg : d.units < 0 := by
    by_contra hc
    have : (0 : ℤ) ≤ d.units * 10 ^ 10 := mul_nonneg (not_lt.1 hc) (by positivity)
    have h0 : (0 : ℤ) < 15707963258 * 2 ^ 1074 := by positivity
    linarith
  obtain ⟨N, hN⟩ : ∃ N : ℕ, d.units = -(N : ℤ) := ⟨d.units.natAbs, by omega⟩
  have hNlo : 15707963258 * 2 ^ 1074 < N * 10 ^ 10 := by
    rw [hN] at hloZ; omega
  have hNhi : N * 10 ^ 10 < 15707963278 * 2 ^ 1074 := by
    rw [hN] at hhiZ; omega
  have hpow : 2 ^ 149 * Nat.pow 2 925 = 2 ^ 1074 := by decide!
  have hDpos : 0 < Nat.pow 2 925 := by decide!
  have hr : roundFrac 24 N (Nat.pow 2 925) = 13176795 * 2 ^ 126 := by
    generalize Nat.pow 2 925 = D at hpow hDpos
    apply le_antisymm
    · rw [← round_hi]
      refine roundFrac_mono (by norm_num) hDpos (by positivity) ?_
      rw [mul_assoc, hpow]; exact hNhi.le
    · rw [← round_lo]
      refine roundFrac_mono (by norm_num) (by positivity) hDpos ?_
      rw [mul_assoc, hpow]; exact hNlo.le
  apply F32.ext_units
  show withSign d.units (roundFrac 24 d.units.natAbs (Nat.pow 2 925)) = _
  have hna : d.units.natAbs = N := by rw [hN, Int.natAbs_neg, Int.natAbs_ofNat]
  rw [hna, withSign_def, if_pos hneg, hr]
  norm_cast

/-- The `float` `-13176795 * 2 ^ (-23)` is within half a unit in the last place of `-π/2`:
it is the `float` nearest to `-π/2`. -/
theorem neg_half_pi_nearest :
    |(((⟨-(13176795 * 2 ^ 126)⟩ : F32).toRat : ℚ) : ℝ) + Real.pi / 2| ≤ 1 / 2 ^ 24 := by
  have e : (((⟨-(13176795 * 2 ^ 126)⟩ : F32).toRat : ℚ) : ℝ) = -(13176795 / 2 ^ 23) := by
    have q : (⟨-(13176795 * 2 ^ 126)⟩ : F32).toRat = -(13176795 / 2 ^ 23) := by
      rw [toRat_grid (z := -13176795) (e := 126) (neg_mul _ _).symm]
      have h2 : (2 : ℚ) ^ 126 / 2 ^ 149 = 1 / 2 ^ 23 := by
        rw [show (2 : ℚ) ^ 149 = 2 ^ 126 * 2 ^ 23 from by rw [← pow_add],
          div_mul_eq_div_div, div_self (by positivity)]
      rw [h2]; ring
    rw [q]; push_cast; ring
  rw [e, abs_le]
  have h1 := Real.pi_gt_d20
  have h2 := Real.pi_lt_d20
  constructor
  · have : (13176795 : ℝ) / 2 ^ 23 - 1 / 2 ^ 24 ≤ 3.14159265358979323846 / 2 := by norm_num
    linarith
  · have : (3.14159265358979323847 : ℝ) / 2 ≤ 13176795 / 2 ^ 23 + 1 / 2 ^ 24 := by norm_num
    linarith

theorem toRat_grid64 {c : F64} {z : ℤ} {e : ℕ} (h : c.units = z * 2 ^ e) :
    c.toRat = z * ((2 : ℚ) ^ e / 2 ^ 1074) := by
  unfold F64.toRat
  rw [h]
  push_cast
  ring

theorem accurateHost_atan2_zero :
    accurateHost.atan2 (F32.ofInt 0).toF64 (F32.ofInt 1).toF64 = ⟨0⟩ := by decide!

theorem accurateHost_atan2 :
    |(((accurateHost.atan2 (F32.ofInt (-1)).toF64 (F32.ofInt 0).toF64).toRat : ℚ) : ℝ) +
      Real.pi / 2| ≤ 1 / 2 ^ 40 := by
  have e0 : accurateHost.atan2 (F32.ofInt (-1)).toF64 (F32.ofInt 0).toF64 =
      ⟨-(7074237752028440 * 2 ^ 1022)⟩ := by decide!
  have e : (((⟨-(7074237752028440 * 2 ^ 1022)⟩ : F64).toRat : ℚ) : ℝ) =
      -(7074237752028440 / 2 ^ 52) := by
    have q : (⟨-(7074237752028440 * 2 ^ 1022)⟩ : F64).toRat = -(7074237752028440 / 2 ^ 52) := by
      rw [toRat_grid64 (z := -7074237752028440) (e := 1022) (neg_mul _ _).symm]
      have h2 : (2 : ℚ) ^ 1022 / 2 ^ 1074 = 1 / 2 ^ 52 := by
        rw [show (2 : ℚ) ^ 1074 = 2 ^ 1022 * 2 ^ 52 from by rw [← pow_add],
          div_mul_eq_div_div, div_self (by positivity)]
      rw [h2]; ring
    rw [q]; push_cast; ring
  rw [e0, e, abs_le]
  have h1 := Real.pi_gt_d20
  have h2 := Real.pi_lt_d20
  constructor
  · have : (7074237752028440 : ℝ) / 2 ^ 52 - 1 / 2 ^ 40 ≤ 3.14159265358979323846 / 2 := by
      norm_num
    linarith
  · have : (3.14159265358979323847 : ℝ) / 2 ≤ 7074237752028440 / 2 ^ 52 + 1 / 2 ^ 40 := by
      norm_num
    linarith

theorem fneg_zero : fneg (F32.ofInt 0) = F32.ofInt 0 := by decide!

theorem fneg_one : fneg (F32.ofInt 1) = F32.ofInt (-1) := by decide!

theorem fneg_neg_one : fneg (F32.ofInt (-1)) = F32.ofInt 1 := by decide!

theorem zero_toF32 : (⟨0⟩ : F64).toF32 = F32.ofInt 0 := by decide!

/-- C12: when the player has not crashed, `update_minimap_dot` stores
`(float)atan2(-planeFront.x, -planeFront.z)`, whatever `planeFront.y` is.  For
`planeFront = (0, y, -1)` and a `libm` with `atan2(0, 1) = 0` the heading is `0`; for
`planeFront = (1, y, 0)` and a `libm` whose `atan2(-1, 0)` is within `2 ^ (-40)` of `-π/2` the
heading is the `float` nearest to `-π/2`. -/
theorem update_minimap_dot_heading (h : Host) (g : Globals) (s : Minimap)
    (hc : g.isCrashed = false) :
    (update_minimap_dot h g s).playerIconAngle =
      (h.atan2 (fneg g.planeFront.1).toF64 (fneg g.planeFront.2.2).toF64).toF32 ∧
    (∀ y1 : F32,
      (update_minimap_dot h { g with planeFront := (g.planeFront.1, y1, g.planeFront.2.2) }
        s).playerIconAngle = (update_minimap_dot h g s).playerIconAngle) ∧
    (g.planeFront.1 = F32.ofInt 0 → g.planeFront.2.2 = F32.ofInt (-1) →
      h.atan2 (F32.ofInt 0).toF64 (F32.ofInt 1).toF64 = ⟨0⟩ →
      (update_minimap_dot h g s).playerIconAngle = F32.ofInt 0) ∧
    (g.planeFront.1 = F32.ofInt 1 → g.planeFront.2.2 = F32.ofInt 0 →
      |(((h.atan2 (F32.ofInt (-1)).toF64 (F32.ofInt 0).toF64).toRat : ℚ) : ℝ) + Real.pi / 2| ≤
        1 / 2 ^ 40 →
      (update_minimap_dot h g s).playerIconAngle = ⟨-(13176795 * 2 ^ 126)⟩ ∧
      |((((update_minimap_dot h g s).playerIconAngle).toRat : ℚ) : ℝ) + Real.pi / 2| ≤
        1 / 2 ^ 24) := by
  have h1 : ∀ g1 : Globals, g1.isCrashed = false →
      (update_minimap_dot h g1 s).playerIconAngle =
        (h.atan2 (fneg g1.planeFront.1).toF64 (fneg g1.planeFront.2.2).toF64).toF32 := by
    intro g1 hg1
    unfold update_minimap_dot
    rw [hg1]
    simp only [Bool.false_eq_true, if_false]
  refine ⟨h1 g hc, fun y1 => ?_, fun hx hz h0 => ?_, fun hx hz hpi => ?_⟩
  · rw [h1 g hc, h1 { g with planeFront := (g.planeFront.1, y1, g.planeFront.2.2) } hc]
  · rw [h1 g hc, hx, hz, fneg_zero, fneg_neg_one, h0, zero_toF32]
  · have e : (update_minimap_dot h g s).playerIconAngle = ⟨-(13176795 * 2 ^ 126)⟩ := by
      rw [h1 g hc, hx, hz, fneg_one, fneg_zero]
      exact toF32_near_neg_half_pi _ hpi
    rw [e]
    exact ⟨rfl, neg_half_pi_nearest⟩

theorem update_minimap_dot_heading_witness :
    (update_minimap_dot accurateHost sampleGlobals Minimap.initial).playerIconAngle =
      F32.ofInt 0 ∧
    (update_minimap_dot accurateHost eastGlobals Minimap.initial).playerIconAngle =
      ⟨-(13176795 * 2 ^ 126)⟩ :=
  ⟨(update_minimap_dot_heading accurateHost sampleGlobals Minimap.initial rfl).2.2.1 rfl rfl
      accurateHost_atan2_zero,
   ((update_minimap_dot_heading accurateHost eastGlobals Minimap.initial rfl).2.2.2 rfl rfl
      accurateHost_atan2).1⟩

/-! ### Edge distances -/

/-- In a counted loop whose iterations other than `i0` do not change the observation `view`,
the observation changes exactly as in iteration `i0`, if that iteration is run. -/
theorem loopFrom_view {σ α : Type} (view : σ → α) (body : ℤ → σ → σ) (i0 : ℤ) (f : α → α)
    (hother : ∀ i s, i ≠ i0 → view (body i s) = view s)
    (hhit : ∀ s, view (body i0 s) = f (view s)) :
    ∀ (n : ℕ) (start : ℤ) (s : σ), view (loopFrom body n start s) =
      if start ≤ i0 ∧ i0 < start + n then f (view s) else view s
  | 0, start, s => by
    have : ¬ (start ≤ i0 ∧ i0 < start + ((0 : ℕ) : ℤ)) := by
      rintro ⟨h1, h2⟩; simp at h2; omega
    rw [if_neg this]; rfl
  | n + 1, start, s => by
    show view (loopFrom body n (start + 1) (body start s)) = _
    rw [loopFrom_view view body i0 f hother hhit n (start + 1) (body start s)]
    by_cases he : start = i0
    · subst he
      have h1 : ¬ (start + 1 ≤ start ∧ start < start + 1 + (n : ℤ)) := by omega
      have h2 : start ≤ start ∧ start < start + ((n + 1 : ℕ) : ℤ) := by
        constructor
        · exact le_refl _
        · push_cast; omega
      rw [if_neg h1, if_pos h2, hhit]
    · rw [hother start s he]
      have hiff : (start + 1 ≤ i0 ∧ i0 < start + 1 + (n : ℤ)) ↔
          (start ≤ i0 ∧ i0 < start + ((n + 1 : ℕ) : ℤ)) := by
        push_cast; omega
      by_cases hc : start + 1 ≤ i0 ∧ i0 < start + 1 + (n : ℤ)
      · rw [if_pos hc, if_pos (hiff.1 hc)]
      · rw [if_neg hc, if_neg (fun h => hc (hiff.2 h))]

theorem forIncl_view {σ α : Type} (view : σ → α) (body : ℤ → σ → σ) (i0 : ℤ) (f : α → α)
    (hother : ∀ i s, i ≠ i0 → view (body i s) = view s)
    (hhit : ∀ s, view (body i0 s) = f (view s)) (lo hi : ℤ) (s : σ) :
    view (forIncl lo hi body s) = if lo ≤ i0 ∧ i0 ≤ hi then f (view s) else view s := by
  unfold forIncl
  rw [loopFrom_view view body i0 f hother hhit]
  have hiff : (lo ≤ i0 ∧ i0 < lo + (((hi + 1 - lo).toNat : ℕ) : ℤ)) ↔ (lo ≤ i0 ∧ i0 ≤ hi) := by
    omega
  by_cases hc : lo ≤ i0 ∧ i0 ≤ hi
  · rw [if_pos hc, if_pos (hiff.2 hc)]
  · rw [if_neg hc, if_neg (fun h => hc (hiff.1 h))]

theorem forIncl_keep {σ α : Type} (view : σ → α) (body : ℤ → σ → σ)
    (hb : ∀ i s, view (body i s) = view s) (lo hi : ℤ) (s : σ) :
    view (forIncl lo hi body s) = view s :=
  loopFrom_invariant (fun t => view t = view s) body (fun i t ht => (hb i t).trans ht) _ _ s rfl

theorem center_eq : MINIMAP_TEXTURE_SIZE / 2 = 128 := by decide

theorem draw_pixel_other (cos_a sin_a : F32) (x y x0 y0 : ℤ) (s : Minimap)
    (hx : 0 ≤ 128 + x0 ∧ 128 + x0 < 256) (hy : 0 ≤ 128 - y0 ∧ 128 - y0 < 256)
    (hne : x ≠ x0 ∨ y ≠ y0) :
    pixelAt (draw_pixel cos_a sin_a y x s) (128 + x0) (128 - y0) =
      pixelAt s (128 + x0) (128 - y0) := by
  unfold draw_pixel
  dsimp only
  rw [center_eq]
  split
  · rfl
  · exact set_pixel_alpha_other _ _ _ _ _ _ _ hx hy (by omega)

theorem draw_pixel_hit (cos_a sin_a : F32) (x0 y0 : ℤ) (s : Minimap)
    (hx : 0 ≤ 128 + x0 ∧ 128 + x0 < 256) (hy : 0 ≤ 128 - y0 ∧ 128 - y0 < 256) :
    pixelAt (draw_pixel cos_a sin_a y0 x0 s) (128 + x0) (128 - y0) =
      (pixelAt s (128 + x0) (128 - y0)).map (stampOn cos_a sin_a x0 y0) := by
  unfold draw_pixel stampOn
  dsimp only
  rw [center_eq]
  generalize icon_sample cos_a sin_a x0 y0 = r
  cases r with
  | none => simp
  | some ca =>
    obtain ⟨c, a⟩ := ca
    exact set_pixel_alpha_at _ _ _ _ _ hx hy

/-- Effect of the raster loops on one pixel of the buffer. -/
theorem rasterize_view (cos_a sin_a : F32) (x0 y0 : ℤ) (s : Minimap)
    (hx : 0 ≤ 128 + x0 ∧ 128 + x0 < 256) (hy : 0 ≤ 128 - y0 ∧ 128 - y0 < 256) :
    pixelAt (rasterize cos_a sin_a s) (128 + x0) (128 - y0) =
      if (icon_bounds cos_a sin_a).2.2.1 ≤ y0 ∧ y0 ≤ (icon_bounds cos_a sin_a).2.2.2 then
        if (icon_bounds cos_a sin_a).1 ≤ x0 ∧ x0 ≤ (icon_bounds cos_a sin_a).2.1 then
          (pixelAt s (128 + x0) (128 - y0)).map (stampOn cos_a sin_a x0 y0)
        else pixelAt s (128 + x0) (128 - y0)
      else pixelAt s (128 + x0) (128 - y0) := by
  unfold rasterize
  dsimp only
  generalize icon_bounds cos_a sin_a = b
  exact forIncl_view (fun t => pixelAt t (128 + x0) (128 - y0))
    (fun y => forIncl b.1 b.2.1 (draw_pixel cos_a sin_a y)) y0
    (fun v => if b.1 ≤ x0 ∧ x0 ≤ b.2.1 then v.map (stampOn cos_a sin_a x0 y0) else v)
    (fun y t hy1 => forIncl_keep (fun u => pixelAt u (128 + x0) (128 - y0)) _
      (fun x u => draw_pixel_other cos_a sin_a x y x0 y0 u hx hy (Or.inr hy1)) _ _ t)
    (fun t => forIncl_view (fun u => pixelAt u (128 + x0) (128 - y0))
      (draw_pixel cos_a sin_a y0) x0 (fun v => v.map (stampOn cos_a sin_a x0 y0))
      (fun x u hx1 => draw_pixel_other cos_a sin_a x y0 x0 y0 u hx hy (Or.inl hx1))
      (fun u => draw_pixel_hit cos_a sin_a x0 y0 u hx hy) _ _ t)
    b.2.2.1 b.2.2.2 s

theorem icon_bounds_upright :
    icon_bounds (F32.ofInt 1) (F32.ofInt 0) = (-28, 28, -20, 20) := by decide!

/-- The pixel `(128 + x, 128 - y)` after `draw_player_icon(0)` on a blank buffer, for a `libm`
with `cos(0) = 1` and `sin(0) = 0`: the stamp of the offset inside the box
`-28 ≤ x ≤ 28`, `-20 ≤ y ≤ 20`, and zero outside. -/
theorem draw_player_icon_pixel (h : Host)
    (hcos : (h.cos (F32.ofInt 0).toF64).toF32 = F32.ofInt 1)
    (hsin : (h.sin (F32.ofInt 0).toF64).toF32 = F32.ofInt 0)
    (s : Minimap) (hbuf : s.trailPixelData = some fun _ => 0) (x y : ℤ)
    (hx : -128 ≤ x ∧ x ≤ 127) (hy : -127 ≤ y ∧ y ≤ 128) :
    pixelAt (draw_player_icon h (F32.ofInt 0) s) (128 + x) (128 - y) =
      some (if (-20 ≤ y ∧ y ≤ 20) ∧ (-28 ≤ x ∧ x ≤ 28) then stamp x y else zeroPixel) := by
  unfold draw_player_icon
  rw [hcos, hsin, rasterize_view _ _ x y s (by omega) (by omega), icon_bounds_upright]
  have hp : pixelAt s (128 + x) (128 - y) = some zeroPixel := by
    unfold pixelAt
    rw [hbuf]
    rfl
  rw [hp]
  dsimp only
  by_cases h1 : -20 ≤ y ∧ y ≤ 20
  · by_cases h2 : -28 ≤ x ∧ x ≤ 28
    · rw [if_pos h1, if_pos h2, if_pos ⟨h1, h2⟩]; rfl
    · rw [if_pos h1, if_neg h2, if_neg (fun h => h2 h.2)]
  · rw [if_neg h1, if_neg (fun h => h1 h.1)]

/-! ### The rasterized icon: exact geometry -/

theorem forceInt_eq {α : Type} (z : ℤ) (f : ℤ → α) : forceInt z f = f z := by
  cases z with
  | ofNat n => cases n <;> rfl
  | negSucc n => cases n <;> rfl

theorem allRange_sound (f : ℤ → Bool) : ∀ (n : ℕ) (i0 : ℤ), allRange f n i0 = true →
    ∀ i, i0 ≤ i → i < i0 + n → f i = true
  | 0, i0, _, i, h1, h2 => by simp at h2; omega
  | n + 1, i0, h, i, h1, h2 => by
    unfold allRange at h
    rw [forceInt_eq, Bool.and_eq_true] at h
    rcases eq_or_lt_of_le h1 with he | hl
    · rw [← he]; exact h.1
    · exact allRange_sound f n (i0 + 1) h.2 i (by omega) (by push_cast at h2; omega)

theorem formVal_edgeForm (a b : ℤ × ℤ) (x y : ℤ) :
    formVal (edgeForm a b) x y = crossZ a b (4 * x, 4 * y) := by
  unfold formVal edgeForm crossZ
  ring

/-- The exact cross product at quarter-pixel vertices and an integer point. -/
theorem cross_quarter (A B : ℤ × ℤ) (x y : ℤ) :
    cross ((A.1 : ℚ) / 4, (A.2 : ℚ) / 4) ((B.1 : ℚ) / 4, (B.2 : ℚ) / 4) ((x : ℚ), (y : ℚ)) =
      (crossZ A B (4 * x, 4 * y) : ℤ) / 16 := by
  unfold cross crossZ
  push_cast
  ring

theorem cross_quarter_vertex (A B C : ℤ × ℤ) :
    cross ((A.1 : ℚ) / 4, (A.2 : ℚ) / 4) ((B.1 : ℚ) / 4, (B.2 : ℚ) / 4)
      ((C.1 : ℚ) / 4, (C.2 : ℚ) / 4) = (crossZ A B C : ℤ) / 16 := by
  unfold cross crossZ
  push_cast
  ring

/-- In an open triangle the three edge functions are positive multiples of the area. -/
theorem open_triangle_cross (p a b c : ℚ × ℚ) (h : InOpenTriangle p a b c) :
    ∃ u v w : ℚ, 0 < u ∧ 0 < v ∧ 0 < w ∧ cross a b p = w * cross a b c ∧
      cross b c p = u * cross a b c ∧ cross c a p = v * cross a b c := by
  obtain ⟨u, v, w, hu, hv, hw, hs, h1, h2⟩ := h
  refine ⟨u, v, w, hu, hv, hw, ?_, ?_, ?_⟩
  · have : u = 1 - v - w := by linarith
    unfold cross; rw [h1, h2, this]; ring
  · have : v = 1 - u - w := by linarith
    unfold cross; rw [h1, h2, this]; ring
  · have : w = 1 - u - v := by linarith
    unfold cross; rw [h1, h2, this]; ring

/-- An integer offset in the open triangle with the quarter-pixel vertices `t` passes the
integer test. -/
theorem insideTri_of_open (t : (ℤ × ℤ) × (ℤ × ℤ) × (ℤ × ℤ)) (x y : ℤ)
    (hnd : crossZ t.1 t.2.1 t.2.2 ≠ 0)
    (h : InOpenTriangle ((x : ℚ), (y : ℚ)) ((t.1.1 : ℚ) / 4, (t.1.2 : ℚ) / 4)
      ((t.2.1.1 : ℚ) / 4, (t.2.1.2 : ℚ) / 4) ((t.2.2.1 : ℚ) / 4, (t.2.2.2 : ℚ) / 4)) :
    insideTri t x y = true := by
  obtain ⟨u, v, w, hu, hv, hw, e1, e2, e3⟩ := open_triangle_cross _ _ _ _ h
  rw [cross_quarter, cross_quarter_vertex] at e1 e2 e3
  unfold insideTri
  simp only [formVal_edgeForm]
  generalize crossZ t.1 t.2.1 (4 * x, 4 * y) = c1 at e1
  generalize crossZ t.2.1 t.2.2 (4 * x, 4 * y) = c2 at e2
  generalize crossZ t.2.2 t.1 (4 * x, 4 * y) = c3 at e3
  generalize crossZ t.1 t.2.1 t.2.2 = d at hnd e1 e2 e3
  have k1 : (c1 : ℚ) = w * d := by linarith
  have k2 : (c2 : ℚ) = u * d := by linarith
  have k3 : (c3 : ℚ) = v * d := by linarith
  rcases lt_or_gt_of_ne hnd with hneg | hpos
  · have hd : (d : ℚ) < 0 := by exact_mod_cast hneg
    have n1 : c1 < 0 := by
      have : (c1 : ℚ) < 0 := by rw [k1]; exact mul_neg_of_pos_of_neg hw hd
      exact_mod_cast this
    have n2 : c2 < 0 := by
      have : (c2 : ℚ) < 0 := by rw [k2]; exact mul_neg_of_pos_of_neg hu hd
      exact_mod_cast this
    have n3 : c3 < 0 := by
      have : (c3 : ℚ) < 0 := by rw [k3]; exact mul_neg_of_pos_of_neg hv hd
      exact_mod_cast this
    rw [if_neg (not_lt.2 hneg.le)]
    simp [n1, n2, n3]
  · have hd : (0 : ℚ) < d := by exact_mod_cast hpos
    have n1 : 0 < c1 := by
      have : (0 : ℚ) < c1 := by rw [k1]; exact mul_pos hw hd
      exact_mod_cast this
    have n2 : 0 < c2 := by
      have : (0 : ℚ) < c2 := by rw [k2]; exact mul_pos hu hd
      exact_mod_cast this
    have n3 : 0 < c3 := by
      have : (0 : ℚ) < c3 := by rw [k3]; exact mul_pos hv hd
      exact_mod_cast this
    rw [if_pos hpos]
    simp [n1, n2, n3]

/-! ### The constants of the icon -/

/-- The coordinates of the eight named points and the two point sizes are multiples of a
quarter pixel. -/
theorem vertex_units :
    (p_nose.1.units = 0 * 2 ^ 147 ∧ p_nose.2.units = 60 * 2 ^ 147) ∧
    (p_tail.1.units = 0 * 2 ^ 147 ∧ p_tail.2.units = (-60) * 2 ^ 147) ∧
    (p_cockpit_left.1.units = (-12) * 2 ^ 147 ∧ p_cockpit_left.2.units = 24 * 2 ^ 147) ∧
    (p_cockpit_right.1.units = 12 * 2 ^ 147 ∧ p_cockpit_right.2.units = 24 * 2 ^ 147) ∧
    (p_tail_left.1.units = (-12) * 2 ^ 147 ∧ p_tail_left.2.units = (-48) * 2 ^ 147) ∧
    (p_tail_right.1.units = 12 * 2 ^ 147 ∧ p_tail_right.2.units = (-48) * 2 ^ 147) ∧
    (p_left_wingtip.1.units = (-90) * 2 ^ 147 ∧ p_left_wingtip.2.units = (-45) * 2 ^ 147) ∧
    (p_right_wingtip.1.units = 90 * 2 ^ 147 ∧ p_right_wingtip.2.units = (-45) * 2 ^ 147) ∧
    NOSE_POINT_SIZE.units = 14 * 2 ^ 147 ∧ TAIL_POINT_SIZE.units = 16 * 2 ^ 147 := by
  decide!

theorem quarter_value {c : F32} {z : ℤ} (h : c.units = z * 2 ^ 147) : c.toRat = (z : ℚ) / 4 := by
  rw [toRat_grid h]
  have two : (2 : ℚ) ^ 147 / 2 ^ 149 = 1 / 4 := by
    rw [show (2 : ℚ) ^ 149 = 2 ^ 147 * 2 ^ 2 from by rw [← pow_add],
      div_mul_eq_div_div, div_self (by positivity)]
    norm_num
  rw [two]; ring

theorem quarter_point {v : Vec2} {z1 z2 : ℤ} (h : v.1.units = z1 * 2 ^ 147 ∧
    v.2.units = z2 * 2 ^ 147) : vecRat v = ((z1 : ℚ) / 4, (z2 : ℚ) / 4) := by
  unfold vecRat
  rw [quarter_value h.1, quarter_value h.2]

/-- The exact values of the vertices of the five triangles and of the circle centres. -/
theorem icon_values :
    vecRat p_nose = (((0 : ℤ) : ℚ) / 4, ((60 : ℤ) : ℚ) / 4) ∧
    vecRat p_tail = (((0 : ℤ) : ℚ) / 4, ((-60 : ℤ) : ℚ) / 4) ∧
    vecRat p_cockpit_left = (((-12 : ℤ) : ℚ) / 4, ((24 : ℤ) : ℚ) / 4) ∧
    vecRat p_cockpit_right = (((12 : ℤ) : ℚ) / 4, ((24 : ℤ) : ℚ) / 4) ∧
    vecRat p_tail_left = (((-12 : ℤ) : ℚ) / 4, ((-48 : ℤ) : ℚ) / 4) ∧
    vecRat p_tail_right = (((12 : ℤ) : ℚ) / 4, ((-48 : ℤ) : ℚ) / 4) ∧
    vecRat p_left_wingtip = (((-90 : ℤ) : ℚ) / 4, ((-45 : ℤ) : ℚ) / 4) ∧
    vecRat p_right_wingtip = (((90 : ℤ) : ℚ) / 4, ((-45 : ℤ) : ℚ) / 4) ∧
    NOSE_POINT_SIZE.toRat = 7 / 2 ∧ TAIL_POINT_SIZE.toRat = 4 := by
  obtain ⟨h1, h2, h3, h4, h5, h6, h7, h8, h9, h10⟩ := vertex_units
  refine ⟨quarter_point h1, quarter_point h2, quarter_point h3, quarter_point h4,
    quarter_point h5, quarter_point h6, quarter_point h7, quarter_point h8, ?_, ?_⟩
  · rw [quarter_value h9]; norm_num
  · rw [quarter_value h10]; norm_num

/-- An offset covered by the icon in the exact sense passes the integer test. -/
theorem interiorB_of_covered (x y : ℤ) (h : IconCovered x y) : interiorB x y = true := by
  obtain ⟨v1, v2, v3, v4, v5, v6, v7, v8, v9, v10⟩ := icon_values
  unfold interiorB
  rcases h with ⟨t, ht, ho⟩ | hn | htl
  · have hany : quarterTriangles.any (fun t => insideTri t x y) = true := by
      unfold iconTriangles at ht
      simp only [List.mem_cons, List.mem_singleton, List.not_mem_nil, or_false] at ht
      unfold quarterTriangles
      simp only [List.any_cons, List.any_nil, Bool.or_false, Bool.or_eq_true]
      rcases ht with rfl | rfl | rfl | rfl | rfl
      · have e1 : vecRat t_fuselage_front.1 = vecRat p_nose := rfl
        have e2 : vecRat t_fuselage_front.2.1 = vecRat p_cockpit_left := rfl
        have e3 : vecRat t_fuselage_front.2.2 = vecRat p_cockpit_right := rfl
        rw [e1, e2, e3, v1, v3, v4] at ho
        exact Or.inl (insideTri_of_open ((0, 60), (-12, 24), (12, 24)) x y (by decide) ho)
      · have e1 : vecRat t_fuselage_back1.1 = vecRat p_cockpit_left := rfl
        have e2 : vecRat t_fuselage_back1.2.1 = vecRat p_tail_left := rfl
        have e3 : vecRat t_fuselage_back1.2.2 = vecRat p_tail_right := rfl
        rw [e1, e2, e3, v3, v5, v6] at ho
        exact Or.inr (Or.inl
          (insideTri_of_open ((-12, 24), (-12, -48), (12, -48)) x y (by decide) ho))
      · have e1 : vecRat t_fuselage_back2.1 = vecRat p_cockpit_left := rfl
        have e2 : vecRat t_fuselage_back2.2.1 = vecRat p_tail_right := rfl
        have e3 : vecRat t_fuselage_back2.2.2 = vecRat p_cockpit_right := rfl
        rw [e1, e2, e3, v3, v6, v4] at ho
        exact Or.inr (Or.inr (Or.inl
          (insideTri_of_open ((-12, 24), (12, -48), (12, 24)) x y (by decide) ho)))
      · have e1 : vecRat t_left_wing.1 = vecRat p_cockpit_left := rfl
        have e2 : vecRat t_left_wing.2.1 = vecRat p_left_wingtip := rfl
        have e3 : vecRat t_left_wing.2.2 = vecRat p_tail_left := rfl
        rw [e1, e2, e3, v3, v7, v5] at ho
        exact Or.inr (Or.inr (Or.inr (Or.inl
          (insideTri_of_open ((-12, 24), (-90, -45), (-12, -48)) x y (by decide) ho))))
      · have e1 : vecRat t_right_wing.1 = vecRat p_cockpit_right := rfl
        have e2 : vecRat t_right_wing.2.1 = vecRat p_right_wingtip := rfl
        have e3 : vecRat t_right_wing.2.2 = vecRat p_tail_right := rfl
        rw [e1, e2, e3, v4, v8, v6] at ho
        exact Or.inr (Or.inr (Or.inr (Or.inr
          (insideTri_of_open ((12, 24), (90, -45), (12, -48)) x y (by decide) ho))))
    rw [hany]; rfl
  · rw [v1, v9] at hn
    unfold distSq at hn
    have : 4 * (x * x + (y - 15) * (y - 15)) < 49 := by
      have h1 : ((4 * (x * x + (y - 15) * (y - 15)) : ℤ) : ℚ) < ((49 : ℤ) : ℚ) := by
        push_cast at hn ⊢
        nlinarith [hn]
      exact_mod_cast h1
    simp [this]
  · rw [v2, v10] at htl
    unfold distSq at htl
    have : x * x + (y + 15) * (y + 15) < 16 := by
      have h1 : ((x * x + (y + 15) * (y + 15) : ℤ) : ℚ) < ((16 : ℤ) : ℚ) := by
        push_cast at htl ⊢
        nlinarith [htl]
      exact_mod_cast h1
    simp [this]

/-- The integer test holds only inside the bounding box of the raster loops. -/
theorem interiorB_box (x y : ℤ) (h : interiorB x y = true) :
    (-28 ≤ x ∧ x ≤ 28) ∧ (-20 ≤ y ∧ y ≤ 20) := by
  unfold interiorB quarterTriangles at h
  simp only [List.any_cons, List.any_nil, Bool.or_false, Bool.or_eq_true,
    decide_eq_true_eq] at h
  have tri : ∀ t : (ℤ × ℤ) × (ℤ × ℤ) × (ℤ × ℤ), insideTri t x y = true →
      (0 < crossZ t.1 t.2.1 t.2.2 ∧ 0 < crossZ t.1 t.2.1 (4 * x, 4 * y) ∧
        0 < crossZ t.2.1 t.2.2 (4 * x, 4 * y) ∧ 0 < crossZ t.2.2 t.1 (4 * x, 4 * y)) ∨
      (¬ 0 < crossZ t.1 t.2.1 t.2.2 ∧ crossZ t.1 t.2.1 (4 * x, 4 * y) < 0 ∧
        crossZ t.2.1 t.2.2 (4 * x, 4 * y) < 0 ∧ crossZ t.2.2 t.1 (4 * x, 4 * y) < 0) := by
    intro t ht
    unfold insideTri at ht
    simp only [formVal_edgeForm] at ht
    by_cases hc : 0 < crossZ t.1 t.2.1 t.2.2
    · rw [if_pos hc] at ht
      simp only [Bool.and_eq_true, decide_eq_true_eq] at ht
      exact Or.inl ⟨hc, ht.1.1, ht.1.2, ht.2⟩
    · rw [if_neg hc] at ht
      simp only [Bool.and_eq_true, decide_eq_true_eq] at ht
      exact Or.inr ⟨hc, ht.1.1, ht.1.2, ht.2⟩
  rcases h with ((h | h | h | h | h) | h) | h
  · have := tri _ h
    simp only [crossZ] at this
    omega
  · have := tri _ h
    simp only [crossZ] at this
    omega
  · have := tri _ h
    simp only [crossZ] at this
    omega
  · have := tri _ h
    simp only [crossZ] at this
    omega
  · have := tri _ h
    simp only [crossZ] at this
    omega
  · constructor
    · constructor <;> nlinarith [sq_nonneg (y - 15), sq_nonneg x]
    · constructor <;> nlinarith [sq_nonneg (y - 15), sq_nonneg x]
  · constructor
    · constructor <;> nlinarith [sq_nonneg (y + 15), sq_nonneg x]
    · constructor <;> nlinarith [sq_nonneg (y + 15), sq_nonneg x]

/-! ### The rasterized icon: evaluation over the bounding box -/

theorem sqrtRange_sound : ∀ n N0 : ℕ, sqrtRange n N0 = true →
    ∀ N, N0 ≤ N → N < N0 + n → sqrtOk N = true
  | 0, _, _, N, h1, h2 => absurd h2 (by omega)
  | n + 1, N0, h, N, h1, h2 => by
    have h0 : (sqrtOk N0 && sqrtRange n (N0 + 1)) = true := h
    rw [Bool.and_eq_true] at h0
    rcases Nat.eq_or_lt_of_le h1 with he | hl
    · rw [← he]; exact h0.1
    · exact sqrtRange_sound n (N0 + 1) h0.2 N hl (by omega)

theorem sqrt_block_0 : sqrtRange 288 0 = true := by decide!

theorem sqrt_block_1 : sqrtRange 288 288 = true := by decide!

theorem sqrt_block_2 : sqrtRange 288 576 = true := by decide!

theorem sqrt_block_3 : sqrtRange 288 864 = true := by decide!

theorem sqrt_block_4 : sqrtRange 288 1152 = true := by decide!

theorem sqrt_block_5 : sqrtRange 288 1440 = true := by decide!

theorem sqrt_block_6 : sqrtRange 288 1728 = true := by decide!

theorem sqrtRange_all (N : ℕ) (h : N < 2016) : sqrtOk N = true := by
  rcases Nat.lt_or_ge N 288 with h0 | h0
  · exact sqrtRange_sound 288 0 sqrt_block_0 N (by omega) (by omega)
  rcases Nat.lt_or_ge N 576 with h1 | h1
  · exact sqrtRange_sound 288 288 sqrt_block_1 N (by omega) (by omega)
  rcases Nat.lt_or_ge N 864 with h2 | h2
  · exact sqrtRange_sound 288 576 sqrt_block_2 N (by omega) (by omega)
  rcases Nat.lt_or_ge N 1152 with h3 | h3
  · exact sqrtRange_sound 288 864 sqrt_block_3 N (by omega) (by omega)
  rcases Nat.lt_or_ge N 1440 with h4 | h4
  · exact sqrtRange_sound 288 1152 sqrt_block_4 N (by omega) (by omega)
  rcases Nat.lt_or_ge N 1728 with h5 | h5
  · exact sqrtRange_sound 288 1440 sqrt_block_5 N (by omega) (by omega)
  exact sqrtRange_sound 288 1728 sqrt_block_6 N (by omega) (by omega)

theorem icon_row_m20_a : segOk (-20, -28, 57) = true := by decide!

theorem icon_row_m19_a : segOk (-19, -28, 57) = true := by decide!

theorem icon_row_m18_a : segOk (-18, -28, 57) = true := by decide!

theorem icon_row_m17_a : segOk (-17, -28, 57) = true := by decide!

theorem icon_row_m16_a : segOk (-16, -28, 57) = true := by decide!

theorem icon_row_m15_a : segOk (-15, -28, 57) = true := by decide!

theorem icon_row_m14_a : segOk (-14, -28, 57) = true := by decide!

theorem icon_row_m13_a : segOk (-13, -28, 57) = true := by decide!

theorem icon_row_m12_a : segOk (-12, -28, 57) = true := by decide!

theorem icon_row_m11_a : segOk (-11, -28, 16) = true := by decide!

theorem icon_row_m11_b : segOk (-11, -12, 11) = true := by decide!

theorem icon_row_m11_c : segOk (-11, -1, 11) = true := by decide!

theorem icon_row_m11_d : segOk (-11, 10, 10) = true := by decide!

theorem icon_row_m11_e : segOk (-11, 20, 9) = true := by decide!

theorem icon_row_m10_a : segOk (-10, -28, 17) = true := by decide!

theorem icon_row_m10_b : segOk (-10, -11, 11) = true := by decide!

theorem icon_row_m10_c : segOk (-10, 0, 11) = true := by decide!

theorem icon_row_m10_d : segOk (-10, 11, 10) = true := by decide!

theorem icon_row_m10_e : segOk (-10, 21, 8) = true := by decide!

theorem icon_row_m9_a : segOk (-9, -28, 19) = true := by decide!

theorem icon_row_m9_b : segOk (-9, -9, 13) = true := by decide!

theorem icon_row_m9_c : segOk (-9, 4, 10) = true := by decide!

theorem icon_row_m9_d : segOk (-9, 14, 15) = true := by decide!

theorem icon_row_m8_a : segOk (-8, -28, 20) = true := by decide!

theorem icon_row_m8_b : segOk (-8, -8, 12) = true := by decide!

theorem icon_row_m8_c : segOk (-8, 4, 10) = true := by decide!

theorem icon_row_m8_d : segOk (-8, 14, 15) = true := by decide!

theorem icon_row_m7_a : segOk (-7, -28, 21) = true := by decide!

theorem icon_row_m7_b : segOk (-7, -7, 12) = true := by decide!

theorem icon_row_m7_c : segOk (-7, 5, 10) = true := by decide!

theorem icon_row_m7_d : segOk (-7, 15, 14) = true := by decide!

theorem icon_row_m6_a : segOk (-6, -28, 22) = true := by decide!

theorem icon_row_m6_b : segOk (-6, -6, 13) = true := by decide!

theorem icon_row_m6_c : segOk (-6, 7, 22) = true := by decide!

theorem icon_row_m5_a : segOk (-5, -28, 23) = true := by decide!

theorem icon_row_m5_b : segOk (-5, -5, 12) = true := by decide!

theorem icon_row_m5_c : segOk (-5, 7, 22) = true := by decide!

theorem icon_row_m4_a : segOk (-4, -28, 24) = true := by decide!

theorem icon_row_m4_b : segOk (-4, -4, 12) = true := by decide!

theorem icon_row_m4_c : segOk (-4, 8, 21) = true := by decide!

theorem icon_row_m3_a : segOk (-3, -28, 26) = true := by decide!

theorem icon_row_m3_b : segOk (-3, -2, 12) = true := by decide!

theorem icon_row_m3_c : segOk (-3, 10, 19) = true := by decide!

theorem icon_row_m2_a : segOk (-2, -28, 27) = true := by decide!

theorem icon_row_m2_b : segOk (-2, -1, 11) = true := by decide!

theorem icon_row_m2_c : segOk (-2, 10, 19) = true := by decide!

theorem icon_row_m1_a : segOk (-1, -28, 29) = true := by decide!

theorem icon_row_m1_b : segOk (-1, 1, 28) = true := by decide!

theorem icon_row_0_a : segOk (0, -28, 32) = true := by decide!

theorem icon_row_0_b : segOk (0, 4, 25) = true := by decide!

theorem icon_row_1_a : segOk (1, -28, 32) = true := by decide!

theorem icon_row_1_b : segOk (1, 4, 25) = true := by decide!

theorem icon_row_2_a : segOk (2, -28, 33) = true := by decide!

theorem icon_row_2_b : segOk (2, 5, 24) = true := by decide!

theorem icon_row_3_a : segOk (3, -28, 57) = true := by decide!

theorem icon_row_4_a : segOk (4, -28, 57) = true := by decide!

theorem icon_row_5_a : segOk (5, -28, 57) = true := by decide!

theorem icon_row_6_a : segOk (6, -28, 57) = true := by decide!

theorem icon_row_7_a : segOk (7, -28, 57) = true := by decide!

theorem icon_row_8_a : segOk (8, -28, 57) = true := by decide!

theorem icon_row_9_a : segOk (9, -28, 57) = true := by decide!

theorem icon_row_10_a : segOk (10, -28, 57) = true := by decide!

theorem icon_row_11_a : segOk (11, -28, 57) = true := by decide!

theorem icon_row_12_a : segOk (12, -28, 57) = true := by decide!

theorem icon_row_13_a : segOk (13, -28, 57) = true := by decide!

theorem icon_row_14_a : segOk (14, -28, 57) = true := by decide!

theorem icon_row_15_a : segOk (15, -28, 57) = true := by decide!

theorem icon_row_16_a : segOk (16, -28, 57) = true := by decide!

theorem icon_row_17_a : segOk (17, -28, 57) = true := by decide!

theorem icon_row_18_a : segOk (18, -28, 57) = true := by decide!

theorem icon_row_19_a : segOk (19, -28, 57) = true := by decide!

theorem icon_row_20_a : segOk (20, -28, 57) = true := by decide!

theorem pixelOk_box (x y : ℤ) (hx : -28 ≤ x ∧ x ≤ 28) (hy : -20 ≤ y ∧ y ≤ 20) :
    pixelOk x y = true := by
  have key : ∀ sg : ℤ × ℤ × ℕ, segOk sg = true → sg.1 = y → sg.2.1 ≤ x →
      x < sg.2.1 + sg.2.2 → pixelOk x y = true := by
    intro sg h1 h2 h3 h4
    have := allRange_sound (fun x => pixelOk x sg.1) sg.2.2 sg.2.1 h1 x h3 h4
    rw [h2] at this
    exact this
  rcases eq_or_lt_of_le (show (-20 : ℤ) ≤ y from by omega) with e0 | e0
  · exact key (-20, -28, 57) icon_row_m20_a (by omega) (by dsimp only; omega) (by dsimp only; omega)
  rcases eq_or_lt_of_le (show (-19 : ℤ) ≤ y from by omega) with e1 | e1
  · exact key (-19, -28, 57) icon_row_m19_a (by omega) (by dsimp only; omega) (by dsimp only; omega)
  rcases eq_or_lt_of_le (show (-18 : ℤ) ≤ y from by omega) with e2 | e2
  · exact key (-18, -28, 57) icon_row_m18_a (by omega) (by dsimp only; omega) (by dsimp only; omega)
  rcases eq_or_lt_of_le (show (-17 : ℤ) ≤ y from by omega) with e3 | e3
  · exact key (-17, -28, 57) icon_row_m17_a (by omega) (by dsimp only; omega) (by dsimp only; omega)
  rcases eq_or_lt_of_le (show (-16 : ℤ) ≤ y from by omega) with e4 | e4
  · exact key (-16, -28, 57) icon_row_m16_a (by omega) (by dsimp only; omega) (by dsimp only; omega)
  rcases eq_or_lt_of_le (show (-15 : ℤ) ≤ y from by omega) with e5 | e5
  · exact key (-15, -28, 57) icon_row_m15_a (by omega) (by dsimp only; omega) (by dsimp only; omega)
  rcases eq_or_lt_of_le (show (-14 : ℤ) ≤ y from by omega) with e6 | e6
  · exact key (-14, -28, 57) icon_row_m14_a (by omega) (by dsimp only; omega) (by dsimp only; omega)
  rcases eq_or_lt_of_le (show (-13 : ℤ) ≤ y from by omega) with e7 | e7
  · exact key (-13, -28, 57) icon_row_m13_a (by omega) (by dsimp only; omega) (by dsimp only; omega)
  rcases eq_or_lt_of_le (show (-12 : ℤ) ≤ y from by omega) with e8 | e8
  · exact key (-12, -28, 57) icon_row_m12_a (by omega) (by dsimp only; omega) (by dsimp only; omega)
  rcases eq_or_lt_of_le (show (-11 : ℤ) ≤ y from by omega) with e9 | e9
  · rcases Int.lt_or_le x (-12) with c0 | c0
    · exact key (-11, -28, 16) icon_row_m11_a (by omega) (by dsimp only; omega) (by dsimp only; omega)
    rcases Int.lt_or_le x (-1) with c1 | c1
    · exact key (-11, -12, 11) icon_row_m11_b (by omega) (by dsimp only; omega) (by dsimp only; omega)
    rcases Int.lt_or_le x (10) with c2 | c2
    · exact key (-11, -1, 11) icon_row_m11_c (by omega) (by dsimp only; omega) (by dsimp only; omega)
    rcases Int.lt_or_le x (20) with c3 | c3
    · exact key (-11, 10, 10) icon_row_m11_d (by omega) (by dsimp only; omega) (by dsimp only; omega)
    exact key (-11, 20, 9) icon_row_m11_e (by omega) (by dsimp only; omega) (by dsimp only; omega)
  rcases eq_or_lt_of_le (show (-10 : ℤ) ≤ y from by omega) with e10 | e10
  · rcases Int.lt_or_le x (-11) with c0 | c0
    · exact key (-10, -28, 17) icon_row_m10_a (by omega) (by dsimp only; omega) (by dsimp only; omega)
    rcases Int.lt_or_le x (0) with c1 | c1
    · exact key (-10, -11, 11) icon_row_m10_b (by omega) (by dsimp only; omega) (by dsimp only; omega)
    rcases Int.lt_or_le x (11) with c2 | c2
    · exact key (-10, 0, 11) icon_row_m10_c (by omega) (by dsimp only; omega) (by dsimp only; omega)
    rcases Int.lt_or_le x (21) with c3 | c3
    · exact key (-10, 11, 10) icon_row_m10_d (by omega) (by dsimp only; omega) (by dsimp only; omega)
    exact key (-10, 21, 8) icon_row_m10_e (by omega) (by dsimp only; omega) (by dsimp only; omega)
  rcases eq_or_lt_of_le (show (-9 : ℤ) ≤ y from by omega) with e11 | e11
  · rcases Int.lt_or_le x (-9) with c0 | c0
    · exact key (-9, -28, 19) icon_row_m9_a (by omega) (by dsimp only; omega) (by dsimp only; omega)
    rcases Int.lt_or_le x (4) with c1 | c1
    · exact key (-9, -9, 13) icon_row_m9_b (by omega) (by dsimp only; omega) (by dsimp only; omega)
    rcases Int.lt_or_le x (14) with c2 | c2
    · exact key (-9, 4, 10) icon_row_m9_c (by omega) (by dsimp only; omega) (by dsimp only; omega)
    exact key (-9, 14, 15) icon_row_m9_d (by omega) (by dsimp only; omega) (by dsimp only; omega)
  rcases eq_or_lt_of_le (show (-8 : ℤ) ≤ y from by omega) with e12 | e12
  · rcases Int.lt_or_le x (-8) with c0 | c0
    · exact key (-8, -28, 20) icon_row_m8_a (by omega) (by dsimp only; omega) (by dsimp only; omega)
    rcases Int.lt_or_le x (4) with c1 | c1
    · exact key (-8, -8, 12) icon_row_m8_b (by omega) (by dsimp only; omega) (by dsimp only; omega)
    rcases Int.lt_or_le x (14) with c2 | c2
    · exact key (-8, 4, 10) icon_row_m8_c (by omega) (by dsimp only; omega) (by dsimp only; omega)
    exact key (-8, 14, 15) icon_row_m8_d (by omega) (by dsimp only; omega) (by dsimp only; omega)
  rcases eq_or_lt_of_le (show (-7 : ℤ) ≤ y from by omega) with e13 | e13
  · rcases Int.lt_or_le x (-7) with c0 | c0
    · exact key (-7, -28, 21) icon_row_m7_a (by omega) (by dsimp only; omega) (by dsimp only; omega)
    rcases Int.lt_or_le x (5) with c1 | c1
    · exact key (-7, -7, 12) icon_row_m7_b (by omega) (by dsimp only; omega) (by dsimp only; omega)
    rcases Int.lt_or_le x (15) with c2 | c2
    · exact key (-7, 5, 10) icon_row_m7_c (by omega) (by dsimp only; omega) (by dsimp only; omega)
    exact key (-7, 15, 14) icon_row_m7_d (by omega) (by dsimp only; omega) (by dsimp only; omega)
  rcases eq_or_lt_of_le (show (-6 : ℤ) ≤ y from by omega) with e14 | e14
  · rcases Int.lt_or_le x (-6) with c0 | c0
    · exact key (-6, -28, 22) icon_row_m6_a (by omega) (by dsimp only; omega) (by dsimp only; omega)
    rcases Int.lt_or_le x (7) with c1 | c1
    · exact key (-6, -6, 13) icon_row_m6_b (by omega) (by dsimp only; omega) (by dsimp only; omega)
    exact key (-6, 7, 22) icon_row_m6_c (by omega) (by dsimp only; omega) (by dsimp only; omega)
  rcases eq_or_lt_of_le (show (-5 : ℤ) ≤ y from by omega) with e15 | e15
  · rcases Int.lt_or_le x (-5) with c0 | c0
    · exact key (-5, -28, 23) icon_row_m5_a (by omega) (by dsimp only; omega) (by dsimp only; omega)
    rcases Int.lt_or_le x (7) with c1 | c1
    · exact key (-5, -5, 12) icon_row_m5_b (by omega) (by dsimp only; omega) (by dsimp only; omega)
    exact key (-5, 7, 22) icon_row_m5_c (by omega) (by dsimp only; omega) (by dsimp only; omega)
  rcases eq_or_lt_of_le (show (-4 : ℤ) ≤ y from by omega) with e16 | e16
  · rcases Int.lt_or_le x (-4) with c0 | c0
    · exact key (-4, -28, 24) icon_row_m4_a (by omega) (by dsimp only; omega) (by dsimp only; omega)
    rcases Int.lt_or_le x (8) with c1 | c1
    · exact key (-4, -4, 12) icon_row_m4_b (by omega) (by dsimp only; omega) (by dsimp only; omega)
    exact key (-4, 8, 21) icon_row_m4_c (by omega) (by dsimp only; omega) (by dsimp only; omega)
  rcases eq_or_lt_of_le (show (-3 : ℤ) ≤ y from by omega) with e17 | e17
  · rcases Int.lt_or_le x (-2) with c0 | c0
    · exact key (-3, -28, 26) icon_row_m3_a (by omega) (by dsimp only; omega) (by dsimp only; omega)
    rcases Int.lt_or_le x (10) with c1 | c1
    · exact key (-3, -2, 12) icon_row_m3_b (by omega) (by dsimp only; omega) (by dsimp only; omega)
    exact key (-3, 10, 19) icon_row_m3_c (by omega) (by dsimp only; omega) (by dsimp only; omega)
  rcases eq_or_lt_of_le (show (-2 : ℤ) ≤ y from by omega) with e18 | e18
  · rcases Int.lt_or_le x (-1) with c0 | c0
    · exact key (-2, -28, 27) icon_row_m2_a (by omega) (by dsimp only; omega) (by dsimp only; omega)
    rcases Int.lt_or_le x (10) with c1 | c1
    · exact key (-2, -1, 11) icon_row_m2_b (by omega) (by dsimp only; omega) (by dsimp only; omega)
    exact key (-2, 10, 19) icon_row_m2_c (by omega) (by dsimp only; omega) (by dsimp only; omega)
  rcases eq_or_lt_of_le (show (-1 : ℤ) ≤ y from by omega) with e19 | e19
  · rcases Int.lt_or_le x (1) with c0 | c0
    · exact key (-1, -28, 29) icon_row_m1_a (by omega) (by dsimp only; omega) (by dsimp only; omega)
    exact key (-1, 1, 28) icon_row_m1_b (by omega) (by dsimp only; omega) (by dsimp only; omega)
  rcases eq_or_lt_of_le (show (0 : ℤ) ≤ y from by omega) with e20 | e20
  · rcases Int.lt_or_le x (4) with c0 | c0
    · exact key (0, -28, 32) icon_row_0_a (by omega) (by dsimp only; omega) (by dsimp only; omega)
    exact key (0, 4, 25) icon_row_0_b (by omega) (by dsimp only; omega) (by dsimp only; omega)
  rcases eq_or_lt_of_le (show (1 : ℤ) ≤ y from by omega) with e21 | e21
  · rcases Int.lt_or_le x (4) with c0 | c0
    · exact key (1, -28, 32) icon_row_1_a (by omega) (by dsimp only; omega) (by dsimp only; omega)
    exact key (1, 4, 25) icon_row_1_b (by omega) (by dsimp only; omega) (by dsimp only; omega)
  rcases eq_or_lt_of_le (show (2 : ℤ) ≤ y from by omega) with e22 | e22
  · rcases Int.lt_or_le x (5) with c0 | c0
    · exact key (2, -28, 33) icon_row_2_a (by omega) (by dsimp only; omega) (by dsimp only; omega)
    exact key (2, 5, 24) icon_row_2_b (by omega) (by dsimp only; omega) (by dsimp only; omega)
  rcases eq_or_lt_of_le (show (3 : ℤ) ≤ y from by omega) with e23 | e23
  · exact key (3, -28, 57) icon_row_3_a (by omega) (by dsimp only; omega) (by dsimp only; omega)
  rcases eq_or_lt_of_le (show (4 : ℤ) ≤ y from by omega) with e24 | e24
  · exact key (4, -28, 57) icon_row_4_a (by omega) (by dsimp only; omega) (by dsimp only; omega)
  rcases eq_or_lt_of_le (show (5 : ℤ) ≤ y from by omega) with e25 | e25
  · exact key (5, -28, 57) icon_row_5_a (by omega) (by dsimp only; omega) (by dsimp only; omega)
  rcases eq_or_lt_of_le (show (6 : ℤ) ≤ y from by omega) with e26 | e26
  · exact key (6, -28, 57) icon_row_6_a (by omega) (by dsimp only; omega) (by dsimp only; omega)
  rcases eq_or_lt_of_le (show (7 : ℤ) ≤ y from by omega) with e27 | e27
  · exact key (7, -28, 57) icon_row_7_a (by omega) (by dsimp only; omega) (by dsimp only; omega)
  rcases eq_or_lt_of_le (show (8 : ℤ) ≤ y from by omega) with e28 | e28
  · exact key (8, -28, 57) icon_row_8_a (by omega) (by dsimp only; omega) (by dsimp only; omega)
  rcases eq_or_lt_of_le (show (9 : ℤ) ≤ y from by omega) with e29 | e29
  · exact key (9, -28, 57) icon_row_9_a (by omega) (by dsimp only; omega) (by dsimp only; omega)
  rcases eq_or_lt_of_le (show (10 : ℤ) ≤ y from by omega) with e30 | e30
  · exact key (10, -28, 57) icon_row_10_a (by omega) (by dsimp only; omega) (by dsimp only; omega)
  rcases eq_or_lt_of_le (show (11 : ℤ) ≤ y from by omega) with e31 | e31
  · exact key (11, -28, 57) icon_row_11_a (by omega) (by dsimp only; omega) (by dsimp only; omega)
  rcases eq_or_lt_of_le (show (12 : ℤ) ≤ y from by omega) with e32 | e32
  · exact key (12, -28, 57) icon_row_12_a (by omega) (by dsimp only; omega) (by dsimp only; omega)
  rcases eq_or_lt_of_le (show (13 : ℤ) ≤ y from by omega) with e33 | e33
  · exact key (13, -28, 57) icon_row_13_a (by omega) (by dsimp only; omega) (by dsimp only; omega)
  rcases eq_or_lt_of_le (show (14 : ℤ) ≤ y from by omega) with e34 | e34
  · exact key (14, -28, 57) icon_row_14_a (by omega) (by dsimp only; omega) (by dsimp only; omega)
  rcases eq_or_lt_of_le (show (15 : ℤ) ≤ y from by omega) with e35 | e35
  · exact key (15, -28, 57) icon_row_15_a (by omega) (by dsimp only; omega) (by dsimp only; omega)
  rcases eq_or_lt_of_le (show (16 : ℤ) ≤ y from by omega) with e36 | e36
  · exact key (16, -28, 57) icon_row_16_a (by omega) (by dsimp only; omega) (by dsimp only; omega)
  rcases eq_or_lt_of_le (show (17 : ℤ) ≤ y from by omega) with e37 | e37
  · exact key (17, -28, 57) icon_row_17_a (by omega) (by dsimp only; omega) (by dsimp only; omega)
  rcases eq_or_lt_of_le (show (18 : ℤ) ≤ y from by omega) with e38 | e38
  · exact key (18, -28, 57) icon_row_18_a (by omega) (by dsimp only; omega) (by dsimp only; omega)
  rcases eq_or_lt_of_le (show (19 : ℤ) ≤ y from by omega) with e39 | e39
  · exact key (19, -28, 57) icon_row_19_a (by omega) (by dsimp only; omega) (by dsimp only; omega)
  exact key (20, -28, 57) icon_row_20_a (by omega) (by dsimp only; omega) (by dsimp only; omega)

/-! ### Integer offsets as `float` points -/

theorem withSign_natAbs_eq (s : ℤ) (n : ℕ) : (withSign s n).natAbs = n := by
  rw [withSign_def]
  split_ifs
  · rw [Int.natAbs_neg, Int.natAbs_ofNat]
  · exact Int.natAbs_ofNat n

theorem isFloat_ofInt (x : ℤ) : IsFloat (F32.ofInt x) := by
  show roundFrac 24 (withSign x (roundFrac 24 (Nat.mul x.natAbs (Nat.pow 2 149)) 1)).natAbs 1 =
    (withSign x (roundFrac 24 (Nat.mul x.natAbs (Nat.pow 2 149)) 1)).natAbs
  rw [withSign_natAbs_eq]
  exact roundFrac_idem (by norm_num) _ _

theorem fsub_zero {c : F32} (hc : IsFloat c) : fsub c (F32.ofInt 0) = c := by
  apply F32.ext_units
  show withSign (Int.sub c.units (F32.ofInt 0).units)
    (roundFrac 24 (Int.natAbs (Int.sub c.units (F32.ofInt 0).units)) 1) = c.units
  rw [ofInt_zero_units, int_sub_fn, sub_zero]
  have : roundFrac 24 c.units.natAbs 1 = c.units.natAbs := hc
  rw [this, withSign_natAbs]

/-- With `cos_a = 1` and `sin_a = 0` the local coordinates of an integer offset are computed
exactly. -/
theorem local_upright (x y : ℤ) :
    fadd (fmul (F32.ofInt x) (F32.ofInt 1)) (fmul (F32.ofInt y) (F32.ofInt 0)) = F32.ofInt x ∧
    fsub (fmul (F32.ofInt y) (F32.ofInt 1)) (fmul (F32.ofInt x) (F32.ofInt 0)) = F32.ofInt y := by
  rw [fmul_one (isFloat_ofInt x), fmul_one (isFloat_ofInt y), fmul_zero, fmul_zero,
    fadd_zero (isFloat_ofInt x), fsub_zero (isFloat_ofInt y)]
  exact ⟨rfl, rfl⟩

theorem ofInt_units_small (x : ℤ) (h : |x| < 2 ^ 24) : (F32.ofInt x).units = x * 2 ^ 149 := by
  show withSign x (roundFrac 24 (Nat.mul x.natAbs (Nat.pow 2 149)) 1) = _
  have h1 : x.natAbs < 2 ^ 24 := natAbs_lt_of_abs_lt (by exact_mod_cast h)
  have h2 : Nat.mul x.natAbs (Nat.pow 2 149) = x.natAbs * 2 ^ 149 := rfl
  rw [h2, roundFrac_small h1]
  have h3 := withSign_scaled x 0 149
  rw [pow_zero, mul_one] at h3
  exact h3

theorem ofInt_toRat (x : ℤ) (h : |x| < 2 ^ 24) : (F32.ofInt x).toRat = (x : ℚ) :=
  toRat_units _ _ (ofInt_units_small x h)

theorem ofInt_onGrid (x : ℤ) (h : |x| ≤ 256) : OnGrid 147 (F32.ofInt x) := by
  refine ⟨4 * x, ?_, ?_⟩
  · rw [abs_mul]; norm_num; linarith
  · rw [ofInt_units_small x (lt_of_le_of_lt h (by norm_num))]
    ring

/-- Addition of two grid values whose sum has at most 24 significant digits is exact. -/
theorem fadd_exact {a b : F32} {x y : ℤ} {e : ℕ} (ha : a.units = x * 2 ^ e)
    (hb : b.units = y * 2 ^ e) (hxy : |x + y| < 2 ^ 24) :
    (fadd a b).units = (x + y) * 2 ^ e := by
  unfold fadd
  simp only [Int.add_def, ha, hb]
  have h1 : x * 2 ^ e + y * 2 ^ e = (x + y) * 2 ^ e := by ring
  rw [h1]
  have h2 : ((x + y) * 2 ^ e).natAbs = (x + y).natAbs * 2 ^ e := by
    rw [Int.natAbs_mul, Int.natAbs_pow]; rfl
  have h3 : (x + y).natAbs < 2 ^ 24 := natAbs_lt_of_abs_lt (by exact_mod_cast hxy)
  rw [h2, roundFrac_small h3, withSign_scaled]

/-- The distance of an integer offset to a point `(0, cy)` is the correctly rounded square
root of the exact squared distance. -/
theorem distance_exact (x y cy : ℤ) (c : Vec2) (hc1 : c.1.units = 0 * 2 ^ 149)
    (hc2 : c.2.units = cy * 2 ^ 149) (hx : |x| ≤ 64) (hy : |y| ≤ 64) (hcy : |cy| ≤ 64) :
    glm_vec2_distance (F32.ofInt x, F32.ofInt y) c =
      fsqrt (natFloat ((0 - x) * (0 - x) + (cy - y) * (cy - y)).toNat) := by
  have hx1 := ofInt_units_small x (lt_of_le_of_lt hx (by norm_num))
  have hy1 := ofInt_units_small y (lt_of_le_of_lt hy (by norm_num))
  rw [abs_le] at hx hy hcy
  have bx : |0 - x| < 2 ^ 24 := by rw [abs_lt]; constructor <;> linarith [hx.1, hx.2]
  have by1 : |cy - y| < 2 ^ 24 := by
    rw [abs_lt]; constructor <;> linarith [hy.1, hy.2, hcy.1, hcy.2]
  have s1 := fsub_exact hc1 hx1 bx
  have s2 := fsub_exact hc2 hy1 by1
  have px : |(0 - x) * (0 - x)| < 2 ^ 24 := by
    rw [abs_lt]; constructor <;> nlinarith [hx.1, hx.2]
  have py : |(cy - y) * (cy - y)| < 2 ^ 24 := by
    rw [abs_lt]; constructor <;> nlinarith [hy.1, hy.2, hcy.1, hcy.2]
  have m1 := fmul_exact s1 s1 (by omega) px
  have m2 := fmul_exact s2 s2 (by omega) py
  have e149 : 149 + 149 - 149 = 149 := by omega
  rw [e149] at m1 m2
  have ps : |(0 - x) * (0 - x) + (cy - y) * (cy - y)| < 2 ^ 24 := by
    rw [abs_lt]; constructor <;> nlinarith [hx.1, hx.2, hy.1, hy.2, hcy.1, hcy.2]
  have a1 := fadd_exact m1 m2 ps
  unfold glm_vec2_distance
  dsimp only
  congr 1
  apply F32.ext_units
  rw [a1]
  have hnn : 0 ≤ (0 - x) * (0 - x) + (cy - y) * (cy - y) := by nlinarith
  show _ = ((((0 - x) * (0 - x) + (cy - y) * (cy - y)).toNat * 2 ^ 149 : ℕ) : ℤ)
  push_cast
  rw [Int.toNat_of_nonneg hnn]

theorem sqrtOk_iff (N : ℕ) (h : sqrtOk N = true) :
    (fsqrt (natFloat N) < NOSE_POINT_SIZE ↔ 4 * N < 49) ∧
    (fsqrt (natFloat N) < TAIL_POINT_SIZE ↔ N < 16) := by
  unfold sqrtOk at h
  rw [Bool.and_eq_true, beq_iff_eq, beq_iff_eq] at h
  exact ⟨decide_eq_decide.1 h.1, decide_eq_decide.1 h.2⟩

/-- Inside the bounding box the two circle tests of `icon_sample` are exact. -/
theorem circle_tests_exact (x y : ℤ) (hx : -28 ≤ x ∧ x ≤ 28) (hy : -20 ≤ y ∧ y ≤ 20) :
    (glm_vec2_distance (F32.ofInt x, F32.ofInt y) p_nose < NOSE_POINT_SIZE ↔
      4 * (x * x + (y - 15) * (y - 15)) < 49) ∧
    (glm_vec2_distance (F32.ofInt x, F32.ofInt y) p_tail < TAIL_POINT_SIZE ↔
      x * x + (y + 15) * (y + 15) < 16) := by
  have ax : |x| ≤ 64 := by rw [abs_le]; constructor <;> linarith [hx.1, hx.2]
  have ay : |y| ≤ 64 := by rw [abs_le]; constructor <;> linarith [hy.1, hy.2]
  have hN1 : 0 ≤ (0 - x) * (0 - x) + (15 - y) * (15 - y) := by nlinarith
  have hN2 : 0 ≤ (0 - x) * (0 - x) + (-15 - y) * (-15 - y) := by nlinarith
  have qx : (0 - x) * (0 - x) ≤ 784 := by
    nlinarith [mul_nonneg (show 0 ≤ x + 28 by linarith [hx.1]) (show 0 ≤ 28 - x by linarith [hx.2])]
  have qy : 0 ≤ (20 - y) * (20 + y) :=
    mul_nonneg (by linarith [hy.2]) (by linarith [hy.1])
  have b1 : ((0 - x) * (0 - x) + (15 - y) * (15 - y)).toNat < 2016 := by
    have : (0 - x) * (0 - x) + (15 - y) * (15 - y) < 2016 := by nlinarith [hy.1, hy.2]
    omega
  have b2 : ((0 - x) * (0 - x) + (-15 - y) * (-15 - y)).toNat < 2016 := by
    have : (0 - x) * (0 - x) + (-15 - y) * (-15 - y) < 2016 := by nlinarith [hy.1, hy.2]
    omega
  have e1 : (0 - x) * (0 - x) + (15 - y) * (15 - y) = x * x + (y - 15) * (y - 15) := by ring
  have e2 : (0 - x) * (0 - x) + (-15 - y) * (-15 - y) = x * x + (y + 15) * (y + 15) := by ring
  have c1 : 4 * ((0 - x) * (0 - x) + (15 - y) * (15 - y)).toNat < 49 ↔
      4 * (x * x + (y - 15) * (y - 15)) < 49 := by
    rw [e1] at hN1 ⊢
    have := Int.toNat_of_nonneg hN1
    constructor <;> intro h <;> omega
  have c2 : ((0 - x) * (0 - x) + (-15 - y) * (-15 - y)).toNat < 16 ↔
      x * x + (y + 15) * (y + 15) < 16 := by
    rw [e2] at hN2 ⊢
    have := Int.toNat_of_nonneg hN2
    constructor <;> intro h <;> omega
  have k1 := (sqrtOk_iff _ (sqrtRange_all _ b1)).1
  have k2 := (sqrtOk_iff _ (sqrtRange_all _ b2)).2
  clear hN1 hN2 qx qy b1 b2 e1 e2
  obtain ⟨h1, h2, _⟩ := vertex_units
  have n1 : p_nose.1.units = 0 * 2 ^ 149 := by rw [h1.1]; norm_num
  have n2 : p_nose.2.units = 15 * 2 ^ 149 := by rw [h1.2]; norm_num
  have t1 : p_tail.1.units = 0 * 2 ^ 149 := by rw [h2.1]; norm_num
  have t2 : p_tail.2.units = (-15) * 2 ^ 149 := by rw [h2.2]; norm_num
  rw [distance_exact x y 15 p_nose n1 n2 ax ay (by norm_num),
    distance_exact x y (-15) p_tail t1 t2 ax ay (by norm_num)]
  exact ⟨k1.trans c1, k2.trans c2⟩

/-- For a triangle with quarter-pixel vertices that has area, `is_inside_triangle` at an
integer offset decides membership in the closed triangle. -/
theorem inside_quarter_iff (a b c : Vec2) (A B C : ℤ × ℤ)
    (ha : a.1.units = A.1 * 2 ^ 147 ∧ a.2.units = A.2 * 2 ^ 147)
    (hb : b.1.units = B.1 * 2 ^ 147 ∧ b.2.units = B.2 * 2 ^ 147)
    (hc : c.1.units = C.1 * 2 ^ 147 ∧ c.2.units = C.2 * 2 ^ 147)
    (hA : |A.1| ≤ 1024 ∧ |A.2| ≤ 1024) (hB : |B.1| ≤ 1024 ∧ |B.2| ≤ 1024)
    (hC : |C.1| ≤ 1024 ∧ |C.2| ≤ 1024) (hnd : crossZ A B C ≠ 0)
    (x y : ℤ) (hx : |x| ≤ 256) (hy : |y| ≤ 256) :
    is_inside_triangle (F32.ofInt x, F32.ofInt y) (a, b, c) = true ↔
      InClosedTriangle ((x : ℚ), (y : ℚ)) (vecRat a) (vecRat b) (vecRat c) := by
  have hg : AllOnGrid 147 (F32.ofInt x, F32.ofInt y) (a, b, c) :=
    ⟨ofInt_onGrid x hx, ofInt_onGrid y hy, ⟨A.1, hA.1, ha.1⟩, ⟨A.2, hA.2, ha.2⟩,
      ⟨B.1, hB.1, hb.1⟩, ⟨B.2, hB.2, hb.2⟩, ⟨C.1, hC.1, hc.1⟩, ⟨C.2, hC.2, hc.2⟩⟩
  have hnd1 : cross (vecRat a) (vecRat b) (vecRat c) ≠ 0 := by
    rw [quarter_point ha, quarter_point hb, quarter_point hc, cross_quarter_vertex]
    have : ((crossZ A B C : ℤ) : ℚ) ≠ 0 := by exact_mod_cast hnd
    exact div_ne_zero this (by norm_num)
  have key := is_inside_triangle_grid 147 (by norm_num) (F32.ofInt x, F32.ofInt y) (a, b, c)
    hg hnd1
  have hp : vecRat (F32.ofInt x, F32.ofInt y) = ((x : ℚ), (y : ℚ)) := by
    unfold vecRat
    rw [ofInt_toRat x (lt_of_le_of_lt hx (by norm_num)),
      ofInt_toRat y (lt_of_le_of_lt hy (by norm_num))]
  rw [hp] at key
  exact key

/-- At an integer offset each of the five triangle tests of `icon_sample` decides membership
in the closed triangle. -/
theorem inside_icon_iff (t : Tri) (ht : t ∈ iconTriangles) (x y : ℤ) (hx : |x| ≤ 256)
    (hy : |y| ≤ 256) :
    is_inside_triangle (F32.ofInt x, F32.ofInt y) t = true ↔
      InClosedTriangle ((x : ℚ), (y : ℚ)) (vecRat t.1) (vecRat t.2.1) (vecRat t.2.2) := by
  obtain ⟨h1, _, h3, h4, h5, h6, h7, h8, _, _⟩ := vertex_units
  unfold iconTriangles at ht
  simp only [List.mem_cons, List.mem_singleton, List.not_mem_nil, or_false] at ht
  rcases ht with rfl | rfl | rfl | rfl | rfl
  · exact inside_quarter_iff p_nose p_cockpit_left p_cockpit_right (0, 60) (-12, 24) (12, 24)
      h1 h3 h4 (by norm_num) (by norm_num) (by norm_num) (by decide) x y hx hy
  · exact inside_quarter_iff p_cockpit_left p_tail_left p_tail_right (-12, 24) (-12, -48)
      (12, -48) h3 h5 h6 (by norm_num) (by norm_num) (by norm_num) (by decide) x y hx hy
  · exact inside_quarter_iff p_cockpit_left p_tail_right p_cockpit_right (-12, 24) (12, -48)
      (12, 24) h3 h6 h4 (by norm_num) (by norm_num) (by norm_num) (by decide) x y hx hy
  · exact inside_quarter_iff p_cockpit_left p_left_wingtip p_tail_left (-12, 24) (-90, -45)
      (-12, -48) h3 h7 h5 (by norm_num) (by norm_num) (by norm_num) (by decide) x y hx hy
  · exact inside_quarter_iff p_cockpit_right p_right_wingtip p_tail_right (12, 24) (90, -45)
      (12, -48) h4 h8 h6 (by norm_num) (by norm_num) (by norm_num) (by decide) x y hx hy

/-- When the five triangle tests and the two circle tests fail, the body of the raster loops
skips the offset. -/
theorem icon_sample_none (cos_a sin_a : F32) (x y : ℤ) (p : Vec2)
    (hp : (fadd (fmul (F32.ofInt x) cos_a) (fmul (F32.ofInt y) sin_a),
      fsub (fmul (F32.ofInt y) cos_a) (fmul (F32.ofInt x) sin_a)) = p)
    (h1 : is_inside_triangle p t_fuselage_front = false)
    (h2 : is_inside_triangle p t_fuselage_back1 = false)
    (h3 : is_inside_triangle p t_fuselage_back2 = false)
    (h4 : is_inside_triangle p t_left_wing = false)
    (h5 : is_inside_triangle p t_right_wing = false)
    (h6 : ¬ glm_vec2_distance p p_nose < NOSE_POINT_SIZE)
    (h7 : ¬ glm_vec2_distance p p_tail < TAIL_POINT_SIZE) :
    icon_sample cos_a sin_a x y = none := by
  unfold icon_sample
  simp only [hp, h1, h2, h3, h4, h5, h6, h7, decide_False, Bool.or_self, Bool.false_eq_true,
    if_false]

/-- An offset of the bounding box that is clear of the icon is left untouched. -/
theorem stamp_clear (x y : ℤ) (hx : -28 ≤ x ∧ x ≤ 28) (hy : -20 ≤ y ∧ y ≤ 20)
    (hcl : IconClear x y) : stamp x y = zeroPixel := by
  obtain ⟨v1, v2, _, _, _, _, _, _, v9, v10⟩ := icon_values
  obtain ⟨htri, hn, htl⟩ := hcl
  have ax : |x| ≤ 256 := by rw [abs_le]; constructor <;> linarith [hx.1, hx.2]
  have ay : |y| ≤ 256 := by rw [abs_le]; constructor <;> linarith [hy.1, hy.2]
  have flag : ∀ t ∈ iconTriangles, is_inside_triangle (F32.ofInt x, F32.ofInt y) t = false := by
    intro t ht
    have := inside_icon_iff t ht x y ax ay
    rw [Bool.eq_false_iff]
    intro hin
    exact htri t ht (this.1 hin)
  have n1 : ¬ 4 * (x * x + (y - 15) * (y - 15)) < 49 := by
    rw [v1, v9] at hn
    unfold distSq at hn
    intro hlt
    have h1 : ((4 * (x * x + (y - 15) * (y - 15)) : ℤ) : ℚ) < ((49 : ℤ) : ℚ) := by
      exact_mod_cast hlt
    push_cast at h1 hn
    nlinarith [hn, h1]
  have n2 : ¬ x * x + (y + 15) * (y + 15) < 16 := by
    rw [v2, v10] at htl
    unfold distSq at htl
    intro hlt
    have h1 : ((x * x + (y + 15) * (y + 15) : ℤ) : ℚ) < ((16 : ℤ) : ℚ) := by
      exact_mod_cast hlt
    push_cast at h1 htl
    nlinarith [htl, h1]
  have hc := circle_tests_exact x y hx hy
  have c1 : ¬ glm_vec2_distance (F32.ofInt x, F32.ofInt y) p_nose < NOSE_POINT_SIZE := by
    rw [hc.1]; exact n1
  have c2 : ¬ glm_vec2_distance (F32.ofInt x, F32.ofInt y) p_tail < TAIL_POINT_SIZE := by
    rw [hc.2]; exact n2
  have hnone : icon_sample (F32.ofInt 1) (F32.ofInt 0) x y = none :=
    icon_sample_none _ _ x y (F32.ofInt x, F32.ofInt y)
      (by rw [(local_upright x y).1, (local_upright x y).2])
      (flag _ (by simp [iconTriangles])) (flag _ (by simp [iconTriangles]))
      (flag _ (by simp [iconTriangles])) (flag _ (by simp [iconTriangles]))
      (flag _ (by simp [iconTriangles])) c1 c2
  unfold stamp stampOn
  rw [hnone]

theorem far_clear (x y : ℤ) (h : FarFromIcon 5 x y) : IconClear x y := by
  obtain ⟨_, _, _, _, _, _, _, _, v9, v10⟩ := icon_values
  obtain ⟨h1, h2, h3⟩ := h
  refine ⟨fun t ht hin => ?_, ?_, ?_⟩
  · have := h1 t ht _ hin
    unfold distSq at this
    simp only [sub_self] at this
    norm_num at this
  · rw [v9]; norm_num at h2 ⊢; linarith
  · rw [v10]; norm_num at h3 ⊢; linarith

/-! ### The icon in the trail buffer -/

theorem workingHost_upright :
    (workingHost.cos (F32.ofInt 0).toF64).toF32 = F32.ofInt 1 ∧
    (workingHost.sin (F32.ofInt 0).toF64).toF32 = F32.ofInt 0 := by decide!

/-- The alpha byte that `draw_player_icon(0)` leaves at an offset passing the integer test. -/
theorem icon_alpha_at (h : Host)
    (hcos : (h.cos (F32.ofInt 0).toF64).toF32 = F32.ofInt 1)
    (hsin : (h.sin (F32.ofInt 0).toF64).toF32 = F32.ofInt 0)
    (s : Minimap) (hbuf : s.trailPixelData = some fun _ => 0) (x y : ℤ)
    (hi : interiorB x y = true) :
    ∃ px : Pixel, pixelAt (draw_player_icon h (F32.ofInt 0) s) (128 + x) (128 - y) = some px ∧
      ((x, y) ∉ featherExceptions → 0 < px.2.2.2) ∧
      ((x, y) ∈ featherExceptions → px.2.2.2 = 0) := by
  obtain ⟨hx, hy⟩ := interiorB_box x y hi
  have hok := pixelOk_box x y hx hy
  unfold pixelOk at hok
  rw [hi] at hok
  simp only [Bool.not_true, Bool.false_or] at hok
  refine ⟨stamp x y, ?_, fun hm => ?_, fun hm => ?_⟩
  · rw [draw_player_icon_pixel h hcos hsin s hbuf x y (by omega) (by omega), if_pos ⟨hy, hx⟩]
  · rw [if_neg hm] at hok
    exact Fin.pos_iff_ne_zero.2 (by simpa using hok)
  · rw [if_pos hm] at hok
    simpa using hok

/-- The offset `(0, 14)` is within `3.5` of the nose point. -/
theorem covered_nose_sample : IconCovered 0 14 := by
  obtain ⟨v1, _, _, _, _, _, _, _, v9, _⟩ := icon_values
  refine Or.inr (Or.inl ?_)
  rw [v1, v9]
  unfold distSq
  norm_num

/-- The offset `(0, -12)` is within `4` of the tail point. -/
theorem covered_tail_edge : IconCovered 0 (-12) := by
  obtain ⟨_, v2, _, _, _, _, _, _, _, v10⟩ := icon_values
  refine Or.inr (Or.inr ?_)
  rw [v2, v10]
  unfold distSq
  norm_num

/-- The offset `(-12, -2)` is strictly inside the left wing, with barycentric coordinates
`251/468`, `6/13`, `1/468`. -/
theorem covered_wing_edge : IconCovered (-12) (-2) := by
  obtain ⟨_, _, v3, _, v5, _, v7, _, _, _⟩ := icon_values
  refine Or.inl ⟨t_left_wing, by simp [iconTriangles], ?_⟩
  have e1 : vecRat t_left_wing.1 = vecRat p_cockpit_left := rfl
  have e2 : vecRat t_left_wing.2.1 = vecRat p_left_wingtip := rfl
  have e3 : vecRat t_left_wing.2.2 = vecRat p_tail_left := rfl
  rw [e1, e2, e3, v3, v7, v5]
  refine ⟨251 / 468, 6 / 13, 1 / 468, by norm_num, by norm_num, by norm_num, by norm_num, ?_, ?_⟩
  · norm_num
  · norm_num

/-- C1 (counterexample): the offset `(0, -12)` is at distance `3` from the tail point and the
offset `(-12, -2)` is strictly inside the left wing, yet after `draw_player_icon(0)` on a
blank buffer the alpha bytes of the pixels `(128, 140)` and `(116, 130)` are `0`. -/
theorem icon_feather_zero_alpha :
    IconCovered 0 (-12) ∧ IconCovered (-12) (-2) ∧
    (∃ px : Pixel, pixelAt (draw_player_icon workingHost (F32.ofInt 0) blankTrail)
      (128 + 0) (128 - (-12)) = some px ∧ px.2.2.2 = 0) ∧
    (∃ px : Pixel, pixelAt (draw_player_icon workingHost (F32.ofInt 0) blankTrail)
      (128 + (-12)) (128 - (-2)) = some px ∧ px.2.2.2 = 0) := by
  refine ⟨covered_tail_edge, covered_wing_edge, ?_, ?_⟩
  · obtain ⟨px, h1, _, h3⟩ := icon_alpha_at workingHost workingHost_upright.1
      workingHost_upright.2 blankTrail rfl 0 (-12) (interiorB_of_covered _ _ covered_tail_edge)
    exact ⟨px, h1, h3 (by decide)⟩
  · obtain ⟨px, h1, _, h3⟩ := icon_alpha_at workingHost workingHost_upright.1
      workingHost_upright.2 blankTrail rfl (-12) (-2)
      (interiorB_of_covered _ _ covered_wing_edge)
    exact ⟨px, h1, h3 (by decide)⟩

/-- C1 (amended): after `draw_player_icon(0)` on a zero-initialised buffer, with a `libm` that
has `cos(0) = 1` and `sin(0) = 0`, every pixel `(128 + x, 128 - y)` whose offset lies strictly
inside one of the five triangles or inside one of the two discs has a positive alpha byte,
unless the offset is one of the ten `featherExceptions`. -/
theorem draw_player_icon_covered (h : Host)
    (hcos : (h.cos (F32.ofInt 0).toF64).toF32 = F32.ofInt 1)
    (hsin : (h.sin (F32.ofInt 0).toF64).toF32 = F32.ofInt 0)
    (s : Minimap) (hbuf : s.trailPixelData = some fun _ => 0) (x y : ℤ)
    (hc : IconCovered x y) (hne : (x, y) ∉ featherExceptions) :
    ∃ px : Pixel, pixelAt (draw_player_icon h (F32.ofInt 0) s) (128 + x) (128 - y) = some px ∧
      0 < px.2.2.2 := by
  obtain ⟨px, h1, h2, _⟩ := icon_alpha_at h hcos hsin s hbuf x y (interiorB_of_covered x y hc)
  exact ⟨px, h1, h2 hne⟩

theorem draw_player_icon_covered_witness :
    ∃ px : Pixel, pixelAt (draw_player_icon workingHost (F32.ofInt 0) blankTrail)
        (128 + 0) (128 - 14) = some px ∧ 0 < px.2.2.2 :=
  draw_player_icon_covered workingHost workingHost_upright.1 workingHost_upright.2 blankTrail rfl
    0 14 covered_nose_sample (by decide)

/-- An integer offset whose quarter-pixel edge functions have two opposite strict signs is
outside the closed triangle. -/
theorem not_closed_of_signs (a b c : ℚ × ℚ) (A B C : ℤ × ℤ)
    (ha : a = ((A.1 : ℚ) / 4, (A.2 : ℚ) / 4)) (hb : b = ((B.1 : ℚ) / 4, (B.2 : ℚ) / 4))
    (hc : c = ((C.1 : ℚ) / 4, (C.2 : ℚ) / 4)) (hnd : crossZ A B C ≠ 0) (x y : ℤ)
    (hs : ¬ ((0 ≤ crossZ A B (4 * x, 4 * y) ∧ 0 ≤ crossZ B C (4 * x, 4 * y) ∧
        0 ≤ crossZ C A (4 * x, 4 * y)) ∨
      (crossZ A B (4 * x, 4 * y) ≤ 0 ∧ crossZ B C (4 * x, 4 * y) ≤ 0 ∧
        crossZ C A (4 * x, 4 * y) ≤ 0))) :
    ¬ InClosedTriangle ((x : ℚ), (y : ℚ)) a b c := by
  intro hin
  have hnd1 : cross a b c ≠ 0 := by
    rw [ha, hb, hc, cross_quarter_vertex]
    have : ((crossZ A B C : ℤ) : ℚ) ≠ 0 := by exact_mod_cast hnd
    exact div_ne_zero this (by norm_num)
  have hsg := (closed_triangle_iff _ a b c hnd1).2 hin
  rw [ha, hb, hc, cross_quarter, cross_quarter, cross_quarter] at hsg
  apply hs
  have pos : ∀ z : ℤ, (0 : ℚ) ≤ (z : ℚ) / 16 → 0 ≤ z := by
    intro z hz
    have : (0 : ℚ) ≤ (z : ℚ) := by linarith
    exact_mod_cast this
  have neg : ∀ z : ℤ, (z : ℚ) / 16 ≤ 0 → z ≤ 0 := by
    intro z hz
    have : (z : ℚ) ≤ 0 := by linarith
    exact_mod_cast this
  rcases hsg with ⟨h1, h2, h3⟩ | ⟨h1, h2, h3⟩
  · exact Or.inl ⟨pos _ h1, pos _ h2, pos _ h3⟩
  · exact Or.inr ⟨neg _ h1, neg _ h2, neg _ h3⟩

/-- The offset `(10, 10)`, inside the bounding box, is clear of the icon. -/
theorem clear_sample : IconClear 10 10 := by
  obtain ⟨v1, v2, v3, v4, v5, v6, v7, v8, v9, v10⟩ := icon_values
  refine ⟨fun t ht => ?_, ?_, ?_⟩
  · unfold iconTriangles at ht
    simp only [List.mem_cons, List.mem_singleton, List.not_mem_nil, or_false] at ht
    rcases ht with rfl | rfl | rfl | rfl | rfl
    · exact not_closed_of_signs _ _ _ (0, 60) (-12, 24) (12, 24) v1 v3 v4 (by decide) 10 10
        (by decide)
    · exact not_closed_of_signs _ _ _ (-12, 24) (-12, -48) (12, -48) v3 v5 v6 (by decide) 10 10
        (by decide)
    · exact not_closed_of_signs _ _ _ (-12, 24) (12, -48) (12, 24) v3 v6 v4 (by decide) 10 10
        (by decide)
    · exact not_closed_of_signs _ _ _ (-12, 24) (-90, -45) (-12, -48) v3 v7 v5 (by decide) 10 10
        (by decide)
    · exact not_closed_of_signs _ _ _ (12, 24) (90, -45) (12, -48) v4 v8 v6 (by decide) 10 10
        (by decide)
  · rw [v1, v9]; unfold distSq; norm_num
  · rw [v2, v10]; unfold distSq; norm_num

/-- C11: after `draw_player_icon(0)` on a zero-initialised buffer, with a `libm` that has
`cos(0) = 1` and `sin(0) = 0`, a pixel `(128 + x, 128 - y)` of the buffer has all four bytes
`0` when its offset is outside the box `-28 ≤ x ≤ 28`, `-20 ≤ y ≤ 20`, or belongs to none of
the five closed triangles and to neither disc, or is farther than `5` from the five triangles
and from both circle centres. -/
theorem draw_player_icon_clear (h : Host)
    (hcos : (h.cos (F32.ofInt 0).toF64).toF32 = F32.ofInt 1)
    (hsin : (h.sin (F32.ofInt 0).toF64).toF32 = F32.ofInt 0)
    (s : Minimap) (hbuf : s.trailPixelData = some fun _ => 0) (x y : ℤ)
    (hx : -128 ≤ x ∧ x ≤ 127) (hy : -127 ≤ y ∧ y ≤ 128)
    (hout : (x < -28 ∨ 28 < x ∨ y < -20 ∨ 20 < y) ∨ IconClear x y ∨ FarFromIcon 5 x y) :
    pixelAt (draw_player_icon h (F32.ofInt 0) s) (128 + x) (128 - y) = some zeroPixel := by
  rw [draw_player_icon_pixel h hcos hsin s hbuf x y hx hy]
  by_cases hb : (-20 ≤ y ∧ y ≤ 20) ∧ (-28 ≤ x ∧ x ≤ 28)
  · rw [if_pos hb]
    have hcl : IconClear x y := by
      rcases hout with h1 | h2 | h3
      · omega
      · exact h2
      · exact far_clear x y h3
    rw [stamp_clear x y hb.2 hb.1 hcl]
  · rw [if_neg hb]

theorem draw_player_icon_clear_witness :
    pixelAt (draw_player_icon workingHost (F32.ofInt 0) blankTrail) (128 + 40) (128 - 0) =
      some zeroPixel ∧
    pixelAt (draw_player_icon workingHost (F32.ofInt 0) blankTrail) (128 + 10) (128 - 10) =
      some zeroPixel :=
  ⟨draw_player_icon_clear workingHost workingHost_upright.1 workingHost_upright.2 blankTrail rfl
      40 0 (by decide) (by decide) (Or.inl (Or.inr (Or.inl (by decide)))),
   draw_player_icon_clear workingHost workingHost_upright.1 workingHost_upright.2 blankTrail rfl
      10 10 (by decide) (by decide) (Or.inr (Or.inl clear_sample))⟩

/-! ### The integer square root -/

end PlaneSim
